import Mathlib

/-!
Verification of the combinational-logic workbench (zero-delay evaluator,
event-driven simulator, SCOAP engine, PODEM ATPG) against its
natural-language specification.  The Python sources are shallowly embedded:
gate evaluators become pure functions over inductive value types, the
mutable circuit state becomes explicit state passing over lists indexed by
declaration position, and the unbounded Python loops (fixed-point
implication, BFS, the PODEM recursion, the event drain loop) become
fuel-indexed recursions.
-/

set_option maxRecDepth 10000

/-- Gate kinds.  The Python sources dispatch on the string field
`self.type`; any string outside the known set falls into the final `else`
branches, which `gOther` represents. -/
inductive GType where
  | gInpt | gAnd | gOr | gNand | gNor | gXor | gXnor | gNot | gBuf | gFanout
  | gOther
deriving DecidableEq, Repr

/-- Binary/unknown-mode signal values used by step1 (zero-delay evaluator)
and step2 (event-driven simulator): the characters "0", "1", "U"
(undefined) and "Z" (high impedance) that those evaluators produce and the
stimulus files supply. -/
inductive SV where
  | s0 | s1 | sU | sZ
deriving DecidableEq, Repr

/-- `clean_inputs = [val for val in input_values if val in {"0", "1"}]`
(step1.py line 30 / step2.py line 33). -/
def cleanInputs (l : List SV) : List SV :=
  l.filter fun v => v == SV.s0 || v == SV.s1

/-- Parity of the binary inputs: `sum(int(inp) for inp in input_values) % 2`
(only reached when every value is "0" or "1"). -/
def xorSumOdd (l : List SV) : Bool :=
  (l.countP fun v => v == SV.s1) % 2 == 1

/-- step1.py `Gate.evaluate` (lines 18-102), as a function from the gate
kind and the inputs' current outputs to the new output.  The `inpt` branch
returns without assigning, so the circuit-level pass never calls this on
`gInpt`; the value given for `gInpt` here is immaterial. -/
def evalZero (t : GType) (l : List SV) : SV :=
  let hasU := l.contains SV.sU
  let hasZ := l.contains SV.sZ
  let clean := cleanInputs l
  match t with
  | GType.gNand =>
      if clean.contains SV.s0 then SV.s1
      else if hasU then SV.sU
      else if hasZ then SV.sZ
      else SV.s0
  | GType.gAnd =>
      if clean.contains SV.s0 then SV.s0
      else if hasU || hasZ then SV.sU
      else SV.s1
  | GType.gOr =>
      if clean.contains SV.s1 then SV.s1
      else if hasU || hasZ then SV.sU
      else SV.s0
  | GType.gNor =>
      if clean.contains SV.s1 then SV.s0
      else if hasU || hasZ then SV.sU
      else SV.s1
  | GType.gXor =>
      if hasU || hasZ then SV.sU
      else if xorSumOdd l then SV.s1 else SV.s0
  | GType.gXnor =>
      if hasU || hasZ then SV.sU
      else if xorSumOdd l then SV.s0 else SV.s1
  | GType.gNot =>
      match l with
      | [] => SV.sU
      | v :: _ =>
          if v == SV.sU || v == SV.sZ then SV.sU
          else if v == SV.s1 then SV.s0 else SV.s1
  | GType.gBuf =>
      match l with
      | [] => SV.sU
      | v :: _ => v
  | GType.gFanout =>
      match l with
      | [] => SV.sU
      | v :: _ => v
  | GType.gInpt => SV.sU
  | GType.gOther => SV.sU

/-- step2.py `Gate.evaluate` pending-output computation (lines 21-118).
Identical to step1 except that `and`, `or` and `nor` check `U` and `Z`
separately and emit `Z` when a `Z` is present without a `U` (and without a
controlling value), the way `nand` does in both revisions. -/
def evalPending (t : GType) (l : List SV) : SV :=
  let hasU := l.contains SV.sU
  let hasZ := l.contains SV.sZ
  let clean := cleanInputs l
  match t with
  | GType.gNand =>
      if clean.contains SV.s0 then SV.s1
      else if hasU then SV.sU
      else if hasZ then SV.sZ
      else SV.s0
  | GType.gAnd =>
      if clean.contains SV.s0 then SV.s0
      else if hasU then SV.sU
      else if hasZ then SV.sZ
      else SV.s1
  | GType.gOr =>
      if clean.contains SV.s1 then SV.s1
      else if hasU then SV.sU
      else if hasZ then SV.sZ
      else SV.s0
  | GType.gNor =>
      if clean.contains SV.s1 then SV.s0
      else if hasU then SV.sU
      else if hasZ then SV.sZ
      else SV.s1
  | GType.gXor =>
      if hasU || hasZ then SV.sU
      else if xorSumOdd l then SV.s1 else SV.s0
  | GType.gXnor =>
      if hasU || hasZ then SV.sU
      else if xorSumOdd l then SV.s0 else SV.s1
  | GType.gNot =>
      match l with
      | [] => SV.sU
      | v :: _ =>
          if v == SV.sU then SV.sU
          else if v == SV.sZ then SV.sU
          else if v == SV.s1 then SV.s0 else SV.s1
  | GType.gBuf =>
      match l with
      | [] => SV.sU
      | v :: _ => v
  | GType.gFanout =>
      match l with
      | [] => SV.sU
      | v :: _ => v
  | GType.gInpt => SV.sU
  | GType.gOther => SV.sU

/-- The controlling value of the four CV-gates (claim C2's `CV`). -/
def cvIn : GType → SV
  | GType.gAnd => SV.s0
  | GType.gNand => SV.s0
  | GType.gOr => SV.s1
  | GType.gNor => SV.s1
  | _ => SV.sU

/-- The output dictated by a controlling input (inverted for nand/nor). -/
def cvOut : GType → SV
  | GType.gAnd => SV.s0
  | GType.gNand => SV.s1
  | GType.gOr => SV.s1
  | GType.gNor => SV.s0
  | _ => SV.sU

/-- The non-controlling result (inverted for nand/nor). -/
def ncvOut : GType → SV
  | GType.gAnd => SV.s1
  | GType.gNand => SV.s0
  | GType.gOr => SV.s0
  | GType.gNor => SV.s1
  | _ => SV.sU

/-- Claim C2's rule, stated from the claim's words: if any input equals CV
the output is the CV-dictated constant; else if any input is U or Z the
output is U, except that nand outputs Z when a Z is present, no U is
present and no controlling 0 is present; else the non-controlling
result. -/
def claimBinaryEval (t : GType) (l : List SV) : SV :=
  if l.contains (cvIn t) then cvOut t
  else if l.contains SV.sU || l.contains SV.sZ then
    (if t == GType.gNand && l.contains SV.sZ && !(l.contains SV.sU)
        && !(l.contains SV.s0) then SV.sZ else SV.sU)
  else ncvOut t

/-- The rule the step2 evaluator actually implements: the `Z`-exception of
the nand gate extends to all four CV-gates (each checks `U` before `Z` and
emits `Z` itself when a `Z` is present without a `U` or a controlling
value). -/
def claimBinaryEvalStep2 (t : GType) (l : List SV) : SV :=
  if l.contains (cvIn t) then cvOut t
  else if l.contains SV.sU || l.contains SV.sZ then
    (if l.contains SV.sZ && !(l.contains SV.sU) then SV.sZ else SV.sU)
  else ncvOut t

/-! ## Step3 D-algebra values (Gate.py) -/

/-- D-algebra signal values of the ATPG stage: the Python strings "0",
"1", "U", "Z", "X", "D", "D′" plus `nil` for the Python value `None`
(`Gate.output` can become `None` through implicit fall-through returns,
and `oppositeVal` returns `None` on non-binary arguments). -/
inductive V where
  | v0 | v1 | vU | vZ | vX | vD | vDp | nil
deriving DecidableEq, Repr

/-- Gate.py `evaluate_not` (lines 93-106).  The flags are passed by the
caller and are computed from the caller's own input list (relevant to
nand/nor/xnor, which feed a singleton through with the original flags).
An empty list raises IndexError in Python; `nil` stands for that
unreachable case. -/
def evaluateNot (inputValues : List V) (hasU hasZ : Bool) : V :=
  let inputVal := inputValues.headD V.nil
  if hasZ || hasU then V.vU
  else if inputVal == V.vD then V.vDp
  else if inputVal == V.vDp then V.vD
  else if inputVal == V.v1 then V.v0
  else if inputVal == V.v0 then V.v1
  else V.vX

/-- Gate.py `evaluate_xor` (lines 108-126). -/
def evaluateXor (inputValues : List V) (hasX hasU hasZ : Bool) : V :=
  if hasZ || hasU then V.vU
  else if hasX then V.vX
  else
    let dCount := inputValues.count V.vD
    let dPrimeCount := inputValues.count V.vDp
    let oneCount := inputValues.count V.v1
    if dCount == 0 && dPrimeCount == 0 then
      (if oneCount % 2 == 1 then V.v1 else V.v0)
    else if dCount % 2 == 1 && dPrimeCount % 2 == 0 then
      (if oneCount % 2 == 1 then V.vDp else V.vD)
    else if dCount % 2 == 1 && dPrimeCount % 2 == 1 then
      (if oneCount % 2 == 1 then V.v0 else V.v1)
    else if dCount % 2 == 0 && dPrimeCount % 2 == 1 then
      (if oneCount % 2 == 1 then V.vD else V.vDp)
    else V.v0

/-- Gate.py `evaluate_or` (lines 128-142).  The final Python branch is
guarded by `all(val == "0")`; when that guard fails the function falls
through and returns `None`, which `nil` represents. -/
def evaluateOr (inputValues : List V) (hasX hasU hasZ : Bool) : V :=
  if hasZ || hasU then V.vU
  else if inputValues.contains V.v1 then V.v1
  else if hasX then V.vX
  else if inputValues.contains V.vD && inputValues.contains V.vDp then V.v1
  else if inputValues.contains V.vD
       && inputValues.all (fun v => v == V.v0 || v == V.vD) then V.vD
  else if inputValues.contains V.vDp
       && inputValues.all (fun v => v == V.v0 || v == V.vDp) then V.vDp
  else if inputValues.all (fun v => v == V.v0) then V.v0
  else V.nil

/-- Gate.py `evaluate_and` (lines 144-158); the final fall-through is as
in `evaluateOr`. -/
def evaluateAnd (inputValues : List V) (hasX hasU hasZ : Bool) : V :=
  if hasZ || hasU then V.vU
  else if inputValues.contains V.v0 then V.v0
  else if hasX then V.vX
  else if inputValues.contains V.vD && inputValues.contains V.vDp then V.v0
  else if inputValues.contains V.vD
       && inputValues.all (fun v => v == V.v1 || v == V.vD) then V.vD
  else if inputValues.contains V.vDp
       && inputValues.all (fun v => v == V.v1 || v == V.vDp) then V.vDp
  else if inputValues.all (fun v => v == V.v1) then V.v1
  else V.nil

/-- Gate.py `evaluate_nand` (lines 83-85): `not` applied to the `and`
result, with the flags of the original inputs. -/
def evaluateNand (inputValues : List V) (hasX hasU hasZ : Bool) : V :=
  evaluateNot [evaluateAnd inputValues hasX hasU hasZ] hasU hasZ

/-- Gate.py `evaluate_nor` (lines 79-81). -/
def evaluateNor (inputValues : List V) (hasX hasU hasZ : Bool) : V :=
  evaluateNot [evaluateOr inputValues hasX hasU hasZ] hasU hasZ

/-- Gate.py `evaluate_xnor` (lines 75-77). -/
def evaluateXnor (inputValues : List V) (hasX hasU hasZ : Bool) : V :=
  evaluateNot [evaluateXor inputValues hasX hasU hasZ] hasU hasZ

/-- Gate.py `evaluate_buf` (lines 87-88); IndexError on an empty list is
represented by `nil`. -/
def evaluateBuf (inputValues : List V) : V := inputValues.headD V.nil

/-- Gate.py `evaluate_fanout` (lines 90-91). -/
def evaluateFanout (inputValues : List V) : V := inputValues.headD V.nil

/-- Claim C3's parity rule, stated from the claim's words: the good-circuit
value is `(count D + count 1) mod 2`, the faulty-circuit value is
`(count D′ + count 1) mod 2`, and the output encodes the pair
good/faulty as 0, 1, D or D′. -/
def xorParitySpec (inputValues : List V) : V :=
  let dCount := inputValues.count V.vD
  let dPrimeCount := inputValues.count V.vDp
  let oneCount := inputValues.count V.v1
  let good := (dCount + oneCount) % 2
  let faulty := (dPrimeCount + oneCount) % 2
  if good == 1 then (if faulty == 1 then V.v1 else V.vD)
  else (if faulty == 1 then V.vDp else V.v0)

/-! ## Cost values and the step3 circuit (Circuit.py) -/

/-- SCOAP cost values.  Python initialises `CC0`, `CC1`, `CO` to
`float('inf')` and otherwise computes with non-negative integers, so the
value domain is the naturals extended with infinity. -/
inductive Cost where
  | fin : ℕ → Cost
  | inf : Cost
deriving DecidableEq, Repr

/-- Addition on costs (`x + y` with `inf + _ = _ + inf = inf`, as for
Python floats). -/
def Cost.cadd : Cost → Cost → Cost
  | Cost.fin a, Cost.fin b => Cost.fin (a + b)
  | _, _ => Cost.inf

/-- Python `<=` on costs. -/
def Cost.cle : Cost → Cost → Bool
  | Cost.fin a, Cost.fin b => a ≤ b
  | Cost.fin _, Cost.inf => true
  | Cost.inf, Cost.fin _ => false
  | Cost.inf, Cost.inf => true

/-- Python `<` on costs. -/
def Cost.clt : Cost → Cost → Bool
  | Cost.fin a, Cost.fin b => a < b
  | Cost.fin _, Cost.inf => true
  | _, _ => false

/-- Binary minimum on costs. -/
def Cost.cmin (a b : Cost) : Cost := if Cost.cle a b then a else b

/-- Python `min` over a generator of costs.  Python raises ValueError on an
empty sequence; the `inf` seed only shows there, and `min(inf, x) = x`
matches the fold on non-empty lists. -/
def cminList (l : List Cost) : Cost := l.foldl Cost.cmin Cost.inf

/-- Python `sum` over a generator of costs (seed 0). -/
def csumList (l : List Cost) : Cost := l.foldl Cost.cadd (Cost.fin 0)

/-- A step3 gate as parsed by Circuit.py: declaration address, (truncated)
name, kind, the declared fan-out field, input references (modelled as
positions in the declaration list, standing for the Python object
references), and the propagation delay. -/
structure G3 where
  address : ℕ
  name : String
  ty : GType
  fanoutF : ℕ
  inputs : List ℕ
  delay : ℕ := 0
deriving DecidableEq, Repr

/-- The step3 netlist: the gates in iteration order of `self.gates`
(declaration order). -/
structure C3 where
  gates : List G3
deriving DecidableEq, Repr

/-- Placeholder gate for out-of-range accesses (never reached on inputs
that satisfy the well-formedness conditions used below). -/
def defaultG3 : G3 := { address := 0, name := "", ty := GType.gOther,
                        fanoutF := 0, inputs := [], delay := 0 }

def gateAt (C : C3) (i : ℕ) : G3 := C.gates.getD i defaultG3

def numGates (C : C3) : ℕ := C.gates.length

/-- `identify_primary_ios` (Circuit.py lines 58-65): primary inputs are the
gates of kind `inpt`, primary outputs the gates whose declared fan-out
field is 0, both in declaration order. -/
def primaryInputs (C : C3) : List ℕ :=
  (List.range (numGates C)).filter fun i => (gateAt C i).ty == GType.gInpt

def primaryOutputs (C : C3) : List ℕ :=
  (List.range (numGates C)).filter fun i => (gateAt C i).fanoutF == 0

/-- Whether some gate of the circuit lists gate `i` among its inputs
(the consumer scan `if gate in other_gate.inputs` of Circuit.py
lines 112-115). -/
def hasConsumer (C : C3) (i : ℕ) : Bool :=
  (List.range (numGates C)).any fun j => (gateAt C j).inputs.contains i

/-- SCOAP controllability/observability state: one cost per gate, in
declaration order (the mutable `CC0`/`CC1`/`CO` fields of the gates). -/
structure ScoapSt where
  cc0 : List Cost
  cc1 : List Cost
  co : List Cost
deriving DecidableEq, Repr

def cc0At (s : ScoapSt) (i : ℕ) : Cost := s.cc0.getD i Cost.inf
def cc1At (s : ScoapSt) (i : ℕ) : Cost := s.cc1.getD i Cost.inf
def coAt (s : ScoapSt) (i : ℕ) : Cost := s.co.getD i Cost.inf

/-- One step of the forward controllability pass (`compute_scoap`,
Circuit.py lines 74-102): gate `i` overwrites its own `CC0`/`CC1` from its
inputs' current values.  The xor/xnor formulas read `inputs[0]` and
`inputs[1]`; Python raises IndexError on shorter lists, so those shapes
are left unchanged here (unreachable under well-formedness). -/
def scoapForwardStep (C : C3) (s : ScoapSt) (i : ℕ) : ScoapSt :=
  let g := gateAt C i
  let ccs0 := g.inputs.map (cc0At s)
  let ccs1 := g.inputs.map (cc1At s)
  match g.ty with
  | GType.gAnd =>
      { s with cc0 := s.cc0.set i ((cminList ccs0).cadd (Cost.fin 1)),
               cc1 := s.cc1.set i ((csumList ccs1).cadd (Cost.fin 1)) }
  | GType.gOr =>
      { s with cc0 := s.cc0.set i ((csumList ccs0).cadd (Cost.fin 1)),
               cc1 := s.cc1.set i ((cminList ccs1).cadd (Cost.fin 1)) }
  | GType.gNand =>
      { s with cc0 := s.cc0.set i ((csumList ccs1).cadd (Cost.fin 1)),
               cc1 := s.cc1.set i ((cminList ccs0).cadd (Cost.fin 1)) }
  | GType.gNor =>
      { s with cc0 := s.cc0.set i ((cminList ccs1).cadd (Cost.fin 1)),
               cc1 := s.cc1.set i ((csumList ccs0).cadd (Cost.fin 1)) }
  | GType.gXor =>
      match g.inputs with
      | a :: b :: _ =>
          { s with
            cc0 := s.cc0.set i ((Cost.cmin ((cc0At s a).cadd (cc0At s b))
                                           ((cc1At s a).cadd (cc1At s b))).cadd (Cost.fin 1)),
            cc1 := s.cc1.set i ((Cost.cmin ((cc1At s a).cadd (cc0At s b))
                                           ((cc0At s a).cadd (cc1At s b))).cadd (Cost.fin 1)) }
      | _ => s
  | GType.gXnor =>
      match g.inputs with
      | a :: b :: _ =>
          { s with
            cc0 := s.cc0.set i ((Cost.cmin ((cc1At s a).cadd (cc0At s b))
                                           ((cc0At s a).cadd (cc1At s b))).cadd (Cost.fin 1)),
            cc1 := s.cc1.set i ((Cost.cmin ((cc0At s a).cadd (cc0At s b))
                                           ((cc1At s a).cadd (cc1At s b))).cadd (Cost.fin 1)) }
      | _ => s
  | GType.gNot =>
      match g.inputs with
      | a :: _ =>
          { s with cc0 := s.cc0.set i ((cc1At s a).cadd (Cost.fin 1)),
                   cc1 := s.cc1.set i ((cc0At s a).cadd (Cost.fin 1)) }
      | _ => s
  | GType.gBuf =>
      match g.inputs with
      | a :: _ =>
          { s with cc0 := s.cc0.set i (cc0At s a), cc1 := s.cc1.set i (cc1At s a) }
      | _ => s
  | GType.gFanout =>
      match g.inputs with
      | a :: _ =>
          { s with cc0 := s.cc0.set i (cc0At s a), cc1 := s.cc1.set i (cc1At s a) }
      | _ => s
  | _ => s

/-- One step of the backward observability pass (`compute_scoap`,
Circuit.py lines 106-151), visiting gate `i`.  Writes happen in statement
order: a declared-fan-out-0 gate first zeroes its own `CO`; a fanout-kind
gate refines its stem, every other kind overwrites its inputs' `CO`.
Shapes on which Python would raise (missing inputs) are left unchanged. -/
def scoapBackStep (C : C3) (s : ScoapSt) (i : ℕ) : ScoapSt :=
  let g := gateAt C i
  let s1 := if g.fanoutF == 0 then { s with co := s.co.set i (Cost.fin 0) } else s
  if g.ty == GType.gFanout then
    if !(hasConsumer C i) then { s1 with co := s1.co.set i (Cost.fin 0) }
    else
      match g.inputs with
      | a :: _ =>
          if Cost.clt (coAt s1 i) (coAt s1 a) then
            { s1 with co := s1.co.set a (coAt s1 i) }
          else s1
      | [] => s1
  else
    match g.ty with
    | GType.gAnd =>
        match g.inputs with
        | a :: b :: _ =>
            let s2 := { s1 with
              co := s1.co.set a (((coAt s1 i).cadd (cc1At s1 b)).cadd (Cost.fin 1)) }
            { s2 with
              co := s2.co.set b (((coAt s2 i).cadd (cc1At s2 a)).cadd (Cost.fin 1)) }
        | _ => s1
    | GType.gOr =>
        match g.inputs with
        | a :: b :: _ =>
            let s2 := { s1 with
              co := s1.co.set a (((coAt s1 i).cadd (cc0At s1 b)).cadd (Cost.fin 1)) }
            { s2 with
              co := s2.co.set b (((coAt s2 i).cadd (cc0At s2 a)).cadd (Cost.fin 1)) }
        | _ => s1
    | GType.gNand =>
        match g.inputs with
        | a :: b :: _ =>
            let s2 := { s1 with
              co := s1.co.set a (((coAt s1 i).cadd (cc1At s1 b)).cadd (Cost.fin 1)) }
            { s2 with
              co := s2.co.set b (((coAt s2 i).cadd (cc1At s2 a)).cadd (Cost.fin 1)) }
        | _ => s1
    | GType.gNor =>
        match g.inputs with
        | a :: b :: _ =>
            let s2 := { s1 with
              co := s1.co.set a (((coAt s1 i).cadd (cc0At s1 b)).cadd (Cost.fin 1)) }
            { s2 with
              co := s2.co.set b (((coAt s2 i).cadd (cc0At s2 a)).cadd (Cost.fin 1)) }
        | _ => s1
    | GType.gXor =>
        (List.range g.inputs.length).foldl (fun st j =>
          let others := g.inputs.eraseIdx j
          let minOtherCC := (cminList (others.map (cc0At st))).cadd
                              (cminList (others.map (cc1At st)))
          let newCO := ((coAt st i).cadd minOtherCC).cadd (Cost.fin 1)
          { st with co := st.co.set (g.inputs.getD j 0) newCO }) s1
    | GType.gXnor =>
        (List.range g.inputs.length).foldl (fun st j =>
          let others := g.inputs.eraseIdx j
          let minOtherCC := (cminList (others.map (cc0At st))).cadd
                              (cminList (others.map (cc1At st)))
          let newCO := ((coAt st i).cadd minOtherCC).cadd (Cost.fin 1)
          { st with co := st.co.set (g.inputs.getD j 0) newCO }) s1
    | GType.gNot =>
        match g.inputs with
        | a :: _ => { s1 with co := s1.co.set a ((coAt s1 i).cadd (Cost.fin 1)) }
        | _ => s1
    | GType.gBuf =>
        match g.inputs with
        | a :: _ => { s1 with co := s1.co.set a ((coAt s1 i).cadd (Cost.fin 1)) }
        | _ => s1
    | _ => s1

/-- The initial SCOAP state: all three fields `float('inf')` from
`Gate.__init__`, then the first loop of `compute_scoap` (Circuit.py
lines 69-72) sets `CC0 = CC1 = 1` on every `inpt` gate. -/
def scoapInit (C : C3) : ScoapSt :=
  let infs := List.replicate (numGates C) Cost.inf
  (List.range (numGates C)).foldl (fun s i =>
      if (gateAt C i).ty == GType.gInpt then
        { s with cc0 := s.cc0.set i (Cost.fin 1), cc1 := s.cc1.set i (Cost.fin 1) }
      else s)
    { cc0 := infs, cc1 := infs, co := infs }

/-- `compute_scoap` (Circuit.py lines 67-153): the forward pass in
declaration order followed by the backward pass in reversed order. -/
def computeScoap (C : C3) : ScoapSt :=
  let fwd := (List.range (numGates C)).foldl (scoapForwardStep C) (scoapInit C)
  ((List.range (numGates C)).reverse).foldl (scoapBackStep C) fwd

/-! ## PODEM (Podem.py) -/

/-- The circuit as PODEM sees it after `compute_scoap` has run: the gates
plus the mutated `CC0`/`CC1`/`CO` fields, one entry per gate in
declaration order. -/
structure PCircuit where
  circ : C3
  cc0 : List Cost
  cc1 : List Cost
  co : List Cost
deriving DecidableEq, Repr

def pcc0 (PC : PCircuit) (i : ℕ) : Cost := PC.cc0.getD i Cost.inf
def pcc1 (PC : PCircuit) (i : ℕ) : Cost := PC.cc1.getD i Cost.inf
def pco (PC : PCircuit) (i : ℕ) : Cost := PC.co.getD i Cost.inf

/-- The target fault: the faulty gate (resolved, as in
`self.circuit.gates.get(...)`, to its position) and the stuck-at value
`fault_value`. -/
structure PFault where
  idx : ℕ
  fval : V
deriving DecidableEq, Repr

/-- The PODEM search state: the gates' `output` fields plus the
`fault_is_activated` flag (the only PODEM attribute that persists across
`get_objective` calls). -/
structure PState where
  out : List V
  activated : Bool
deriving DecidableEq, Repr

def outAt (out : List V) (i : ℕ) : V := out.getD i V.nil

/-- `GATE_PROPERTIES` inversion flag (Gate.py lines 21-34). -/
def inversionOf : GType → Bool
  | GType.gNot => true
  | GType.gNand => true
  | GType.gNor => true
  | GType.gXnor => true
  | _ => false

/-- `GATE_PROPERTIES` non-controlling value; the dictionary default gives
`"X"` for `inpt` and unknown kinds. -/
def ncValue : GType → V
  | GType.gNot => V.v1
  | GType.gNand => V.v1
  | GType.gNor => V.v0
  | GType.gXnor => V.v0
  | GType.gAnd => V.v1
  | GType.gOr => V.v0
  | GType.gXor => V.v0
  | GType.gBuf => V.v1
  | GType.gFanout => V.v1
  | _ => V.vX

/-- Gate.py `d_algebra_evaluate` (lines 37-72) for gate `i`: dispatch on
the kind, then the fault-injection rewrite when the gate is the flagged
faulty one.  `inpt` leaves the output unchanged (the `pass` branch) but
still undergoes fault injection. -/
def dEvalGate (C : C3) (flt : PFault) (out : List V) (i : ℕ) : V :=
  let g := gateAt C i
  let iv := g.inputs.map (outAt out)
  let hasX := iv.contains V.vX
  let hasU := iv.contains V.vU
  let hasZ := iv.contains V.vZ
  let o :=
    match g.ty with
    | GType.gInpt => outAt out i
    | GType.gAnd => evaluateAnd iv hasX hasU hasZ
    | GType.gOr => evaluateOr iv hasX hasU hasZ
    | GType.gXor => evaluateXor iv hasX hasU hasZ
    | GType.gNot => evaluateNot iv hasU hasZ
    | GType.gBuf => evaluateBuf iv
    | GType.gNand => evaluateNand iv hasX hasU hasZ
    | GType.gNor => evaluateNor iv hasX hasU hasZ
    | GType.gXnor => evaluateXnor iv hasX hasU hasZ
    | GType.gFanout => evaluateFanout iv
    | _ => V.vX
  if i == flt.idx then
    if flt.fval == V.v1 && o == V.v0 then V.vDp
    else if flt.fval == V.v0 && o == V.v1 then V.vD
    else o
  else o

/-- Stable insertion of an index into an address-sorted list (used to model
Python's stable `sorted(..., key=lambda g: g.address)`). -/
def insertByAddr (C : C3) (i : ℕ) : List ℕ → List ℕ
  | [] => [i]
  | j :: rest =>
      if (gateAt C j).address ≤ (gateAt C i).address then j :: insertByAddr C i rest
      else i :: j :: rest

/-- Gate positions sorted (stably) by ascending address. -/
def sortedByAddr (C : C3) : List ℕ :=
  (List.range (numGates C)).foldl (fun acc i => insertByAddr C i acc) []

/-- One full evaluation sweep of `imply` (Podem.py lines 172-182): every
gate re-evaluated in address order, sequentially, in place. -/
def implyPass (C : C3) (flt : PFault) (out : List V) : List V :=
  (sortedByAddr C).foldl (fun o i => o.set i (dEvalGate C flt o i)) out

/-- `imply`: sweep until a sweep changes nothing.  The Python loop runs to
the fixed point; on the acyclic netlists the parser produces it stabilises
in at most `numGates` sweeps, so the fuel `numGates + 2` (one extra sweep
to observe stability) reproduces it. -/
def implyFix (C : C3) (flt : PFault) : ℕ → List V → List V
  | 0, out => out
  | fuel + 1, out =>
      let new := implyPass C flt out
      if new == out then new else implyFix C flt fuel new

def imply (C : C3) (flt : PFault) (out : List V) : List V :=
  implyFix C flt (numGates C + 2) out

/-- `success` (Podem.py lines 57-62): some primary output carries D or D′. -/
def podemSuccess (C : C3) (out : List V) : Bool :=
  (primaryOutputs C).any fun i => outAt out i == V.vD || outAt out i == V.vDp

/-- `oppositeVal` (Podem.py lines 65-69); any argument other than "0"/"1"
falls through and yields Python `None`. -/
def oppositeVal : V → V
  | V.v0 => V.v1
  | V.v1 => V.v0
  | _ => V.nil

/-- `x_path_check` BFS (Podem.py lines 36-54): FIFO queue, a visited set,
success on reaching a gate of the `primary_outputs` list, consumers with
output in X/D/D′ are enqueued.  Fuel-indexed: each step either discards an
already-visited node or visits a new one, and every visit enqueues at most
`numGates` nodes, so `(numGates+1)^2 + 1` steps always reach the Python
result. -/
def xPathBFS (C : C3) (out : List V) : ℕ → List ℕ → List ℕ → Bool
  | 0, _, _ => false
  | _ + 1, [], _ => false
  | fuel + 1, node :: queue, visited =>
      if visited.contains node then xPathBFS C out fuel queue visited
      else
        let visited2 := node :: visited
        if (gateAt C node).fanoutF == 0 then true
        else
          let consumers := (List.range (numGates C)).filter fun j =>
            (gateAt C j).inputs.contains node &&
              (outAt out j == V.vX || outAt out j == V.vD || outAt out j == V.vDp)
          xPathBFS C out fuel (queue ++ consumers) visited2

def xPathCheck (C : C3) (out : List V) (g : ℕ) : Bool :=
  xPathBFS C out ((numGates C + 1) * (numGates C + 1) + 1) [g] []

/-- `generate_d_frontier` (Podem.py lines 26-33).  The loop body's `break`
sits inside the `any(...)` test, so the scan stops at the first gate whose
output is X with some D/D′ input, appending it only when the X-path check
passes. -/
def dFrontierScan (C : C3) (out : List V) : List ℕ → List ℕ
  | [] => []
  | i :: rest =>
      if outAt out i == V.vX then
        if (gateAt C i).inputs.any
            (fun j => outAt out j == V.vD || outAt out j == V.vDp) then
          (if xPathCheck C out i then [i] else [])
        else dFrontierScan C out rest
      else dFrontierScan C out rest

def generateDFrontier (C : C3) (out : List V) : List ℕ :=
  dFrontierScan C out (List.range (numGates C))

/-- The set claim C4 describes, stated from the claim's words: all gates
with output X, at least one D/D′ input, and a passing X-path check. -/
def dFrontierClaimSet (C : C3) (out : List V) : List ℕ :=
  (List.range (numGates C)).filter fun i =>
    outAt out i == V.vX
      && (gateAt C i).inputs.any (fun j => outAt out j == V.vD || outAt out j == V.vDp)
      && xPathCheck C out i

/-- `get_easiest_to_satisfy_gate` (Podem.py lines 95-111): scan the
objective gate's inputs, keeping the first strictly-cheaper candidate among
those with output X; `easiest_value` starts at `math.inf`.  An objective
value other than "0"/"1" matches neither branch and yields `None`. -/
def getEasiest (PC : PCircuit) (out : List V) (objGate : ℕ) (objVal : V) : Option ℕ :=
  (Prod.fst ((gateAt PC.circ objGate).inputs.foldl
    (fun (acc : Option ℕ × Cost) g =>
      if outAt out g == V.vX then
        if objVal == V.v0 then
          (if Cost.clt (pcc0 PC g) acc.2 then (some g, pcc0 PC g) else acc)
        else if objVal == V.v1 then
          (if Cost.clt (pcc1 PC g) acc.2 then (some g, pcc1 PC g) else acc)
        else acc
      else acc)
    (none, Cost.inf)))

/-- `get_hardest_to_satisfy_gate` (Podem.py lines 114-130): as above but
keeping the first strictly-larger candidate; `hardest_value` starts at
`-math.inf`, which `none` represents (every cost exceeds it). -/
def getHardest (PC : PCircuit) (out : List V) (objGate : ℕ) (objVal : V) : Option ℕ :=
  (Prod.fst ((gateAt PC.circ objGate).inputs.foldl
    (fun (acc : Option ℕ × Option Cost) g =>
      if outAt out g == V.vX then
        if objVal == V.v0 then
          (if (match acc.2 with
               | none => true
               | some b => Cost.clt b (pcc0 PC g)) then (some g, some (pcc0 PC g)) else acc)
        else if objVal == V.v1 then
          (if (match acc.2 with
               | none => true
               | some b => Cost.clt b (pcc1 PC g)) then (some g, some (pcc1 PC g)) else acc)
        else acc
      else acc)
    (none, none)))

/-- `check_imply_gate` (Podem.py lines 133-144).  For a value other than
"0"/"1" Python returns `None`, which the call site treats as false. -/
def checkImplyGate (t : GType) (v : V) : Bool :=
  if v == V.v1 then !(t == GType.gOr || t == GType.gNand)
  else if v == V.v0 then !(t == GType.gAnd || t == GType.gNor)
  else false

/-- The child chosen by one iteration of the `backtrace` loop (Podem.py
lines 158-164): `check_imply_gate` is asked about the current walk gate
`tpi` with the possibly flipped value `tv2`, while both selector calls
receive the enclosing call's `objective_gate`/`objective_value`
arguments. -/
def backtraceChild (PC : PCircuit) (out : List V) (tpi : ℕ) (tv2 : V)
    (objGate : ℕ) (objVal : V) : Option ℕ :=
  if checkImplyGate (gateAt PC.circ tpi).ty tv2 then getHardest PC out objGate objVal
  else getEasiest PC out objGate objVal

/-- The child claim C5 predicts, stated from the claim's words: flip the
value at an inverting gate, then take the child (among inputs with output
X) of largest target-value controllability — CC0 when the flipped target
is 0, CC1 when it is 1 — exactly for AND wanting 1, OR wanting 0, NAND
wanting 0, NOR wanting 1, and the smallest one otherwise.  First match
wins ties, mirroring the scan order. -/
def claimHardPair (t : GType) (v : V) : Bool :=
  (t == GType.gAnd && v == V.v1) || (t == GType.gOr && v == V.v0)
    || (t == GType.gNand && v == V.v0) || (t == GType.gNor && v == V.v1)

def claimBacktraceChild (PC : PCircuit) (out : List V) (tpi : ℕ) (tv2 : V) : Option ℕ :=
  if claimHardPair (gateAt PC.circ tpi).ty tv2 then getHardest PC out tpi tv2
  else getEasiest PC out tpi tv2

/-- `backtrace` (Podem.py lines 147-169).  The Python body is a `while`
loop around a recursive call; both are folded into one fuel-indexed
recursion: entering the recursive call restarts with the chosen child as
the new objective, and returning from it re-runs the loop test.  The paths
on which Python raises (a `None` child flowing into `target_pi.type`) are
modelled as `none`. -/
def backtraceAux (PC : PCircuit) (out : List V) :
    ℕ → ℕ → V → ℕ → V → Option (ℕ × V)
  | 0, _, _, _, _ => none
  | fuel + 1, objGate, objVal, tpi, tv =>
      if (gateAt PC.circ tpi).ty == GType.gInpt then some (tpi, tv)
      else
        let tv2 := if inversionOf (gateAt PC.circ tpi).ty then oppositeVal tv else tv
        match backtraceChild PC out tpi tv2 objGate objVal with
        | none => none
        | some c =>
            match backtraceAux PC out fuel c tv2 c tv2 with
            | none => none
            | some (np, nv) => backtraceAux PC out fuel objGate objVal np nv

def backtrace (PC : PCircuit) (out : List V) (objGate : ℕ) (objVal : V) :
    Option (ℕ × V) :=
  backtraceAux PC out (2 * numGates PC.circ + 4) objGate objVal objGate objVal

/-- Python `min(self.D_Frontier, key=lambda gate: gate.CO)`: first element
of minimal key. -/
def minByCO (PC : PCircuit) (g0 : ℕ) (rest : List ℕ) : ℕ :=
  rest.foldl (fun best g => if Cost.clt (pco PC g) (pco PC best) then g else best) g0

/-- `get_objective` (Podem.py lines 72-92).  Returns the objective gate
(`none` for Python `None`), the objective value, and the updated
`fault_is_activated` flag. -/
def getObjective (PC : PCircuit) (flt : PFault) (st : PState) :
    Option ℕ × V × Bool :=
  let fo := outAt st.out flt.idx
  let act := st.activated || fo == V.vD || fo == V.vDp
  if !act then
    if fo == V.v1 || fo == V.v0 then (none, V.nil, act)
    else (some flt.idx, oppositeVal flt.fval, act)
  else
    match generateDFrontier PC.circ st.out with
    | [] => (none, V.vX, act)
    | g0 :: rest =>
        let g := minByCO PC g0 rest
        match (gateAt PC.circ g).inputs.find? (fun j => outAt st.out j == V.vX) with
        | some inp => (some inp, ncValue (gateAt PC.circ g).ty, act)
        | none => (none, V.vX, act)

/-- `podem_recursive` (Podem.py lines 185-221), fuel-indexed (the Python
recursion has no explicit bound; exhausted fuel reports failure). -/
def podemRecursive (PC : PCircuit) (flt : PFault) : ℕ → PState → Bool × PState
  | 0, st => (false, st)
  | fuel + 1, st =>
      if podemSuccess PC.circ st.out then (true, st)
      else
        match getObjective PC flt st with
        | (none, _, act) => (false, { st with activated := act })
        | (some objGate, objVal, act) =>
            let st1 : PState := { st with activated := act }
            match backtrace PC st1.out objGate objVal with
            | none => (false, st1)
            | some (tpi, tv) =>
                let st2 : PState := { st1 with out := imply PC.circ flt (st1.out.set tpi tv) }
                match podemRecursive PC flt fuel st2 with
                | (true, st3) => (true, st3)
                | (false, st3) =>
                    let st4 : PState :=
                      { st3 with out := imply PC.circ flt (st3.out.set tpi (oppositeVal tv)) }
                    match podemRecursive PC flt fuel st4 with
                    | (true, st5) => (true, st5)
                    | (false, st5) =>
                        let st6 : PState :=
                          { st5 with out := imply PC.circ flt (st5.out.set tpi V.vX) }
                        (false, st6)

/-- The test-pattern projection of `generate_test_vector` (Podem.py
lines 243-252): D ↦ "1", D′ ↦ "0", all else unchanged. -/
def mapDOut : V → V
  | V.vD => V.v1
  | V.vDp => V.v0
  | v => v

/-- `generate_test_vector` (Podem.py lines 224-254).  `podem_init` clears
every output to X; the fault gate (the name-keyed `gates.get` lookup,
modelled by its resolved position) is flagged with `fault_value` "1" or
"0"; on success the primary inputs' outputs are collected through
`mapDOut`.  (`podem_reset` and the fault-flag reset do not touch gate
outputs, so the collected pattern is the final search state's.) -/
def generateTestVector (PC : PCircuit) (faultIdx stuckValue : ℕ) (fuel : ℕ) :
    Option (List V) :=
  let flt : PFault := { idx := faultIdx, fval := if stuckValue == 1 then V.v1 else V.v0 }
  let st0 : PState := { out := List.replicate (numGates PC.circ) V.vX, activated := false }
  let r := podemRecursive PC flt fuel st0
  if r.1 then
    some ((primaryInputs PC.circ).map fun i => mapDOut (outAt r.2.out i))
  else none

/-! ## ATPG-stage parser naming and gate-map rekeying (Circuit.py) -/

/-- Python `name[:-3]` on a character sequence: drop the final three
characters (shorter strings become empty, as with Python slicing). -/
def truncName (s : List Char) : List Char := s.take (s.length - 3)

/-- Python dict assignment `m[k] = v`: replace the value at an existing
key in place, otherwise append a fresh binding. -/
def dictInsert (m : List (List Char × G3)) (k : List Char) (v : G3) :
    List (List Char × G3) :=
  if m.any (fun p => p.1 == k) then
    m.map fun p => if p.1 == k then (k, v) else p
  else m ++ [(k, v)]

/-- Python `dict.get(k, None)`. -/
def dictGet (m : List (List Char × G3)) (k : List Char) : Option G3 :=
  (m.find? (fun p => p.1 == k)).map Prod.snd

/-- Line 26 of Circuit.py: every matched (non-branch) gate line stores the
gate under `name[:-3]`. -/
def parseStoredNames (decls : List (List Char × G3)) : List (List Char × G3) :=
  decls.map fun p => (truncName p.1, p.2)

/-- Line 56 of Circuit.py: `self.gates = {value.name: value for ...}` —
the address-keyed map is rebuilt keyed by gate name, later bindings
replacing earlier ones with the same name. -/
def rekeyByName (gs : List (List Char × G3)) : List (List Char × G3) :=
  gs.foldl (fun m p => dictInsert m p.1 p.2) []

/-! ## Event-driven simulator (step2.py) -/

/-- `Gate.evaluate` scheduling tail (step2.py lines 120-131): drop any
event already scheduled for the same fire-time, then push the new one.
The per-gate heap is modelled as an unordered list; only the minimum
extraction order matters. -/
def scheduleEvent (q : List (ℕ × SV)) (t : ℕ) (v : SV) : List (ℕ × SV) :=
  (q.filter fun e => e.1 != t) ++ [(t, v)]

/-- Extraction of one least-fire-time event (the first such entry; the
scheduling discipline keeps fire-times pairwise distinct, so the
value tiebreak of Python's tuple heap never fires). -/
def popMinTime : List (ℕ × SV) → Option ((ℕ × SV) × List (ℕ × SV))
  | [] => none
  | e :: rest =>
      match popMinTime rest with
      | none => some (e, rest)
      | some (m, rest2) =>
          if e.1 ≤ m.1 then some (e, rest) else some (m, e :: rest2)

/-- `Gate.update_output` (step2.py lines 134-137): pop every scheduled
event with fire-time at most `t`, in heap order, committing each popped
value to the output; returns the remaining queue and the final output. -/
def updateOutputGo : ℕ → List (ℕ × SV) → ℕ → SV → List (ℕ × SV) × SV
  | 0, q, _, o => (q, o)
  | fuel + 1, q, t, o =>
      match popMinTime q with
      | none => (q, o)
      | some (e, q2) =>
          if e.1 ≤ t then updateOutputGo fuel q2 t e.2 else (q, o)

def updateOutput (q : List (ℕ × SV)) (t : ℕ) (o : SV) : List (ℕ × SV) × SV :=
  updateOutputGo q.length q t o

/-- Lexicographic order on the global queue's `(fire_time, address)`
keys. -/
def pairLe (a b : ℕ × ℕ) : Bool := a.1 < b.1 || (a.1 == b.1 && a.2 ≤ b.2)

/-- Extraction of the least `(fire_time, address)` entry of the global
queue (Python's heapq on `(time, address, gate)` tuples; addresses are
modelled by declaration positions, which under the well-formedness
hypotheses below are ordered like the addresses). -/
def popMinPair : List (ℕ × ℕ) → Option ((ℕ × ℕ) × List (ℕ × ℕ))
  | [] => none
  | e :: rest =>
      match popMinPair rest with
      | none => some (e, rest)
      | some (m, rest2) =>
          if pairLe e m then some (e, rest) else some (m, e :: rest2)

/-- The event simulator's state: gate outputs, per-gate scheduled-event
queues, and the global timing queue. -/
structure EvState where
  out : List SV
  locals : List (List (ℕ × SV))
  heap : List (ℕ × ℕ)
deriving DecidableEq, Repr

def svAt (out : List SV) (i : ℕ) : SV := out.getD i SV.sU

/-- The gates that list gate `i` among their inputs, in declaration order
(`for fanout_gate in self.gates.values(): if gate in fanout_gate.inputs`). -/
def consumersList (C : C3) (i : ℕ) : List ℕ :=
  (List.range (numGates C)).filter fun j => (gateAt C j).inputs.contains i

/-- step2 `Gate.evaluate` at time `t` for gate `i`: `inpt` returns before
scheduling anything; otherwise the pending output is computed from the
inputs' current outputs and scheduled at `t + delay`. -/
def gateEvaluate2 (C : C3) (st : EvState) (t : ℕ) (i : ℕ) : EvState :=
  let g := gateAt C i
  if g.ty == GType.gInpt then st
  else
    let pending := evalPending g.ty (g.inputs.map (svAt st.out))
    { st with
      locals := st.locals.set i (scheduleEvent (st.locals.getD i []) (t + g.delay) pending) }

/-- The consumer-rescheduling loop of step2.py (lines 271-275 and
282-286): each consumer of gate `i` is evaluated and an entry is pushed on
the global queue. -/
def notifyConsumers (C : C3) (t : ℕ) (i : ℕ) (st : EvState) : EvState :=
  (consumersList C i).foldl
    (fun s j =>
      let s1 := gateEvaluate2 C s t j
      { s1 with heap := s1.heap ++ [(t + (gateAt C j).delay, j)] })
    st

/-- The stimulus-application block of the main loop (step2.py
lines 263-276): each `inpt` gate whose address the vector maps to a value
different from its current output is overwritten, and its consumers are
evaluated and scheduled. -/
def applyStimulus (C : C3) (vec : List (ℕ × SV)) (t : ℕ) (st : EvState) : EvState :=
  (List.range (numGates C)).foldl
    (fun s i =>
      let g := gateAt C i
      match vec.find? (fun p => p.1 == g.address) with
      | some p =>
          if g.ty == GType.gInpt && svAt s.out i != p.2 then
            notifyConsumers C t i { s with out := s.out.set i p.2 }
          else s
      | none => s)
    st

/-- The event-drain block of the main loop (step2.py lines 279-286): while
the queue head fires at the current time, pop it, commit the gate's
scheduled outputs, and reschedule its consumers. -/
def drain (C : C3) (t : ℕ) : ℕ → EvState → EvState
  | 0, st => st
  | fuel + 1, st =>
      match popMinPair st.heap with
      | none => st
      | some (e, h2) =>
          if e.1 == t then
            let st1 : EvState := { st with heap := h2 }
            let r := updateOutput (st1.locals.getD e.2 []) t (svAt st1.out e.2)
            let st2 : EvState :=
              { st1 with locals := st1.locals.set e.2 r.1, out := st1.out.set e.2 r.2 }
            drain C t fuel (notifyConsumers C t e.2 st2)
          else st

def initEvState (C : C3) : EvState :=
  { out := List.replicate (numGates C) SV.sU,
    locals := List.replicate (numGates C) [],
    heap := [] }

/-- One iteration of `run_simulation_for_vectors` (step2.py lines 255-305)
for a single test vector fired at `t0`: apply the stimulus, then drain.
With every delay zero all scheduled events fire at `t0`, so when this
drain empties the global queue the Python loop takes the final `break` and
the simulation is over. -/
def eventSimOne (C : C3) (vec : List (ℕ × SV)) (t0 fuel : ℕ) : EvState :=
  drain C t0 fuel (applyStimulus C vec t0 (initEvState C))

/-! ## Zero-delay evaluator (step1.py) -/

/-- The input-initialisation loop of step1 `run_simulation_for_vectors`
(lines 200-202): every `inpt` gate's output becomes
`input_vector.get(address, "U")`. -/
def setPIOutputs (C : C3) (vec : List (ℕ × SV)) (out : List SV) : List SV :=
  (List.range (numGates C)).foldl
    (fun o i =>
      let g := gateAt C i
      if g.ty == GType.gInpt then
        o.set i (((vec.find? (fun p => p.1 == g.address)).map Prod.snd).getD SV.sU)
      else o)
    out

/-- The propagation loop of step1 (lines 205-206): one sweep in
declaration order, each non-`inpt` gate re-evaluated in place. -/
def zeroDelayPassRun (C : C3) (out : List SV) : List SV :=
  (List.range (numGates C)).foldl
    (fun o i =>
      let g := gateAt C i
      if g.ty == GType.gInpt then o
      else o.set i (evalZero g.ty (g.inputs.map (svAt o))))
    out

/-- The step1 simulation of one test vector from the power-up state (all
outputs "U"). -/
def zeroDelaySim (C : C3) (vec : List (ℕ × SV)) : List SV :=
  zeroDelayPassRun C (setPIOutputs C vec (List.replicate (numGates C) SV.sU))

/-! ## Well-formedness and concrete example circuits -/

/-- Well-formedness of a step3 netlist for the SCOAP claims: inputs are
declared before their consumers (the parser's ISCAS convention, §4.1), and
the declared fan-out field is 0 exactly on the gates no other gate
consumes. -/
structure SWF (C : C3) : Prop where
  inputsLt : ∀ i, i < numGates C → ∀ j ∈ (gateAt C i).inputs, j < i
  fanoutZero : ∀ i, i < numGates C →
    ((gateAt C i).fanoutF = 0 ↔ hasConsumer C i = false)

/-- Well-formedness of a step1/step2 netlist for the simulator-equivalence
claim: inputs are declared before their consumers, `inpt` gates have no
inputs, every other gate has at least one, and addresses are strictly
increasing in declaration order (so the global queue's address order is
the declaration order). -/
structure NWF (C : C3) : Prop where
  inputsLt : ∀ i, i < numGates C → ∀ j ∈ (gateAt C i).inputs, j < i
  inptNoInputs : ∀ i, i < numGates C →
    (gateAt C i).ty = GType.gInpt → (gateAt C i).inputs = []
  nonInptInputs : ∀ i, i < numGates C →
    (gateAt C i).ty ≠ GType.gInpt → (gateAt C i).inputs ≠ []
  addrMono : ∀ i j, i < j → j < numGates C →
    (gateAt C i).address < (gateAt C j).address

/-- Ancestor-or-self relation along gate inputs (used to reason about the
event simulator). -/
inductive Anc (C : C3) : ℕ → ℕ → Prop
  | refl (j : ℕ) : Anc C j j
  | step (a k j : ℕ) : Anc C a k → k ∈ (gateAt C j).inputs → Anc C a j

/-- The CO contribution claim C6 assigns to input position `pos` of an
`and` consumer `j`: the consumer's CO plus the other input's CC1 plus
one. -/
def andCoContribClaim (C : C3) (s : ScoapSt) (j pos : ℕ) : Cost :=
  match (gateAt C j).inputs with
  | a :: b :: _ =>
      if pos == 0 then ((coAt s j).cadd (cc1At s b)).cadd (Cost.fin 1)
      else ((coAt s j).cadd (cc1At s a)).cadd (Cost.fin 1)
  | _ => Cost.inf

/-- C4 counterexample circuit: one `inpt` stem feeding two `and` gates,
both declared primary outputs. -/
def exC4 : C3 :=
  { gates :=
      [ { address := 1, name := "a", ty := GType.gInpt, fanoutF := 2, inputs := [] },
        { address := 2, name := "g1", ty := GType.gAnd, fanoutF := 0, inputs := [0] },
        { address := 3, name := "g2", ty := GType.gAnd, fanoutF := 0, inputs := [0] } ] }

/-- Output state for the C4 counterexample: the stem carries D, both
consumers are still X. -/
def exC4Out : List V := [V.vD, V.vX, V.vX]

/-- C5 counterexample circuit: a 2-input nand whose inputs have opposite
controllability profiles. -/
def exC5 : PCircuit :=
  { circ := { gates :=
      [ { address := 1, name := "a", ty := GType.gInpt, fanoutF := 1, inputs := [] },
        { address := 2, name := "b", ty := GType.gInpt, fanoutF := 1, inputs := [] },
        { address := 3, name := "g", ty := GType.gNand, fanoutF := 0, inputs := [0, 1] } ] },
    cc0 := [Cost.fin 5, Cost.fin 1, Cost.inf],
    cc1 := [Cost.fin 1, Cost.fin 5, Cost.inf],
    co := [Cost.inf, Cost.inf, Cost.fin 0] }

def exC5Out : List V := [V.vX, V.vX, V.vX]

/-- C6 counterexample circuit: input `a` is consumed by two `and` primary
outputs with different other-input CC1, the more expensive consumer
declared first. -/
def exC6 : C3 :=
  { gates :=
      [ { address := 1, name := "a", ty := GType.gInpt, fanoutF := 2, inputs := [] },
        { address := 2, name := "b", ty := GType.gInpt, fanoutF := 3, inputs := [] },
        { address := 3, name := "h", ty := GType.gAnd, fanoutF := 1, inputs := [1, 1] },
        { address := 4, name := "c1", ty := GType.gAnd, fanoutF := 0, inputs := [0, 2] },
        { address := 5, name := "c2", ty := GType.gAnd, fanoutF := 0, inputs := [0, 1] } ] }

/-- C7 witness circuit: two inputs feeding an `and` primary output. -/
def exC7 : C3 :=
  { gates :=
      [ { address := 1, name := "a", ty := GType.gInpt, fanoutF := 1, inputs := [] },
        { address := 2, name := "b", ty := GType.gInpt, fanoutF := 1, inputs := [] },
        { address := 3, name := "g", ty := GType.gAnd, fanoutF := 0, inputs := [0, 1] } ] }

/-- C1 witness circuit: a single `inpt` gate that is also the primary
output, with its SCOAP triple. -/
def exC1 : PCircuit :=
  { circ := { gates :=
      [ { address := 1, name := "a", ty := GType.gInpt, fanoutF := 0, inputs := [] } ] },
    cc0 := [Cost.fin 1], cc1 := [Cost.fin 1], co := [Cost.fin 0] }

/-- C9 circuit: one input feeding an `and` primary output, all delays
zero. -/
def exC9 : C3 :=
  { gates :=
      [ { address := 1, name := "a", ty := GType.gInpt, fanoutF := 1, inputs := [],
          delay := 0 },
        { address := 2, name := "g", ty := GType.gAnd, fanoutF := 0, inputs := [0],
          delay := 0 } ] }

/-- The Z-carrying stimulus separating the two simulators. -/
def exC9VecZ : List (ℕ × SV) := [(1, SV.sZ)]

/-- A Z-free stimulus for the C9 witness. -/
def exC9Vec1 : List (ℕ × SV) := [(1, SV.s1)]

/-- The controllability field selected by a target value: CC0 for "0",
CC1 otherwise (only "0"/"1" ever reach the selectors). -/
def selCC (PC : PCircuit) (v : V) (d : ℕ) : Cost :=
  if v == V.v0 then pcc0 PC d else pcc1 PC d

/-- Generic form of the `get_hardest_to_satisfy_gate` scan: first
strict-improvement argmax of `sel` over the elements satisfying `isX`,
with `-inf` start represented by `none`. -/
def hardFold (sel : ℕ → Cost) (isX : ℕ → Bool) (L : List ℕ) :
    Option ℕ × Option Cost :=
  L.foldl
    (fun acc g =>
      if isX g then
        if (match acc.2 with
            | none => true
            | some b => Cost.clt b (sel g)) then (some g, some (sel g))
        else acc
      else acc)
    (none, none)

/-- Generic form of the `get_easiest_to_satisfy_gate` scan: first
strict-improvement argmin of `sel` over the elements satisfying `isX`,
starting from `inf`. -/
def easyFold (sel : ℕ → Cost) (isX : ℕ → Bool) (L : List ℕ) :
    Option ℕ × Cost :=
  L.foldl
    (fun acc g =>
      if isX g then
        (if Cost.clt (sel g) acc.2 then (some g, sel g) else acc)
      else acc)
    (none, Cost.inf)

/-- C6 witness circuit: a stem, a fanout branch with a consumer, and an
`and` gate that is not a primary output. -/
def exC6b : C3 :=
  { gates :=
      [ { address := 1, name := "a", ty := GType.gInpt, fanoutF := 2, inputs := [] },
        { address := 2, name := "b", ty := GType.gInpt, fanoutF := 1, inputs := [] },
        { address := 3, name := "br", ty := GType.gFanout, fanoutF := 1, inputs := [0] },
        { address := 4, name := "g", ty := GType.gAnd, fanoutF := 1, inputs := [0, 1] },
        { address := 5, name := "o", ty := GType.gBuf, fanoutF := 0, inputs := [2] } ] }

/-- A SCOAP state for the C6 witness. -/
def exScoapB : ScoapSt :=
  { cc0 := [Cost.fin 1, Cost.fin 1, Cost.fin 1, Cost.fin 3, Cost.fin 1],
    cc1 := [Cost.fin 1, Cost.fin 2, Cost.fin 1, Cost.fin 4, Cost.fin 1],
    co := [Cost.fin 9, Cost.fin 9, Cost.fin 3, Cost.fin 5, Cost.fin 0] }

/-- C6 witness circuit for the xor clause: two inputs feeding an `xor`
primary output. -/
def exC6x : C3 :=
  { gates :=
      [ { address := 1, name := "a", ty := GType.gInpt, fanoutF := 1, inputs := [] },
        { address := 2, name := "b", ty := GType.gInpt, fanoutF := 1, inputs := [] },
        { address := 3, name := "x", ty := GType.gXor, fanoutF := 0, inputs := [0, 1] } ] }

/-- One iteration of the xor/xnor backward loop (`compute_scoap`,
Circuit.py lines 136-144): input position `jj` receives the gate's CO plus
the minimum other-input CC0 plus the minimum other-input CC1 plus one. -/
def xorStepBody (C : C3) (j : ℕ) (st : ScoapSt) (jj : ℕ) : ScoapSt :=
  let others := (gateAt C j).inputs.eraseIdx jj
  let minOtherCC := (cminList (others.map (cc0At st))).cadd
                      (cminList (others.map (cc1At st)))
  let newCO := ((coAt st j).cadd minOtherCC).cadd (Cost.fin 1)
  { st with co := st.co.set ((gateAt C j).inputs.getD jj 0) newCO }

/-! ## Proof infrastructure for the simulator-equivalence claim -/

/-- step1's `input_vector.get(gate.address, "U")`: the stimulus value the
vector assigns to gate `j`, defaulting to `U`. -/
def vecVal (C : C3) (vec : List (ℕ × SV)) (j : ℕ) : SV :=
  ((vec.find? (fun p => p.1 == (gateAt C j).address)).map Prod.snd).getD SV.sU

/-- The gate indices currently on the global timing queue. -/
def heapIdx (st : EvState) : List ℕ := st.heap.map Prod.snd

/-- Gate `j` is clean when no ancestor-or-self sits on the global queue. -/
def EvClean (C : C3) (st : EvState) (j : ℕ) : Prop :=
  ∀ a, Anc C a j → a ∉ heapIdx st

/-- The body of the consumer-rescheduling loop (named so the fold can be
reasoned about generically). -/
def notifyBody (C : C3) (t : ℕ) (s : EvState) (j : ℕ) : EvState :=
  let s1 := gateEvaluate2 C s t j
  { s1 with heap := s1.heap ++ [(t + (gateAt C j).delay, j)] }

/-- The body of the stimulus-application loop. -/
def stimBody (C : C3) (vec : List (ℕ × SV)) (t : ℕ) (s : EvState) (i : ℕ) : EvState :=
  let g := gateAt C i
  match vec.find? (fun p => p.1 == g.address) with
  | some p =>
      if g.ty == GType.gInpt && svAt s.out i != p.2 then
        notifyConsumers C t i { s with out := s.out.set i p.2 }
      else s
  | none => s

/-- The body of step1's input-initialisation loop. -/
def piBody (C : C3) (vec : List (ℕ × SV)) (o : List SV) (i : ℕ) : List SV :=
  let g := gateAt C i
  if g.ty == GType.gInpt then
    o.set i (((vec.find? (fun p => p.1 == g.address)).map Prod.snd).getD SV.sU)
  else o

/-- The body of step1's propagation loop. -/
def passBody (C : C3) (o : List SV) (i : ℕ) : List SV :=
  let g := gateAt C i
  if g.ty == GType.gInpt then o
  else o.set i (evalZero g.ty (g.inputs.map (svAt o)))

/-- Invariant maintained while the stimulus loop walks the gate list:
after the first `m` gates have been processed, the touched primary inputs
hold their vector values, everything else is still `U`, every queued gate
is a consumer of a changed input with its freshly computed pending output,
and every changed input has pushed all of its consumers. -/
structure StimInv (C : C3) (vec : List (ℕ × SV)) (t0 m : ℕ) (st : EvState) : Prop where
  outLen : st.out.length = numGates C
  locLen : st.locals.length = numGates C
  heapT : ∀ p ∈ st.heap, p.1 = t0
  heapLt : ∀ p ∈ st.heap, p.2 < numGates C
  heapNI : ∀ p ∈ st.heap, (gateAt C p.2).ty ≠ GType.gInpt
  locSh : ∀ j, st.locals.getD j [] = [] ∨ ∃ v, st.locals.getD j [] = [(t0, v)]
  pend : ∀ j, j < numGates C → ∀ v, st.locals.getD j [] = [(t0, v)] →
    v = evalPending (gateAt C j).ty ((gateAt C j).inputs.map (svAt st.out))
  heapNE : ∀ j ∈ heapIdx st, st.locals.getD j [] ≠ []
  outInptLt : ∀ j, j < m → (gateAt C j).ty = GType.gInpt →
    svAt st.out j = vecVal C vec j
  outInptGe : ∀ j, m ≤ j → j < numGates C → (gateAt C j).ty = GType.gInpt →
    svAt st.out j = SV.sU
  outNon : ∀ j, j < numGates C → (gateAt C j).ty ≠ GType.gInpt →
    svAt st.out j = SV.sU
  changedPushed : ∀ i, i < m → (gateAt C i).ty = GType.gInpt →
    vecVal C vec i ≠ SV.sU → ∀ c ∈ consumersList C i, c ∈ heapIdx st

/-- Invariant maintained between drain iterations: queue entries fire at
the stimulus time on in-range non-input gates, local queues hold at most
the one coalesced pending event, primary inputs and clean gates already
show their steady-state (step1) values, and pending data is coherent with
the current outputs. -/
structure EvInv (C : C3) (vec : List (ℕ × SV)) (t0 : ℕ) (st : EvState) : Prop where
  outLen : st.out.length = numGates C
  locLen : st.locals.length = numGates C
  heapT : ∀ p ∈ st.heap, p.1 = t0
  heapLt : ∀ p ∈ st.heap, p.2 < numGates C
  heapNI : ∀ p ∈ st.heap, (gateAt C p.2).ty ≠ GType.gInpt
  locSh : ∀ j, st.locals.getD j [] = [] ∨ ∃ v, st.locals.getD j [] = [(t0, v)]
  pend : ∀ j, j < numGates C → ∀ v, st.locals.getD j [] = [(t0, v)] →
    v = evalPending (gateAt C j).ty ((gateAt C j).inputs.map (svAt st.out))
  pendE : ∀ j, j < numGates C → j ∈ heapIdx st → st.locals.getD j [] = [] →
    svAt st.out j =
      evalPending (gateAt C j).ty ((gateAt C j).inputs.map (svAt st.out))
  inptOut : ∀ j, j < numGates C → (gateAt C j).ty = GType.gInpt →
    svAt st.out j = svAt (zeroDelaySim C vec) j
  cleanDone : ∀ j, j < numGates C → EvClean C st j →
    svAt st.out j = svAt (zeroDelaySim C vec) j

/-! ## Theorems: shared helper lemmas -/

theorem getD_set {α : Type} (l : List α) (i j : ℕ) (v d : α) :
    (l.set i v).getD j d = if i = j ∧ i < l.length then v else l.getD j d := by
  rw [List.getD_eq_getElem?_getD, List.getD_eq_getElem?_getD, List.getElem?_set]
  by_cases h1 : i = j
  · subst h1
    by_cases h2 : i < l.length
    · simp [h2]
    · have hn : l[i]? = none := List.getElem?_eq_none (Nat.le_of_not_lt h2)
      simp [h2, hn]
  · simp [h1]

theorem getD_set_ne {α : Type} (l : List α) (i j : ℕ) (v d : α) (h : i ≠ j) :
    (l.set i v).getD j d = l.getD j d := by
  simp [getD_set, h]

theorem getD_set_self {α : Type} (l : List α) (i : ℕ) (v d : α) (h : i < l.length) :
    (l.set i v).getD i d = v := by
  simp [getD_set, h]

theorem Cost.cle_refl (a : Cost) : Cost.cle a a = true := by
  cases a <;> simp [Cost.cle]

theorem Cost.cle_trans {a b c : Cost} (h1 : Cost.cle a b = true)
    (h2 : Cost.cle b c = true) : Cost.cle a c = true := by
  cases a <;> cases b <;> cases c <;> simp_all [Cost.cle] <;> omega

theorem Cost.clt_eq_not_cle (a b : Cost) : Cost.clt a b = !(Cost.cle b a) := by
  cases a <;> cases b <;> simp only [Cost.clt, Cost.cle, Bool.not_true, Bool.not_false,
    ← decide_not, decide_eq_decide] <;> omega

theorem Cost.cle_of_clt {a b : Cost} (h : Cost.clt a b = true) : Cost.cle a b = true := by
  cases a <;> cases b <;> simp_all [Cost.clt, Cost.cle] <;> omega

theorem Cost.zero_cle (a : Cost) : Cost.cle (Cost.fin 0) a = true := by
  cases a <;> simp [Cost.cle]

theorem Cost.one_cle_cadd_one (a : Cost) :
    Cost.cle (Cost.fin 1) (a.cadd (Cost.fin 1)) = true := by
  cases a <;> simp [Cost.cadd, Cost.cle]

theorem cleanInputs_contains_s0 (l : List SV) :
    (cleanInputs l).contains SV.s0 = l.contains SV.s0 := by
  induction l with
  | nil => rfl
  | cons a l ih =>
      cases a <;>
        simp_all [cleanInputs, List.filter_cons, List.contains_cons]

theorem cleanInputs_contains_s1 (l : List SV) :
    (cleanInputs l).contains SV.s1 = l.contains SV.s1 := by
  induction l with
  | nil => rfl
  | cons a l ih =>
      cases a <;>
        simp_all [cleanInputs, List.filter_cons, List.contains_cons]

/-! ## C2: binary/unknown-mode gate rule -/

/-- C2 counterexample: the claim's rule says the step2 `and` evaluator
yields U on the single input Z, but it yields Z. -/
theorem c2_counterexample :
    evalPending GType.gAnd [SV.sZ] = SV.sZ ∧
      claimBinaryEval GType.gAnd [SV.sZ] = SV.sU ∧ SV.sZ ≠ SV.sU := by
  refine ⟨rfl, rfl, ?_⟩
  decide

/-- C2 amended: for and/or/nand/nor, the zero-delay evaluator follows the
claim's rule exactly (Z-exception only at nand), while the event-driven
simulator's evaluator follows the rule with the Z-exception extended to
all four kinds. -/
theorem c2_amended (t : GType) (l : List SV)
    (h : t = GType.gAnd ∨ t = GType.gOr ∨ t = GType.gNand ∨ t = GType.gNor) :
    evalZero t l = claimBinaryEval t l ∧
      evalPending t l = claimBinaryEvalStep2 t l := by
  have h0 := cleanInputs_contains_s0 l
  have h1 := cleanInputs_contains_s1 l
  rcases h with h | h | h | h <;> subst h <;>
    cases hc0 : l.contains SV.s0 <;> cases hc1 : l.contains SV.s1 <;>
    cases hcu : l.contains SV.sU <;> cases hcz : l.contains SV.sZ <;>
    simp_all [evalZero, evalPending, claimBinaryEval, claimBinaryEvalStep2,
      cvIn, cvOut, ncvOut]

/-- C2 witness: the amended rule evaluated at the nand gate on `[Z, 1]`. -/
theorem c2_witness :
    (GType.gNand = GType.gAnd ∨ GType.gNand = GType.gOr ∨
        GType.gNand = GType.gNand ∨ GType.gNand = GType.gNor) ∧
      (evalZero GType.gNand [SV.sZ, SV.s1] = claimBinaryEval GType.gNand [SV.sZ, SV.s1] ∧
        evalPending GType.gNand [SV.sZ, SV.s1] =
          claimBinaryEvalStep2 GType.gNand [SV.sZ, SV.s1]) :=
  ⟨by decide, c2_amended GType.gNand [SV.sZ, SV.s1] (by decide)⟩

/-! ## C3: xor parity over D-algebra -/

/-- C3: on the three-input list `[D, D, 1]` (no U, Z or X present) the
code's xor evaluator returns 0 where the parity rule demands 1 — the
final catch-all branch of `evaluate_xor` discards the count of 1s
whenever the D- and D′-counts are both even and not both zero. -/
theorem c3_code_eval :
    evaluateXor [V.vD, V.vD, V.v1]
        (([V.vD, V.vD, V.v1] : List V).contains V.vX)
        (([V.vD, V.vD, V.v1] : List V).contains V.vU)
        (([V.vD, V.vD, V.v1] : List V).contains V.vZ) = V.v0 ∧
      xorParitySpec [V.vD, V.vD, V.v1] = V.v1 ∧ V.v0 ≠ V.v1 := by
  decide

/-! ## C4: D-frontier generation -/

/-- C4: on a circuit with two gates that both have output X, a D input
and an X-path, the code's `generate_d_frontier` stops at the first one
(the loop's `break` fires on the first X-output gate with a D/D′ input),
so the produced frontier misses the second gate that the claimed set
contains. -/
theorem c4_code_eval :
    generateDFrontier exC4 exC4Out = [1] ∧
      dFrontierClaimSet exC4 exC4Out = [1, 2] ∧
      2 ∈ dFrontierClaimSet exC4 exC4Out ∧ 2 ∉ generateDFrontier exC4 exC4Out := by
  decide

/-! ## C5: backtrace descent -/

/-- C5 counterexample: at a nand objective wanting 1 (flipped target 0),
the walk descends into the child of largest CC1 — selected by the
pre-flip objective value — landing on input 1, while the claim (largest
CC0, the flipped target's controllability) names input 0. -/
theorem c5_counterexample :
    backtrace exC5 exC5Out 2 V.v1 = some (1, V.v0) ∧
      backtraceChild exC5 exC5Out 2 V.v0 2 V.v1 = some 1 ∧
      claimBacktraceChild exC5 exC5Out 2 V.v0 = some 0 ∧
      (some 1 : Option ℕ) ≠ some 0 := by
  decide

theorem hardFold_spec (sel : ℕ → Cost) (isX : ℕ → Bool) (L : List ℕ) (c : ℕ)
    (h : (hardFold sel isX L).1 = some c) :
    c ∈ L ∧ isX c = true ∧
      ∀ d ∈ L, isX d = true → Cost.cle (sel d) (sel c) = true := by
  have key : ∀ (M P : List ℕ) (acc : Option ℕ × Option Cost),
      (match acc with
       | (none, b) => b = none ∧ ∀ d ∈ P, isX d = false
       | (some c0, b) => b = some (sel c0) ∧ c0 ∈ P ∧ isX c0 = true ∧
           ∀ d ∈ P, isX d = true → Cost.cle (sel d) (sel c0) = true) →
      (match M.foldl
          (fun acc g =>
            if isX g then
              if (match acc.2 with
                  | none => true
                  | some b => Cost.clt b (sel g)) then (some g, some (sel g))
              else acc
            else acc) acc with
       | (none, b) => b = none ∧ ∀ d ∈ P ++ M, isX d = false
       | (some c0, b) => b = some (sel c0) ∧ c0 ∈ P ++ M ∧ isX c0 = true ∧
           ∀ d ∈ P ++ M, isX d = true → Cost.cle (sel d) (sel c0) = true) := by
    intro M
    induction M with
    | nil =>
        intro P acc hacc
        simpa using hacc
    | cons a M ih =>
        intro P acc hacc
        rw [List.foldl_cons]
        have hPa : P ++ a :: M = (P ++ [a]) ++ M := by simp
        rw [hPa]
        apply ih (P ++ [a])
        rcases acc with ⟨c0, b⟩
        cases c0 with
        | none =>
            obtain ⟨hb, hP⟩ := hacc
            subst hb
            by_cases hxa : isX a = true
            · simp only [hxa, if_true]
              refine ⟨by simp, List.mem_append.2 (Or.inr (List.mem_singleton.2 rfl)), by simp [hxa], ?_⟩
              intro d hd hxd
              rcases List.mem_append.1 hd with hd | hd
              · exact absurd hxd (by simp [hP d hd])
              · rw [List.mem_singleton.1 hd]
                exact Cost.cle_refl _
            · simp only [Bool.not_eq_true] at hxa
              simp only [hxa, Bool.false_eq_true, if_false]
              refine ⟨by simp, ?_⟩
              intro d hd
              rcases List.mem_append.1 hd with hd | hd
              · exact hP d hd
              · rw [List.mem_singleton.1 hd]; exact hxa
        | some c0 =>
            obtain ⟨hb, hc0P, hxc0, hmax⟩ := hacc
            subst hb
            by_cases hxa : isX a = true
            · simp only [hxa, if_true]
              by_cases hlt : Cost.clt (sel c0) (sel a) = true
              · simp only [hlt, if_true]
                refine ⟨by simp, List.mem_append.2 (Or.inr (List.mem_singleton.2 rfl)), by simp [hxa], ?_⟩
                intro d hd hxd
                rcases List.mem_append.1 hd with hd | hd
                · exact Cost.cle_trans (hmax d hd hxd) (Cost.cle_of_clt hlt)
                · rw [List.mem_singleton.1 hd]; exact Cost.cle_refl _
              · simp only [Bool.not_eq_true] at hlt
                simp only [hlt, Bool.false_eq_true, if_false]
                refine ⟨by simp, List.mem_append.2 (Or.inl hc0P), by simp [hxc0], ?_⟩
                intro d hd hxd
                rcases List.mem_append.1 hd with hd | hd
                · exact hmax d hd hxd
                · rw [List.mem_singleton.1 hd]
                  have := Cost.clt_eq_not_cle (sel c0) (sel a)
                  rw [hlt] at this
                  simpa using this.symm
            · simp only [Bool.not_eq_true] at hxa
              simp only [hxa, Bool.false_eq_true, if_false]
              refine ⟨by simp, List.mem_append.2 (Or.inl hc0P), by simp [hxc0], ?_⟩
              intro d hd hxd
              rcases List.mem_append.1 hd with hd | hd
              · exact hmax d hd hxd
              · rw [List.mem_singleton.1 hd] at hxd
                exact absurd hxd (by simp [hxa])
  have := key L [] (none, none) (by simp)
  unfold hardFold at h
  rcases hr : L.foldl
      (fun acc g =>
        if isX g then
          if (match acc.2 with
              | none => true
              | some b => Cost.clt b (sel g)) then (some g, some (sel g))
          else acc
        else acc) ((none, none) : Option ℕ × Option Cost) with ⟨c1, b1⟩
  rw [hr] at this h
  cases c1 with
  | none => simp at h
  | some c1 =>
      simp only at h
      cases h
      obtain ⟨_, hm, hx, hmax⟩ := this
      simp only [List.nil_append] at hm hmax
      exact ⟨hm, hx, hmax⟩

theorem Cost.cle_inf (a : Cost) : Cost.cle a Cost.inf = true := by
  cases a <;> simp [Cost.cle]

theorem Cost.eq_inf_of_not_clt_inf {a : Cost} (h : Cost.clt a Cost.inf = false) :
    a = Cost.inf := by
  cases a <;> simp_all [Cost.clt]

theorem easyFold_spec (sel : ℕ → Cost) (isX : ℕ → Bool) (L : List ℕ) (c : ℕ)
    (h : (easyFold sel isX L).1 = some c) :
    c ∈ L ∧ isX c = true ∧
      ∀ d ∈ L, isX d = true → Cost.cle (sel c) (sel d) = true := by
  have key : ∀ (M P : List ℕ) (acc : Option ℕ × Cost),
      (match acc with
       | (none, b) => b = Cost.inf ∧ ∀ d ∈ P, isX d = true → sel d = Cost.inf
       | (some c0, b) => b = sel c0 ∧ c0 ∈ P ∧ isX c0 = true ∧
           ∀ d ∈ P, isX d = true → Cost.cle (sel c0) (sel d) = true) →
      (match M.foldl
          (fun acc g =>
            if isX g then
              (if Cost.clt (sel g) acc.2 then (some g, sel g) else acc)
            else acc) acc with
       | (none, b) => b = Cost.inf ∧ ∀ d ∈ P ++ M, isX d = true → sel d = Cost.inf
       | (some c0, b) => b = sel c0 ∧ c0 ∈ P ++ M ∧ isX c0 = true ∧
           ∀ d ∈ P ++ M, isX d = true → Cost.cle (sel c0) (sel d) = true) := by
    intro M
    induction M with
    | nil =>
        intro P acc hacc
        simpa using hacc
    | cons a M ih =>
        intro P acc hacc
        rw [List.foldl_cons]
        have hPa : P ++ a :: M = (P ++ [a]) ++ M := by simp
        rw [hPa]
        apply ih (P ++ [a])
        rcases acc with ⟨c0, b⟩
        cases c0 with
        | none =>
            obtain ⟨hb, hP⟩ := hacc
            subst hb
            by_cases hxa : isX a = true
            · by_cases hlt : Cost.clt (sel a) Cost.inf = true
              · simp only [hxa, hlt, if_true]
                refine ⟨by simp, List.mem_append.2 (Or.inr (List.mem_singleton.2 rfl)),
                  by simp [hxa], ?_⟩
                intro d hd hxd
                rcases List.mem_append.1 hd with hd | hd
                · rw [hP d hd hxd]; exact Cost.cle_inf _
                · rw [List.mem_singleton.1 hd]; exact Cost.cle_refl _
              · simp only [Bool.not_eq_true] at hlt
                simp only [hxa, hlt, Bool.false_eq_true, if_false, if_true]
                refine ⟨by simp, ?_⟩
                intro d hd hxd
                rcases List.mem_append.1 hd with hd | hd
                · exact hP d hd hxd
                · rw [List.mem_singleton.1 hd]
                  exact Cost.eq_inf_of_not_clt_inf hlt
            · simp only [Bool.not_eq_true] at hxa
              simp only [hxa, Bool.false_eq_true, if_false]
              refine ⟨by simp, ?_⟩
              intro d hd hxd
              rcases List.mem_append.1 hd with hd | hd
              · exact hP d hd hxd
              · rw [List.mem_singleton.1 hd] at hxd
                exact absurd hxd (by simp [hxa])
        | some c0 =>
            obtain ⟨hb, hc0P, hxc0, hmin⟩ := hacc
            subst hb
            by_cases hxa : isX a = true
            · by_cases hlt : Cost.clt (sel a) (sel c0) = true
              · simp only [hxa, hlt, if_true]
                refine ⟨by simp, List.mem_append.2 (Or.inr (List.mem_singleton.2 rfl)),
                  by simp [hxa], ?_⟩
                intro d hd hxd
                rcases List.mem_append.1 hd with hd | hd
                · exact Cost.cle_trans (Cost.cle_of_clt hlt) (hmin d hd hxd)
                · rw [List.mem_singleton.1 hd]; exact Cost.cle_refl _
              · simp only [Bool.not_eq_true] at hlt
                simp only [hxa, hlt, Bool.false_eq_true, if_false, if_true]
                refine ⟨by simp, List.mem_append.2 (Or.inl hc0P), by simp [hxc0], ?_⟩
                intro d hd hxd
                rcases List.mem_append.1 hd with hd | hd
                · exact hmin d hd hxd
                · rw [List.mem_singleton.1 hd]
                  have := Cost.clt_eq_not_cle (sel a) (sel c0)
                  rw [hlt] at this
                  simpa using this.symm
            · simp only [Bool.not_eq_true] at hxa
              simp only [hxa, Bool.false_eq_true, if_false]
              refine ⟨by simp, List.mem_append.2 (Or.inl hc0P), by simp [hxc0], ?_⟩
              intro d hd hxd
              rcases List.mem_append.1 hd with hd | hd
              · exact hmin d hd hxd
              · rw [List.mem_singleton.1 hd] at hxd
                exact absurd hxd (by simp [hxa])
  have := key L [] (none, Cost.inf) (by simp)
  unfold easyFold at h
  rcases hr : L.foldl
      (fun acc g =>
        if isX g then
          (if Cost.clt (sel g) acc.2 then (some g, sel g) else acc)
        else acc) ((none, Cost.inf) : Option ℕ × Cost) with ⟨c1, b1⟩
  rw [hr] at this h
  cases c1 with
  | none => simp at h
  | some c1 =>
      simp only at h
      cases h
      obtain ⟨_, hm, hx, hmin⟩ := this
      simp only [List.nil_append] at hm hmin
      exact ⟨hm, hx, hmin⟩

theorem getHardest_eq_fold (PC : PCircuit) (out : List V) (og : ℕ) (v : V)
    (hv : v = V.v0 ∨ v = V.v1) :
    getHardest PC out og v =
      (hardFold (selCC PC v) (fun g => outAt out g == V.vX)
        (gateAt PC.circ og).inputs).1 := by
  unfold getHardest hardFold
  refine congrArg Prod.fst (List.foldl_ext _ _ _ ?_)
  intro acc b _
  rcases hv with hv | hv <;> subst hv <;>
    rcases acc with ⟨c0, b0⟩ <;> simp [selCC]

theorem getEasiest_eq_fold (PC : PCircuit) (out : List V) (og : ℕ) (v : V)
    (hv : v = V.v0 ∨ v = V.v1) :
    getEasiest PC out og v =
      (easyFold (selCC PC v) (fun g => outAt out g == V.vX)
        (gateAt PC.circ og).inputs).1 := by
  unfold getEasiest easyFold
  refine congrArg Prod.fst (List.foldl_ext _ _ _ ?_)
  intro acc b _
  rcases hv with hv | hv <;> subst hv <;>
    rcases acc with ⟨c0, b0⟩ <;> simp [selCC]

theorem getHardest_none (PC : PCircuit) (out : List V) (og : ℕ) (v : V)
    (hv0 : v ≠ V.v0) (hv1 : v ≠ V.v1) : getHardest PC out og v = none := by
  unfold getHardest
  have : ∀ (L : List ℕ) (acc : Option ℕ × Option Cost),
      L.foldl
        (fun acc g =>
          if outAt out g == V.vX then
            if v == V.v0 then
              (if (match acc.2 with
                   | none => true
                   | some b => Cost.clt b (pcc0 PC g)) then (some g, some (pcc0 PC g))
               else acc)
            else if v == V.v1 then
              (if (match acc.2 with
                   | none => true
                   | some b => Cost.clt b (pcc1 PC g)) then (some g, some (pcc1 PC g))
               else acc)
            else acc
          else acc) acc = acc := by
    intro L
    induction L with
    | nil => intro acc; rfl
    | cons a L ih =>
        intro acc
        rw [List.foldl_cons]
        have h1 : (v == V.v0) = false := by simp [hv0]
        have h2 : (v == V.v1) = false := by simp [hv1]
        by_cases hxa : (outAt out a == V.vX) = true <;>
          simp [hxa, h1, h2, ih]
  rw [this]

theorem getEasiest_none (PC : PCircuit) (out : List V) (og : ℕ) (v : V)
    (hv0 : v ≠ V.v0) (hv1 : v ≠ V.v1) : getEasiest PC out og v = none := by
  unfold getEasiest
  have : ∀ (L : List ℕ) (acc : Option ℕ × Cost),
      L.foldl
        (fun acc g =>
          if outAt out g == V.vX then
            if v == V.v0 then
              (if Cost.clt (pcc0 PC g) acc.2 then (some g, pcc0 PC g) else acc)
            else if v == V.v1 then
              (if Cost.clt (pcc1 PC g) acc.2 then (some g, pcc1 PC g) else acc)
            else acc
          else acc) acc = acc := by
    intro L
    induction L with
    | nil => intro acc; rfl
    | cons a L ih =>
        intro acc
        rw [List.foldl_cons]
        have h1 : (v == V.v0) = false := by simp [hv0]
        have h2 : (v == V.v1) = false := by simp [hv1]
        by_cases hxa : (outAt out a == V.vX) = true <;>
          simp [hxa, h1, h2, ih]
  rw [this]

/-- C5 amended: the child the walk descends through is always an
X-output input of the (enclosing call's) objective gate, and it maximises
the controllability selected by the pre-flip objective value when
`check_imply_gate` holds of the walk gate with the post-flip value — that
is, except for OR/NAND wanting 1 and AND/NOR wanting 0 — and minimises it
otherwise. -/
theorem c5_amended (PC : PCircuit) (out : List V) (tpi : ℕ) (tv2 : V)
    (objGate : ℕ) (objVal : V) (c : ℕ)
    (h : backtraceChild PC out tpi tv2 objGate objVal = some c) :
    c ∈ (gateAt PC.circ objGate).inputs ∧ outAt out c = V.vX ∧
      (checkImplyGate (gateAt PC.circ tpi).ty tv2 = true →
        ∀ d ∈ (gateAt PC.circ objGate).inputs, outAt out d = V.vX →
          Cost.cle (selCC PC objVal d) (selCC PC objVal c) = true) ∧
      (checkImplyGate (gateAt PC.circ tpi).ty tv2 = false →
        ∀ d ∈ (gateAt PC.circ objGate).inputs, outAt out d = V.vX →
          Cost.cle (selCC PC objVal c) (selCC PC objVal d) = true) := by
  have hv : objVal = V.v0 ∨ objVal = V.v1 := by
    by_contra hno
    push_neg at hno
    unfold backtraceChild at h
    rcases hc : checkImplyGate (gateAt PC.circ tpi).ty tv2 with _ | _
    · rw [hc] at h
      simp only [Bool.false_eq_true, if_false] at h
      rw [getEasiest_none PC out objGate objVal hno.1 hno.2] at h
      exact Option.noConfusion h
    · rw [hc] at h
      simp only [if_true] at h
      rw [getHardest_none PC out objGate objVal hno.1 hno.2] at h
      exact Option.noConfusion h
  unfold backtraceChild at h
  rcases hc : checkImplyGate (gateAt PC.circ tpi).ty tv2 with _ | _
  · rw [hc] at h
    simp only [Bool.false_eq_true, if_false] at h
    rw [getEasiest_eq_fold PC out objGate objVal hv] at h
    obtain ⟨hm, hx, hmin⟩ := easyFold_spec _ _ _ _ h
    refine ⟨hm, by simpa using hx, ?_, ?_⟩
    · intro hcontra; simp at hcontra
    · intro _ d hd hxd
      exact hmin d hd (by simp [hxd])
  · rw [hc] at h
    simp only [if_true] at h
    rw [getHardest_eq_fold PC out objGate objVal hv] at h
    obtain ⟨hm, hx, hmax⟩ := hardFold_spec _ _ _ _ h
    refine ⟨hm, by simpa using hx, ?_, ?_⟩
    · intro _ d hd hxd
      exact hmax d hd (by simp [hxd])
    · intro hcontra; simp at hcontra

/-- C5 witness: the amended backtrace-step characterisation applied at the
counterexample nand gate. -/
theorem c5_witness :
    backtraceChild exC5 exC5Out 2 V.v0 2 V.v1 = some 1 ∧
      (1 ∈ (gateAt exC5.circ 2).inputs ∧ outAt exC5Out 1 = V.vX ∧
        (checkImplyGate (gateAt exC5.circ 2).ty V.v0 = true →
          ∀ d ∈ (gateAt exC5.circ 2).inputs, outAt exC5Out d = V.vX →
            Cost.cle (selCC exC5 V.v1 d) (selCC exC5 V.v1 1) = true) ∧
        (checkImplyGate (gateAt exC5.circ 2).ty V.v0 = false →
          ∀ d ∈ (gateAt exC5.circ 2).inputs, outAt exC5Out d = V.vX →
            Cost.cle (selCC exC5 V.v1 1) (selCC exC5 V.v1 d) = true)) :=
  ⟨by decide, c5_amended exC5 exC5Out 2 V.v0 2 V.v1 1 (by decide)⟩

/-! ## C6: backward observability refinement -/

/-- C6 counterexample: in `exC6` the line of gate 0 is consumed by the two
`and` primary outputs 3 and 4 whose contributions are 4 and 2, yet the
final CO is 4 — the earliest-declared consumer's (last-written)
contribution, not the minimum. -/
theorem c6_counterexample :
    consumersList exC6 0 = [3, 4] ∧
      coAt (computeScoap exC6) 0 = Cost.fin 4 ∧
      andCoContribClaim exC6 (computeScoap exC6) 3 0 = Cost.fin 4 ∧
      andCoContribClaim exC6 (computeScoap exC6) 4 0 = Cost.fin 2 ∧
      coAt (computeScoap exC6) 0 ≠
        Cost.cmin (andCoContribClaim exC6 (computeScoap exC6) 3 0)
          (andCoContribClaim exC6 (computeScoap exC6) 4 0) := by
  decide

theorem foldl_establish {α β : Type} (body : α → β → α) (Q P : α → Prop) (x : β) :
    ∀ (L : List β),
      (∀ a b, b ∈ L → Q a → Q (body a b)) →
      (∀ a, Q a → P (body a x)) →
      (∀ a b, b ∈ L → Q a → P a → P (body a b)) →
      x ∈ L → ∀ a, Q a → P (L.foldl body a) := by
  intro L
  induction L with
  | nil => intro _ _ _ hx; exact absurd hx (List.not_mem_nil x)
  | cons y L ih =>
      intro hQs hPQ hPs hx a hQ
      rw [List.foldl_cons]
      by_cases hxy : x = y
      · subst hxy
        have hQ1 : Q (body a x) := hQs a x (List.mem_cons_self x L) hQ
        have hP1 : P (body a x) := hPQ a hQ
        have main : ∀ (M : List β), (∀ b, b ∈ M → b ∈ x :: L) →
            ∀ c, Q c → P c → P (M.foldl body c) := by
          intro M
          induction M with
          | nil => intro _ c _ hp; exact hp
          | cons z M ihM =>
              intro hsub c hqc hpc
              rw [List.foldl_cons]
              exact ihM (fun b hb => hsub b (List.mem_cons.2 (Or.inr hb)))
                (body c z) (hQs c z (hsub z (List.mem_cons.2 (Or.inl rfl))) hqc)
                (hPs c z (hsub z (List.mem_cons.2 (Or.inl rfl))) hqc hpc)
        exact main L (fun b hb => List.mem_cons.2 (Or.inr hb)) _ hQ1 hP1
      · rcases List.mem_cons.1 hx with h | h
        · exact absurd h hxy
        · exact ih (fun a b hb => hQs a b (List.mem_cons.2 (Or.inr hb)))
            hPQ (fun a b hb => hPs a b (List.mem_cons.2 (Or.inr hb))) h
            (body a y) (hQs a y (List.mem_cons.2 (Or.inl rfl)) hQ)

set_option maxHeartbeats 2000000 in
theorem backStep_cv_overwrite (C : C3) (s : ScoapSt) (j a b : ℕ) (rest : List ℕ)
    (hin : (gateAt C j).inputs = a :: b :: rest)
    (haj : a ≠ j) (hab : a ≠ b)
    (ha : a < s.co.length) (hb : b < s.co.length) (hjlen : j < s.co.length) :
    (((gateAt C j).ty = GType.gAnd ∨ (gateAt C j).ty = GType.gNand) →
      coAt (scoapBackStep C s j) a =
        ((if (gateAt C j).fanoutF = 0 then Cost.fin 0 else coAt s j).cadd
          (cc1At s b)).cadd (Cost.fin 1) ∧
      coAt (scoapBackStep C s j) b =
        ((if (gateAt C j).fanoutF = 0 then Cost.fin 0 else coAt s j).cadd
          (cc1At s a)).cadd (Cost.fin 1)) ∧
    (((gateAt C j).ty = GType.gOr ∨ (gateAt C j).ty = GType.gNor) →
      coAt (scoapBackStep C s j) a =
        ((if (gateAt C j).fanoutF = 0 then Cost.fin 0 else coAt s j).cadd
          (cc0At s b)).cadd (Cost.fin 1) ∧
      coAt (scoapBackStep C s j) b =
        ((if (gateAt C j).fanoutF = 0 then Cost.fin 0 else coAt s j).cadd
          (cc0At s a)).cadd (Cost.fin 1)) := by
  constructor
  all_goals intro hty
  all_goals by_cases hf0 : (gateAt C j).fanoutF = 0
  all_goals
    first
      | (have hfo2 : ((gateAt C j).fanoutF == 0) = true := by simp [hf0]
         constructor <;> rw [if_pos hf0])
      | (have hfo2 : ((gateAt C j).fanoutF == 0) = false := by simp [hf0]
         constructor <;> rw [if_neg hf0])
  all_goals
    rcases hty with hty | hty
  all_goals
    simp only [scoapBackStep, hfo2, if_true, Bool.false_eq_true, if_false,
      hty, hin, coAt, cc0At, cc1At,
      (show (GType.gAnd == GType.gFanout) = false from rfl),
      (show (GType.gNand == GType.gFanout) = false from rfl),
      (show (GType.gOr == GType.gFanout) = false from rfl),
      (show (GType.gNor == GType.gFanout) = false from rfl)]
  all_goals
    simp [getD_set, List.length_set, ha, hb, hjlen, haj, Ne.symm hab, hab]

theorem backStep_unary_overwrite (C : C3) (s : ScoapSt) (j a : ℕ) (rest : List ℕ)
    (hin : (gateAt C j).inputs = a :: rest)
    (ha : a < s.co.length) (hjlen : j < s.co.length)
    (hty : (gateAt C j).ty = GType.gNot ∨ (gateAt C j).ty = GType.gBuf) :
    coAt (scoapBackStep C s j) a =
      (if (gateAt C j).fanoutF = 0 then Cost.fin 0 else coAt s j).cadd
        (Cost.fin 1) := by
  by_cases hf0 : (gateAt C j).fanoutF = 0
  all_goals
    first
      | (have hfo2 : ((gateAt C j).fanoutF == 0) = true := by simp [hf0]
         rw [if_pos hf0])
      | (have hfo2 : ((gateAt C j).fanoutF == 0) = false := by simp [hf0]
         rw [if_neg hf0])
  all_goals rcases hty with hty | hty
  all_goals
    simp only [scoapBackStep, hfo2, if_true, Bool.false_eq_true, if_false,
      hty, hin, coAt, cc0At, cc1At,
      (show (GType.gNot == GType.gFanout) = false from rfl),
      (show (GType.gBuf == GType.gFanout) = false from rfl)]
  all_goals simp [getD_set, List.length_set, ha, hjlen]

theorem xorFold_value (C : C3) (j : ℕ) (st0 : ScoapSt)
    (hjni : j ∉ (gateAt C j).inputs) (hnd : (gateAt C j).inputs.Nodup)
    (hplen : ∀ p ∈ (gateAt C j).inputs, p < st0.co.length)
    (idx : ℕ) (hidx : idx < (gateAt C j).inputs.length) :
    ((List.range (gateAt C j).inputs.length).foldl (xorStepBody C j)
      st0).co.getD ((gateAt C j).inputs.getD idx 0) Cost.inf =
      ((coAt st0 j).cadd
        ((cminList (((gateAt C j).inputs.eraseIdx idx).map (cc0At st0))).cadd
         (cminList (((gateAt C j).inputs.eraseIdx idx).map (cc1At st0))))).cadd
        (Cost.fin 1) := by
  have hgetmem : ∀ b, b < (gateAt C j).inputs.length →
      (gateAt C j).inputs.getD b 0 ∈ (gateAt C j).inputs := by
    intro b hb
    rw [List.getD_eq_getElem _ _ hb]
    exact List.getElem_mem _
  have hQs : ∀ (st : ScoapSt) (b : ℕ), b ∈ List.range (gateAt C j).inputs.length →
      (st.cc0 = st0.cc0 ∧ st.cc1 = st0.cc1 ∧ st.co.length = st0.co.length ∧
        st.co.getD j Cost.inf = st0.co.getD j Cost.inf) →
      ((xorStepBody C j st b).cc0 = st0.cc0 ∧
        (xorStepBody C j st b).cc1 = st0.cc1 ∧
        (xorStepBody C j st b).co.length = st0.co.length ∧
        (xorStepBody C j st b).co.getD j Cost.inf = st0.co.getD j Cost.inf) := by
    intro st b hb hq
    refine ⟨hq.1, hq.2.1, ?_, ?_⟩
    · simp only [xorStepBody, List.length_set]
      exact hq.2.2.1
    · simp only [xorStepBody]
      rw [getD_set_ne _ _ _ _ _ ?_]
      · exact hq.2.2.2
      · intro he
        have hm := hgetmem b (List.mem_range.1 hb)
        rw [he] at hm
        exact hjni hm
  have hPQgen : ∀ (st : ScoapSt),
      (st.cc0 = st0.cc0 ∧ st.cc1 = st0.cc1 ∧ st.co.length = st0.co.length ∧
        st.co.getD j Cost.inf = st0.co.getD j Cost.inf) →
      (xorStepBody C j st idx).co.getD ((gateAt C j).inputs.getD idx 0)
          Cost.inf =
        ((coAt st0 j).cadd
          ((cminList (((gateAt C j).inputs.eraseIdx idx).map (cc0At st0))).cadd
           (cminList (((gateAt C j).inputs.eraseIdx idx).map (cc1At st0))))).cadd
          (Cost.fin 1) := by
    intro st hq
    simp only [xorStepBody]
    rw [getD_set_self _ _ _ _
      (by rw [hq.2.2.1]; exact hplen _ (hgetmem idx hidx))]
    have hc0 : ∀ p, cc0At st p = cc0At st0 p := fun p => by
      simp only [cc0At, hq.1]
    have hc1 : ∀ p, cc1At st p = cc1At st0 p := fun p => by
      simp only [cc1At, hq.2.1]
    rw [List.map_congr_left (fun p _ => hc0 p),
      List.map_congr_left (fun p _ => hc1 p)]
    simp only [coAt, hq.2.2.2]
  refine foldl_establish (xorStepBody C j)
    (fun st : ScoapSt => st.cc0 = st0.cc0 ∧ st.cc1 = st0.cc1 ∧
      st.co.length = st0.co.length ∧
      st.co.getD j Cost.inf = st0.co.getD j Cost.inf)
    (fun st : ScoapSt => st.co.getD ((gateAt C j).inputs.getD idx 0) Cost.inf =
      ((coAt st0 j).cadd
        ((cminList (((gateAt C j).inputs.eraseIdx idx).map (cc0At st0))).cadd
         (cminList (((gateAt C j).inputs.eraseIdx idx).map (cc1At st0))))).cadd
        (Cost.fin 1)) idx
    (List.range (gateAt C j).inputs.length) hQs hPQgen ?_
    (List.mem_range.2 hidx) st0 ⟨rfl, rfl, rfl, rfl⟩
  intro st b hb hq hp
  by_cases hbidx : b = idx
  · subst hbidx
    exact hPQgen st hq
  · have hblt : b < (gateAt C j).inputs.length := List.mem_range.1 hb
    show (xorStepBody C j st b).co.getD ((gateAt C j).inputs.getD idx 0)
        Cost.inf = _
    simp only [xorStepBody]
    rw [getD_set_ne _ _ _ _ _ ?_]
    · exact hp
    · rw [List.getD_eq_getElem _ _ hblt, List.getD_eq_getElem _ _ hidx]
      intro he
      exact hbidx (hnd.getElem_inj_iff.mp he)

theorem backStep_xor_overwrite (C : C3) (s : ScoapSt) (j : ℕ)
    (hty : (gateAt C j).ty = GType.gXor ∨ (gateAt C j).ty = GType.gXnor)
    (hjni : j ∉ (gateAt C j).inputs)
    (hnd : (gateAt C j).inputs.Nodup)
    (hjlen : j < s.co.length)
    (hplen : ∀ p ∈ (gateAt C j).inputs, p < s.co.length)
    (idx : ℕ) (hidx : idx < (gateAt C j).inputs.length) :
    coAt (scoapBackStep C s j) ((gateAt C j).inputs.getD idx 0) =
      ((if (gateAt C j).fanoutF = 0 then Cost.fin 0 else coAt s j).cadd
        ((cminList (((gateAt C j).inputs.eraseIdx idx).map (cc0At s))).cadd
         (cminList (((gateAt C j).inputs.eraseIdx idx).map (cc1At s))))).cadd
        (Cost.fin 1) := by
  by_cases hf0 : (gateAt C j).fanoutF = 0
  · have hfo2 : ((gateAt C j).fanoutF == 0) = true := by simp [hf0]
    rw [if_pos hf0]
    have hstep : scoapBackStep C s j =
        (List.range (gateAt C j).inputs.length).foldl (xorStepBody C j)
          { s with co := s.co.set j (Cost.fin 0) } := by
      rcases hty with hty | hty <;>
        (simp only [scoapBackStep, hfo2, if_true, hty, Bool.false_eq_true,
          if_false,
          (show (GType.gXor == GType.gFanout) = false from rfl),
          (show (GType.gXnor == GType.gFanout) = false from rfl),
          xorStepBody]
         try rfl)
    rw [hstep]
    have hv := xorFold_value C j { s with co := s.co.set j (Cost.fin 0) }
      hjni hnd (by intro p hp; simpa [List.length_set] using hplen p hp) idx hidx
    simp only [coAt]
    rw [hv]
    simp only [coAt, cc0At, cc1At]
    rw [getD_set_self _ _ _ _ hjlen]
    rfl
  · have hfo2 : ((gateAt C j).fanoutF == 0) = false := by simp [hf0]
    rw [if_neg hf0]
    have hstep : scoapBackStep C s j =
        (List.range (gateAt C j).inputs.length).foldl (xorStepBody C j) s := by
      rcases hty with hty | hty <;>
        (simp only [scoapBackStep, hfo2, Bool.false_eq_true, if_false, hty,
          (show (GType.gXor == GType.gFanout) = false from rfl),
          (show (GType.gXnor == GType.gFanout) = false from rfl),
          xorStepBody]
         try rfl)
    rw [hstep]
    have hv := xorFold_value C j s hjni hnd hplen idx hidx
    simp only [coAt]
    rw [hv]
    rfl

/-- C6 amended: only fanout-kind gates refine CO downward — a fanout
branch with a consumer updates its stem's CO to the minimum of the current
stem CO and the branch CO, touching nothing else — while every other gate
kind overwrites its inputs' CO with the freshly computed contribution,
regardless of the previously stored value: and/nand write own CO plus the
other input's CC1 plus one, or/nor the same with CC0, not/buf own CO plus
one, and xor/xnor, at every input position, own CO plus the minimum other
CC0 plus the minimum other CC1 plus one (a declared-fan-out-0 gate zeroes
its own CO first, so its contributions start from 0). -/
theorem c6_amended :
    (∀ (C : C3) (s : ScoapSt) (i a : ℕ) (rest : List ℕ),
        (gateAt C i).ty = GType.gFanout →
        hasConsumer C i = true →
        (gateAt C i).fanoutF ≠ 0 →
        (gateAt C i).inputs = a :: rest →
        a < s.co.length →
        coAt (scoapBackStep C s i) a = Cost.cmin (coAt s a) (coAt s i) ∧
          ∀ k, k ≠ a → coAt (scoapBackStep C s i) k = coAt s k) ∧
    (∀ (C : C3) (s : ScoapSt) (j a b : ℕ) (rest : List ℕ),
        (gateAt C j).inputs = a :: b :: rest →
        a ≠ j → a ≠ b →
        a < s.co.length → b < s.co.length → j < s.co.length →
        (((gateAt C j).ty = GType.gAnd ∨ (gateAt C j).ty = GType.gNand) →
          coAt (scoapBackStep C s j) a =
            ((if (gateAt C j).fanoutF = 0 then Cost.fin 0 else coAt s j).cadd
              (cc1At s b)).cadd (Cost.fin 1) ∧
          coAt (scoapBackStep C s j) b =
            ((if (gateAt C j).fanoutF = 0 then Cost.fin 0 else coAt s j).cadd
              (cc1At s a)).cadd (Cost.fin 1)) ∧
        (((gateAt C j).ty = GType.gOr ∨ (gateAt C j).ty = GType.gNor) →
          coAt (scoapBackStep C s j) a =
            ((if (gateAt C j).fanoutF = 0 then Cost.fin 0 else coAt s j).cadd
              (cc0At s b)).cadd (Cost.fin 1) ∧
          coAt (scoapBackStep C s j) b =
            ((if (gateAt C j).fanoutF = 0 then Cost.fin 0 else coAt s j).cadd
              (cc0At s a)).cadd (Cost.fin 1))) ∧
    (∀ (C : C3) (s : ScoapSt) (j a : ℕ) (rest : List ℕ),
        (gateAt C j).inputs = a :: rest →
        a < s.co.length → j < s.co.length →
        ((gateAt C j).ty = GType.gNot ∨ (gateAt C j).ty = GType.gBuf) →
        coAt (scoapBackStep C s j) a =
          (if (gateAt C j).fanoutF = 0 then Cost.fin 0 else coAt s j).cadd
            (Cost.fin 1)) ∧
    (∀ (C : C3) (s : ScoapSt) (j : ℕ),
        ((gateAt C j).ty = GType.gXor ∨ (gateAt C j).ty = GType.gXnor) →
        j ∉ (gateAt C j).inputs →
        (gateAt C j).inputs.Nodup →
        j < s.co.length →
        (∀ p ∈ (gateAt C j).inputs, p < s.co.length) →
        ∀ idx, idx < (gateAt C j).inputs.length →
        coAt (scoapBackStep C s j) ((gateAt C j).inputs.getD idx 0) =
          ((if (gateAt C j).fanoutF = 0 then Cost.fin 0 else coAt s j).cadd
            ((cminList (((gateAt C j).inputs.eraseIdx idx).map (cc0At s))).cadd
             (cminList (((gateAt C j).inputs.eraseIdx idx).map (cc1At s))))).cadd
            (Cost.fin 1)) := by
  refine ⟨?_, ?_, ?_, ?_⟩
  · intro C s i a rest hty hcons hfo hin ha
    have hfo2 : ((gateAt C i).fanoutF == 0) = false := by
      simp [hfo]
    simp only [scoapBackStep, hfo2, Bool.false_eq_true, if_false, hty, hcons,
      Bool.not_true, hin, beq_self_eq_true, if_true]
    by_cases hlt : Cost.clt (coAt s i) (coAt s a) = true
    · simp only [hlt, if_true]
      constructor
      · rw [coAt, getD_set_self _ _ _ _ ha]
        have hcn := Cost.clt_eq_not_cle (coAt s i) (coAt s a)
        rw [hlt] at hcn
        have hcle : Cost.cle (coAt s a) (coAt s i) = false := by
          cases hx : Cost.cle (coAt s a) (coAt s i) <;> simp [hx] at hcn ⊢
        rw [Cost.cmin, hcle]
        simp
      · intro k hk
        rw [coAt, getD_set_ne _ _ _ _ _ (fun he => hk he.symm)]
        rfl
    · simp only [Bool.not_eq_true] at hlt
      simp only [hlt, Bool.false_eq_true, if_false]
      constructor
      · have hcn := Cost.clt_eq_not_cle (coAt s i) (coAt s a)
        rw [hlt] at hcn
        have hcle : Cost.cle (coAt s a) (coAt s i) = true := by
          cases hx : Cost.cle (coAt s a) (coAt s i) <;> simp [hx] at hcn ⊢
        rw [Cost.cmin, hcle]
        simp
      · intro k _
        trivial
  · intro C s j a b rest hin haj hab ha hb hjlen
    exact backStep_cv_overwrite C s j a b rest hin haj hab ha hb hjlen
  · intro C s j a rest hin ha hjlen hty
    exact backStep_unary_overwrite C s j a rest hin ha hjlen hty
  · intro C s j hty hjni hnd hjlen hplen idx hidx
    exact backStep_xor_overwrite C s j hty hjni hnd hjlen hplen idx hidx

/-- C6 witness: the amended backward-step facts at a concrete fanout
branch, a concrete `and` gate (both inputs), a concrete `buf` gate and a
concrete `xor` gate. -/
theorem c6_witness :
    ((gateAt exC6b 2).ty = GType.gFanout ∧ hasConsumer exC6b 2 = true ∧
        (gateAt exC6b 2).fanoutF ≠ 0 ∧ (gateAt exC6b 2).inputs = 0 :: [] ∧
        0 < exScoapB.co.length) ∧
      (coAt (scoapBackStep exC6b exScoapB 2) 0 =
          Cost.cmin (coAt exScoapB 0) (coAt exScoapB 2) ∧
        ∀ k, k ≠ 0 → coAt (scoapBackStep exC6b exScoapB 2) k = coAt exScoapB k) ∧
      (coAt (scoapBackStep exC6b exScoapB 3) 0 =
          ((if (gateAt exC6b 3).fanoutF = 0 then Cost.fin 0
            else coAt exScoapB 3).cadd (cc1At exScoapB 1)).cadd (Cost.fin 1) ∧
        coAt (scoapBackStep exC6b exScoapB 3) 1 =
          ((if (gateAt exC6b 3).fanoutF = 0 then Cost.fin 0
            else coAt exScoapB 3).cadd (cc1At exScoapB 0)).cadd (Cost.fin 1)) ∧
      (coAt (scoapBackStep exC6b exScoapB 4) 2 =
        (if (gateAt exC6b 4).fanoutF = 0 then Cost.fin 0
          else coAt exScoapB 4).cadd (Cost.fin 1)) ∧
      coAt (scoapBackStep exC6x exScoapB 2) ((gateAt exC6x 2).inputs.getD 0 0) =
        ((if (gateAt exC6x 2).fanoutF = 0 then Cost.fin 0
          else coAt exScoapB 2).cadd
          ((cminList (((gateAt exC6x 2).inputs.eraseIdx 0).map
              (cc0At exScoapB))).cadd
           (cminList (((gateAt exC6x 2).inputs.eraseIdx 0).map
              (cc1At exScoapB))))).cadd (Cost.fin 1) :=
  ⟨by decide,
   c6_amended.1 exC6b exScoapB 2 0 [] (by decide) (by decide) (by decide)
     (by decide) (by decide),
   (c6_amended.2.1 exC6b exScoapB 3 0 1 [] (by decide) (by decide) (by decide)
     (by decide) (by decide) (by decide)).1 (Or.inl (by decide)),
   c6_amended.2.2.1 exC6b exScoapB 4 2 [] (by decide) (by decide) (by decide)
     (Or.inr (by decide)),
   c6_amended.2.2.2 exC6x exScoapB 2 (Or.inl (by decide)) (by decide)
     (by decide) (by decide) (by decide) 0 (by decide)⟩

/-! ## C10: truncated names and name-keyed gate map -/

theorem findReplaced (m : List (List Char × G3)) (kk : List Char) (v : G3)
    (h : m.any (fun p => p.1 == kk) = true) :
    (m.map (fun p => if p.1 == kk then (kk, v) else p)).find?
        (fun p => p.1 == kk) = some (kk, v) := by
  induction m with
  | nil => simp at h
  | cons p m ih =>
      rw [List.map_cons, List.find?_cons]
      by_cases hp : p.1 = kk
      · have he : (if (p.1 == kk) = true then (kk, v) else p) = (kk, v) := by
          simp [hp]
        rw [he]
        simp
      · have hp2 : (p.1 == kk) = false := beq_eq_false_iff_ne.2 hp
        have he : (if (p.1 == kk) = true then (kk, v) else p) = p := by
          simp [hp2]
        rw [he]
        rw [List.any_cons, hp2, Bool.false_or] at h
        simp only [hp2]
        exact ih h

theorem findUntouched (m : List (List Char × G3)) (kk k : List Char) (v : G3)
    (hk : k ≠ kk) :
    (m.map (fun p => if p.1 == kk then (kk, v) else p)).find?
        (fun p => p.1 == k) = m.find? (fun p => p.1 == k) := by
  induction m with
  | nil => rfl
  | cons p m ih =>
      rw [List.map_cons, List.find?_cons, List.find?_cons]
      by_cases hp : p.1 = kk
      · have hkk : (kk == k) = false := beq_eq_false_iff_ne.2 (Ne.symm hk)
        have hpk : (p.1 == k) = false := beq_eq_false_iff_ne.2 (hp ▸ Ne.symm hk)
        have he : (if (p.1 == kk) = true then (kk, v) else p) = (kk, v) := by
          simp [hp]
        rw [he]
        simp only [hkk, hpk]
        exact ih
      · have hp2 : (p.1 == kk) = false := beq_eq_false_iff_ne.2 hp
        have he : (if (p.1 == kk) = true then (kk, v) else p) = p := by
          simp [hp2]
        rw [he]
        by_cases hpk : p.1 = k
        · have hpk2 : (p.1 == k) = true := beq_iff_eq.2 hpk
          simp only [hpk2]
        · have hpk2 : (p.1 == k) = false := beq_eq_false_iff_ne.2 hpk
          simp only [hpk2]
          exact ih

theorem dictGet_dictInsert (m : List (List Char × G3)) (kk k : List Char) (v : G3) :
    dictGet (dictInsert m kk v) k = if k = kk then some v else dictGet m k := by
  unfold dictInsert dictGet
  by_cases hmem : m.any (fun p => p.1 == kk) = true
  · simp only [hmem, if_true]
    by_cases hk : k = kk
    · subst hk
      rw [findReplaced m k v hmem]
      simp
    · rw [findUntouched m kk k v hk]
      simp [hk]
  · simp only [hmem, Bool.false_eq_true, if_false]
    by_cases hk : k = kk
    · subst hk
      have hnone : m.find? (fun p => p.1 == k) = none := by
        rw [List.find?_eq_none]
        intro p hp hc
        exact hmem (List.any_eq_true.2 ⟨p, hp, hc⟩)
      rw [List.find?_append, hnone]
      simp [List.find?_cons]
    · rw [List.find?_append]
      have h2 : ([(kk, v)].find? fun p => p.1 == k) = none := by
        have : (kk == k) = false := beq_eq_false_iff_ne.2 (Ne.symm hk)
        simp [List.find?_cons, this]
      cases hm : m.find? (fun p => p.1 == k) with
      | none => simp [hm, h2, hk]
      | some q => simp [hm, hk]

theorem dictGet_rekey (gs : List (List Char × G3)) (k : List Char) :
    dictGet (rekeyByName gs) k =
      ((gs.filter (fun p => p.1 == k)).getLast?).map Prod.snd := by
  induction gs using List.reverseRecOn with
  | nil => rfl
  | append_singleton l p ih =>
      unfold rekeyByName at ih ⊢
      rw [List.foldl_append, List.foldl_cons, List.foldl_nil, dictGet_dictInsert,
        List.filter_append]
      by_cases hk : k = p.1
      · have : (List.filter (fun p2 => p2.1 == k) [p]) = [p] := by
          simp [List.filter_cons, hk]
        rw [this, List.getLast?_concat]
        simp [hk]
      · have : (List.filter (fun p2 => p2.1 == k) [p]) = [] := by
          have h2 : (p.1 == k) = false := beq_eq_false_iff_ne.2 (fun h2 => hk h2.symm)
          simp [List.filter_cons, h2]
        rw [this, List.append_nil]
        simp [hk, ih]

/-- C10: looking the rebuilt gate map up by a net name always yields the
last declaration whose truncated (`name[:-3]`) stored name matches — in a
collision the later declaration has silently replaced the earlier — and
`truncName` removes exactly the final three characters. -/
theorem c10_rekey_lookup :
    (∀ (decls : List (List Char × G3)) (k : List Char),
        dictGet (rekeyByName (parseStoredNames decls)) k =
          (((parseStoredNames decls).filter (fun p => p.1 == k)).getLast?).map
            Prod.snd) ∧
      (∀ s t : List Char, t.length = 3 → truncName (s ++ t) = s) ∧
      (∀ s : List Char, (truncName s).length = s.length - 3) := by
  refine ⟨fun decls k => dictGet_rekey _ k, ?_, ?_⟩
  · intro s t ht
    unfold truncName
    rw [List.length_append, ht, Nat.add_sub_cancel, List.take_left]
  · intro s
    unfold truncName
    rw [List.length_take]
    exact Nat.min_eq_left (Nat.sub_le _ _)

/-- C10 witness: two declarations whose names truncate to the same key;
the lookup returns the later one. -/
theorem c10_witness :
    (([] ++ [(['x'], defaultG3)] : List (List Char × G3)) =
        [(['x'], defaultG3)] ∧ (['0', '0', '1'] : List Char).length = 3) ∧
      dictGet
          (rekeyByName (parseStoredNames
            [(['n', 'a', '0', '0', '1'], defaultG3),
             (['n', 'a', '9', '9', '9'], { defaultG3 with address := 7 })]))
          ['n', 'a'] =
        ((((parseStoredNames
            [(['n', 'a', '0', '0', '1'], defaultG3),
             (['n', 'a', '9', '9', '9'], { defaultG3 with address := 7 })])).filter
            (fun p => p.1 == ['n', 'a'])).getLast?).map Prod.snd ∧
      truncName (['x'] ++ ['0', '0', '1']) = ['x'] :=
  ⟨⟨rfl, rfl⟩,
   c10_rekey_lookup.1 _ _,
   c10_rekey_lookup.2.1 ['x'] ['0', '0', '1'] rfl⟩

/-! ## C8: event coalescing and committed outputs -/

theorem popMinTime_eq_none {q : List (ℕ × SV)} (h : popMinTime q = none) :
    q = [] := by
  cases q with
  | nil => rfl
  | cons e rest =>
      unfold popMinTime at h
      cases hr : popMinTime rest with
      | none => rw [hr] at h; exact Option.noConfusion h
      | some p =>
          rw [hr] at h
          by_cases hle : e.1 ≤ p.1.1 <;> simp [hle] at h

theorem popMinTime_spec {q : List (ℕ × SV)} {e : ℕ × SV} {q2 : List (ℕ × SV)}
    (h : popMinTime q = some (e, q2)) :
    (∃ l1 l2, q = l1 ++ e :: l2 ∧ q2 = l1 ++ l2) ∧ ∀ f ∈ q, e.1 ≤ f.1 := by
  induction q generalizing e q2 with
  | nil => exact Option.noConfusion h
  | cons a rest ih =>
      unfold popMinTime at h
      cases hr : popMinTime rest with
      | none =>
          rw [hr] at h
          have hrest := popMinTime_eq_none hr
          subst hrest
          simp only [Option.some.injEq, Prod.mk.injEq] at h
          obtain ⟨he, hq2⟩ := h
          subst he; subst hq2
          exact ⟨⟨[], [], rfl, rfl⟩, by intro f hf; simp at hf; rw [hf]⟩
      | some p =>
          rw [hr] at h
          rcases p with ⟨m, rest2⟩
          obtain ⟨⟨l1, l2, hrest1, hrest2⟩, hmin⟩ := ih hr
          by_cases hle : a.1 ≤ m.1
          · simp only [hle, if_true, Option.some.injEq, Prod.mk.injEq] at h
            obtain ⟨he, hq2⟩ := h
            subst he; subst hq2
            refine ⟨⟨[], rest, rfl, rfl⟩, ?_⟩
            intro f hf
            rcases List.mem_cons.1 hf with hf | hf
            · rw [hf]
            · exact Nat.le_trans hle (hmin f hf)
          · simp only [hle, if_false, Option.some.injEq, Prod.mk.injEq] at h
            obtain ⟨he, hq2⟩ := h
            subst he; subst hq2
            refine ⟨⟨a :: l1, l2, by rw [hrest1]; rfl, by rw [hrest2]; rfl⟩, ?_⟩
            intro f hf
            rcases List.mem_cons.1 hf with hf | hf
            · rw [hf]; exact Nat.le_of_lt (Nat.lt_of_not_le hle)
            · exact hmin f hf

theorem updateOutputGo_spec : ∀ (fuel : ℕ) (q : List (ℕ × SV)) (t : ℕ) (o : SV),
    q.length ≤ fuel → (q.map Prod.fst).Nodup →
    (updateOutputGo fuel q t o).1 = q.filter (fun e => decide (t < e.1)) ∧
      ((∀ e ∈ q, ¬ e.1 ≤ t) → (updateOutputGo fuel q t o).2 = o) ∧
      (∀ e ∈ q, e.1 ≤ t → (∀ f ∈ q, f.1 ≤ t → f.1 ≤ e.1) →
        (updateOutputGo fuel q t o).2 = e.2) := by
  intro fuel
  induction fuel with
  | zero =>
      intro q t o hlen _
      have hq : q = [] := List.length_eq_zero.1 (Nat.le_zero.1 hlen)
      subst hq
      refine ⟨rfl, fun _ => rfl, ?_⟩
      intro e he
      simp at he
  | succ fuel ih =>
      intro q t o hlen hnd
      cases hpop : popMinTime q with
      | none =>
          have hq : q = [] := popMinTime_eq_none hpop
          subst hq
          refine ⟨rfl, fun _ => rfl, ?_⟩
          intro e he
          simp at he
      | some p =>
          rcases p with ⟨e, q2⟩
          have hstep : updateOutputGo (fuel + 1) q t o =
              if e.1 ≤ t then updateOutputGo fuel q2 t e.2 else (q, o) := by
            simp only [updateOutputGo]
            rw [hpop]
          rw [hstep]
          obtain ⟨⟨l1, l2, hq, hq2⟩, hmin⟩ := popMinTime_spec hpop
          have hsub : ∀ f, f ∈ q2 → f ∈ q := by
            intro f hf
            rw [hq2] at hf
            rw [hq]
            rcases List.mem_append.1 hf with h2 | h2
            · exact List.mem_append.2 (Or.inl h2)
            · exact List.mem_append.2 (Or.inr (List.mem_cons.2 (Or.inr h2)))
          have hemem : e ∈ q := by
            rw [hq]
            exact List.mem_append.2 (Or.inr (List.mem_cons.2 (Or.inl rfl)))
          by_cases he : e.1 ≤ t
          · rw [if_pos he]
            have hlen2a : q2.length ≤ fuel := by
              rw [hq] at hlen
              rw [hq2]
              simp at hlen ⊢
              omega
            have hnd2 : (q2.map Prod.fst).Nodup := by
              rw [hq] at hnd
              rw [hq2]
              refine List.Nodup.sublist (List.Sublist.map _ ?_) hnd
              exact List.Sublist.append_left (List.sublist_cons_self _ _) _
            obtain ⟨ih1, ih2, ih3⟩ := ih q2 t e.2 hlen2a hnd2
            refine ⟨?_, ?_, ?_⟩
            · rw [ih1, hq, hq2]
              rw [List.filter_append, List.filter_append, List.filter_cons]
              have hde : (decide (t < e.1)) = false := by simp; omega
              rw [hde]
              simp
            · intro hall
              exact absurd he (hall e hemem)
            · intro e0 he0 he0t hmax
              rw [hq] at he0
              rcases List.mem_append.1 he0 with h1 | h1
              · refine ih3 e0 (by rw [hq2]; exact List.mem_append.2 (Or.inl h1))
                  he0t ?_
                intro f hf hft
                exact hmax f (hsub f hf) hft
              · rcases List.mem_cons.1 h1 with h1 | h1
                · rw [h1]
                  refine ih2 ?_
                  intro f hf hft
                  have hfe : e.1 ≤ f.1 := hmin f (hsub f hf)
                  have hef : f.1 ≤ e0.1 := hmax f (hsub f hf) hft
                  rw [h1] at he0t hef
                  have hfeq : f.1 = e.1 := Nat.le_antisymm hef hfe
                  rw [hq] at hnd
                  rw [List.map_append, List.map_cons] at hnd
                  have hnm := List.nodup_middle.mp hnd
                  have hnotin := (List.nodup_cons.1 hnm).1
                  rw [hq2] at hf
                  refine hnotin ?_
                  rcases List.mem_append.1 hf with h2 | h2
                  · exact List.mem_append.2 (Or.inl (List.mem_map.2 ⟨f, h2, hfeq⟩))
                  · exact List.mem_append.2 (Or.inr (List.mem_map.2 ⟨f, h2, hfeq⟩))
                · refine ih3 e0 (by rw [hq2]; exact List.mem_append.2 (Or.inr h1))
                    he0t ?_
                  intro f hf hft
                  exact hmax f (hsub f hf) hft
          · rw [if_neg he]
            refine ⟨?_, fun _ => rfl, ?_⟩
            · have hall : ∀ a ∈ q, (fun e => decide (t < e.1)) a = true := by
                intro a ha
                have := hmin a ha
                simp
                omega
              exact (List.filter_eq_self.2 hall).symm
            · intro e0 he0 he0t _
              exact absurd (Nat.le_trans (hmin e0 he0) he0t) he

/-- C8: (i) scheduling a gate twice at one fire-time leaves exactly one
event at that time, and scheduling preserves the pairwise-distinct
fire-time discipline; (ii) after a commit at time `t` the queue keeps
exactly the strictly-later events, the output is untouched when nothing
was due, and otherwise equals the value of the latest event at or before
`t` — the event that committed last. -/
theorem c8_queue (q : List (ℕ × SV)) (t tv : ℕ) (va vb : SV) (o : SV)
    (hnd : (q.map Prod.fst).Nodup) :
    ((scheduleEvent (scheduleEvent q tv va) tv vb).countP
        (fun e => e.1 == tv) = 1 ∧
      ((scheduleEvent q tv va).map Prod.fst).Nodup) ∧
      (updateOutput q t o).1 = q.filter (fun e => decide (t < e.1)) ∧
      ((∀ e ∈ q, ¬ e.1 ≤ t) → (updateOutput q t o).2 = o) ∧
      (∀ e ∈ q, e.1 ≤ t → (∀ f ∈ q, f.1 ≤ t → f.1 ≤ e.1) →
        (updateOutput q t o).2 = e.2) := by
  refine ⟨⟨?_, ?_⟩, ?_⟩
  · unfold scheduleEvent
    rw [List.countP_append]
    have h1 : (((q.filter fun e => e.1 != tv) ++ [(tv, va)]).filter
        fun e => e.1 != tv).countP (fun e => e.1 == tv) = 0 := by
      rw [List.countP_eq_zero]
      intro a ha
      have := List.of_mem_filter ha
      simp only [bne_iff_ne] at this
      simp [this]
    rw [h1]
    simp
  · unfold scheduleEvent
    rw [List.map_append]
    rw [List.nodup_append]
    refine ⟨?_, by simp, ?_⟩
    · exact List.Nodup.sublist (List.Sublist.map _ (List.filter_sublist _)) hnd
    · intro a ha hb
      simp only [List.map_cons, List.map_nil, List.mem_singleton] at hb
      subst hb
      rcases List.mem_map.1 ha with ⟨e, hemem, hfst⟩
      have := List.of_mem_filter hemem
      simp only [bne_iff_ne] at this
      exact this hfst
  · exact updateOutputGo_spec q.length q t o (Nat.le_refl _) hnd

/-- C8 witness: the queue facts at a concrete two-event queue. -/
theorem c8_witness :
    (([(3, SV.s1), (7, SV.s0)].map Prod.fst).Nodup) ∧
      ((scheduleEvent (scheduleEvent [(3, SV.s1), (7, SV.s0)] 7 SV.sU) 7 SV.sZ).countP
          (fun e => e.1 == 7) = 1 ∧
        ((scheduleEvent [(3, SV.s1), (7, SV.s0)] 7 SV.sU).map Prod.fst).Nodup) ∧
        (updateOutput [(3, SV.s1), (7, SV.s0)] 5 SV.sU).1 =
          ([(3, SV.s1), (7, SV.s0)].filter (fun e => decide (5 < e.1))) ∧
        ((∀ e ∈ ([(3, SV.s1), (7, SV.s0)] : List (ℕ × SV)), ¬ e.1 ≤ 5) →
          (updateOutput [(3, SV.s1), (7, SV.s0)] 5 SV.sU).2 = SV.sU) ∧
        (∀ e ∈ ([(3, SV.s1), (7, SV.s0)] : List (ℕ × SV)), e.1 ≤ 5 →
          (∀ f ∈ ([(3, SV.s1), (7, SV.s0)] : List (ℕ × SV)), f.1 ≤ 5 → f.1 ≤ e.1) →
          (updateOutput [(3, SV.s1), (7, SV.s0)] 5 SV.sU).2 = e.2) :=
  ⟨by decide, c8_queue [(3, SV.s1), (7, SV.s0)] 5 7 SV.sU SV.sZ SV.sU (by decide)⟩

/-! ## C1: PODEM success and the returned pattern -/

theorem podemRecursive_success (PC : PCircuit) (flt : PFault) :
    ∀ (fuel : ℕ) (st : PState) (b : Bool) (stf : PState),
      podemRecursive PC flt fuel st = (b, stf) → b = true →
      podemSuccess PC.circ stf.out = true := by
  intro fuel
  induction fuel with
  | zero =>
      intro st b stf h hb
      simp only [podemRecursive] at h
      injection h with h1 h2
      rw [← h1] at hb
      exact Bool.noConfusion hb
  | succ fuel ih =>
      intro st b stf h hb
      simp only [podemRecursive] at h
      by_cases hs : podemSuccess PC.circ st.out = true
      · rw [if_pos hs] at h
        injection h with h1 h2
        rw [← h2]
        exact hs
      · rw [if_neg hs] at h
        split at h
        · injection h with h1 h2
          rw [← h1] at hb
          exact Bool.noConfusion hb
        · split at h
          · injection h with h1 h2
            rw [← h1] at hb
            exact Bool.noConfusion hb
          · split at h
            · injection h with h1 h2
              rename_i heq
              rw [← h2]
              exact ih _ _ _ heq rfl
            · split at h
              · injection h with h1 h2
                rename_i heq
                rw [← h2]
                exact ih _ _ _ heq rfl
              · injection h with h1 h2
                rw [← h1] at hb
                exact Bool.noConfusion hb

/-- C1: whenever the PODEM recursion reports success from the initial
all-X state, at least one primary output carries D or D′ in the final
search state, and `generate_test_vector` returns exactly the primary
inputs' outputs of that state with D mapped to "1" and D′ mapped to
"0". -/
theorem c1_podem_test_vector (PC : PCircuit) (faultIdx stuckValue fuel : ℕ)
    (h : (podemRecursive PC
        { idx := faultIdx, fval := if stuckValue == 1 then V.v1 else V.v0 } fuel
        { out := List.replicate (numGates PC.circ) V.vX, activated := false }).1
          = true) :
    podemSuccess PC.circ
        (podemRecursive PC
          { idx := faultIdx, fval := if stuckValue == 1 then V.v1 else V.v0 } fuel
          { out := List.replicate (numGates PC.circ) V.vX,
            activated := false }).2.out = true ∧
      generateTestVector PC faultIdx stuckValue fuel =
        some ((primaryInputs PC.circ).map fun i =>
          mapDOut (outAt
            (podemRecursive PC
              { idx := faultIdx, fval := if stuckValue == 1 then V.v1 else V.v0 }
              fuel
              { out := List.replicate (numGates PC.circ) V.vX,
                activated := false }).2.out i)) := by
  constructor
  · rcases hr : podemRecursive PC
        { idx := faultIdx, fval := if stuckValue == 1 then V.v1 else V.v0 } fuel
        { out := List.replicate (numGates PC.circ) V.vX, activated := false }
      with ⟨b, stf⟩
    rw [hr] at h
    exact podemRecursive_success PC _ fuel _ b stf hr h
  · unfold generateTestVector
    simp only [h, if_true]

/-- C1 witness: the single-gate circuit `exC1` with the stuck-at-0 fault
on its only (input, primary-output) gate; PODEM succeeds in two levels of
recursion. -/
theorem c1_witness :
    (podemRecursive exC1 { idx := 0, fval := if 0 == 1 then V.v1 else V.v0 } 2
        { out := List.replicate (numGates exC1.circ) V.vX, activated := false }).1
          = true ∧
      (podemSuccess exC1.circ
          (podemRecursive exC1
            { idx := 0, fval := if 0 == 1 then V.v1 else V.v0 } 2
            { out := List.replicate (numGates exC1.circ) V.vX,
              activated := false }).2.out = true ∧
        generateTestVector exC1 0 0 2 =
          some ((primaryInputs exC1.circ).map fun i =>
            mapDOut (outAt
              (podemRecursive exC1
                { idx := 0, fval := if 0 == 1 then V.v1 else V.v0 } 2
                { out := List.replicate (numGates exC1.circ) V.vX,
                  activated := false }).2.out i))) :=
  ⟨by decide, c1_podem_test_vector exC1 0 0 2 (by decide)⟩

/-! ## C7: SCOAP invariants -/

theorem foldl_pres {α β : Type} (body : α → β → α) (P : α → Prop)
    (hb : ∀ a b, P a → P (body a b)) :
    ∀ (L : List β) (a : α), P a → P (L.foldl body a) := by
  intro L
  induction L with
  | nil => intro a ha; exact ha
  | cons x L ih =>
      intro a ha
      rw [List.foldl_cons]
      exact ih _ (hb a x ha)

theorem backStep_cc (C : C3) (s : ScoapSt) (i : ℕ) :
    (scoapBackStep C s i).cc0 = s.cc0 ∧ (scoapBackStep C s i).cc1 = s.cc1 := by
  have hfold : ∀ (body : ScoapSt → ℕ → ScoapSt),
      (∀ st j, (body st j).cc0 = st.cc0 ∧ (body st j).cc1 = st.cc1) →
      ∀ (L : List ℕ) (st : ScoapSt),
        ((L.foldl body st).cc0 = st.cc0 ∧ (L.foldl body st).cc1 = st.cc1) := by
    intro body hb L
    induction L with
    | nil => intro st; exact ⟨rfl, rfl⟩
    | cons x L ih =>
        intro st
        rw [List.foldl_cons]
        obtain ⟨h0, h1⟩ := ih (body st x)
        obtain ⟨g0, g1⟩ := hb st x
        exact ⟨h0.trans g0, h1.trans g1⟩
  simp only [scoapBackStep]
  repeat' split
  all_goals
    first
      | exact ⟨rfl, rfl⟩
      | (apply hfold; intro st j; exact ⟨rfl, rfl⟩)

theorem foldl_pres_mem {α β : Type} (body : α → β → α) (P : α → Prop) :
    ∀ (L : List β), (∀ a b, b ∈ L → P a → P (body a b)) →
      ∀ (a : α), P a → P (L.foldl body a) := by
  intro L
  induction L with
  | nil => intro _ a ha; exact ha
  | cons x L ih =>
      intro hb a ha
      rw [List.foldl_cons]
      exact ih (fun a b hbL => hb a b (List.mem_cons.2 (Or.inr hbL)))
        _ (hb a x (List.mem_cons.2 (Or.inl rfl)) ha)

theorem foldl_coSet_length (pos : ℕ → ℕ) (val : ScoapSt → ℕ → Cost) :
    ∀ (L : List ℕ) (st : ScoapSt),
      (L.foldl (fun st j => { st with co := st.co.set (pos j) (val st j) })
        st).co.length = st.co.length := by
  intro L
  induction L with
  | nil => intro st; rfl
  | cons x L ih =>
      intro st
      rw [List.foldl_cons]
      rw [ih]
      simp [List.length_set]

theorem backStep_co_length (C : C3) (s : ScoapSt) (i : ℕ) :
    (scoapBackStep C s i).co.length = s.co.length := by
  simp only [scoapBackStep]
  repeat' split
  all_goals
    first
      | (simp [List.length_set]; done)
      | (rw [foldl_coSet_length]; try simp [List.length_set])

theorem forwardStep_co (C : C3) (s : ScoapSt) (i : ℕ) :
    (scoapForwardStep C s i).co = s.co := by
  simp only [scoapForwardStep]
  repeat' split
  all_goals rfl

theorem forwardStep_cc_length (C : C3) (s : ScoapSt) (i : ℕ) :
    (scoapForwardStep C s i).cc0.length = s.cc0.length ∧
      (scoapForwardStep C s i).cc1.length = s.cc1.length := by
  simp only [scoapForwardStep]
  repeat' split
  all_goals exact ⟨by simp [List.length_set], by simp [List.length_set]⟩

theorem forwardStep_other (C : C3) (s : ScoapSt) (i k : ℕ) (hk : k ≠ i) :
    cc0At (scoapForwardStep C s i) k = cc0At s k ∧
      cc1At (scoapForwardStep C s i) k = cc1At s k := by
  have hne : ∀ (l : List Cost) (v : Cost),
      (l.set i v).getD k Cost.inf = l.getD k Cost.inf :=
    fun l v => getD_set_ne _ _ _ _ _ (fun he => hk he.symm)
  simp only [scoapForwardStep]
  repeat' split
  all_goals exact ⟨by simp only [cc0At, hne], by simp only [cc1At, hne]⟩

theorem forwardStep_inpt (C : C3) (s : ScoapSt) (i : ℕ)
    (hty : (gateAt C i).ty = GType.gInpt) : scoapForwardStep C s i = s := by
  simp only [scoapForwardStep, hty]

set_option maxHeartbeats 1000000 in
theorem backStep_co_other (C : C3) (s : ScoapSt) (j k : ℕ) (hk1 : k ≠ j)
    (hk2 : k ∉ (gateAt C j).inputs) :
    coAt (scoapBackStep C s j) k = coAt s k := by
  have hne : ∀ (l : List Cost) (p : ℕ) (v : Cost),
      (p = j ∨ p ∈ (gateAt C j).inputs) →
      (l.set p v).getD k Cost.inf = l.getD k Cost.inf := by
    intro l p v hp
    refine getD_set_ne _ _ _ _ _ ?_
    intro he
    rcases hp with hp | hp
    · exact hk1 (he.symm.trans hp)
    · exact hk2 (he ▸ hp)
  have hs1co : ((if ((gateAt C j).fanoutF == 0) = true then
      ({ s with co := s.co.set j (Cost.fin 0) } : ScoapSt) else s)).co.getD k
        Cost.inf = s.co.getD k Cost.inf := by
    split
    · exact hne _ _ _ (Or.inl rfl)
    · rfl
  have hfoldne : ∀ (pos : ℕ → ℕ) (val : ScoapSt → ℕ → Cost) (L : List ℕ),
      (∀ jj ∈ L, pos jj = j ∨ pos jj ∈ (gateAt C j).inputs) →
      ∀ (st : ScoapSt),
      (L.foldl (fun st jj => { st with co := st.co.set (pos jj) (val st jj) })
        st).co.getD k Cost.inf = st.co.getD k Cost.inf := by
    intro pos val L
    induction L with
    | nil => intro _ st; rfl
    | cons x L ih =>
        intro hmem st
        rw [List.foldl_cons,
          ih (fun jj hjj => hmem jj (List.mem_cons.2 (Or.inr hjj)))]
        exact hne _ _ _ (hmem x (List.mem_cons.2 (Or.inl rfl)))
  have hmemxor : ∀ jj ∈ List.range (gateAt C j).inputs.length,
      (gateAt C j).inputs.getD jj 0 = j ∨
        (gateAt C j).inputs.getD jj 0 ∈ (gateAt C j).inputs := by
    intro jj hjj
    right
    have hlt : jj < (gateAt C j).inputs.length := List.mem_range.1 hjj
    rw [List.getD_eq_getElem _ _ hlt]
    exact List.getElem_mem _
  simp only [scoapBackStep]
  repeat' split
  all_goals simp only [coAt]
  all_goals try rw [hfoldne _ _ _ hmemxor]
  all_goals try (repeat rw [hne])
  all_goals try rfl
  all_goals
    first
      | exact Or.inl rfl
      | (clear hfoldne hmemxor hs1co hne hk1 hk2
         simp_all)

set_option maxHeartbeats 1000000 in
theorem backStep_co_self_po (C : C3) (s : ScoapSt) (i : ℕ)
    (hfo : (gateAt C i).fanoutF = 0)
    (hcons : (gateAt C i).ty = GType.gFanout → hasConsumer C i = false)
    (hin : ∀ p ∈ (gateAt C i).inputs, p ≠ i)
    (hlen : i < s.co.length) :
    coAt (scoapBackStep C s i) i = Cost.fin 0 := by
  have hne : ∀ (l : List Cost) (p : ℕ) (v : Cost), p ∈ (gateAt C i).inputs →
      (l.set p v).getD i Cost.inf = l.getD i Cost.inf := by
    intro l p v hp
    exact getD_set_ne _ _ _ _ _ (hin p hp)
  have hfoldne : ∀ (pos : ℕ → ℕ) (val : ScoapSt → ℕ → Cost) (L : List ℕ),
      (∀ jj ∈ L, pos jj ∈ (gateAt C i).inputs) →
      ∀ (st : ScoapSt),
      (L.foldl (fun st jj => { st with co := st.co.set (pos jj) (val st jj) })
        st).co.getD i Cost.inf = st.co.getD i Cost.inf := by
    intro pos val L
    induction L with
    | nil => intro _ st; rfl
    | cons x L ih =>
        intro hmem st
        rw [List.foldl_cons,
          ih (fun jj hjj => hmem jj (List.mem_cons.2 (Or.inr hjj)))]
        exact hne _ _ _ (hmem x (List.mem_cons.2 (Or.inl rfl)))
  have hmemxor : ∀ jj ∈ List.range (gateAt C i).inputs.length,
      (gateAt C i).inputs.getD jj 0 ∈ (gateAt C i).inputs := by
    intro jj hjj
    have hlt : jj < (gateAt C i).inputs.length := List.mem_range.1 hjj
    rw [List.getD_eq_getElem _ _ hlt]
    exact List.getElem_mem _
  have hfo2 : ((gateAt C i).fanoutF == 0) = true := by simp [hfo]
  have hset0 : (s.co.set i (Cost.fin 0)).getD i Cost.inf = Cost.fin 0 :=
    getD_set_self _ _ _ _ hlen
  simp only [scoapBackStep, hfo2, if_true]
  generalize hL : s.co.set i (Cost.fin 0) = L
  rw [hL] at hset0
  have hLlen : i < L.length := by rw [← hL]; simpa [List.length_set] using hlen
  split
  · rename_i hT
    have hty : (gateAt C i).ty = GType.gFanout := by simpa using hT
    rw [hcons hty]
    simp only [Bool.not_false]
    rw [if_pos trivial]
    simp only [coAt]
    exact getD_set_self _ _ _ _ hLlen
  · repeat' split
    all_goals simp only [coAt]
    all_goals try rw [hfoldne _ _ _ hmemxor]
    all_goals try (repeat rw [hne])
    all_goals try exact hset0
    all_goals
      first
        | exact hset0
        | (clear hfoldne hmemxor hne hset0 hfo2
           simp_all)

theorem hasConsumer_of_mem (C : C3) {i b : ℕ} (hb : b < numGates C)
    (hmem : i ∈ (gateAt C b).inputs) : hasConsumer C i = true := by
  simp only [hasConsumer, List.any_eq_true]
  exact ⟨b, List.mem_range.2 hb, by simpa using hmem⟩

theorem forwardStep_ge1 (C : C3) (s : ScoapSt) (i : ℕ)
    (hA : ∀ j, Cost.cle (Cost.fin 1) (cc0At s j) = true ∧
               Cost.cle (Cost.fin 1) (cc1At s j) = true) :
    ∀ j, Cost.cle (Cost.fin 1) (cc0At (scoapForwardStep C s i) j) = true ∧
         Cost.cle (Cost.fin 1) (cc1At (scoapForwardStep C s i) j) = true := by
  intro j
  by_cases hj : j = i
  · subst hj
    simp only [scoapForwardStep]
    repeat' split
    all_goals refine ⟨?_, ?_⟩
    all_goals simp only [cc0At, cc1At, getD_set]
    all_goals try split
    all_goals
      first
        | exact Cost.one_cle_cadd_one _
        | exact (hA _).1
        | exact (hA _).2
  · have h := forwardStep_other C s i j hj
    exact ⟨by rw [h.1]; exact (hA j).1, by rw [h.2]; exact (hA j).2⟩

theorem getD_replicate_inf (n j : ℕ) :
    (List.replicate n Cost.inf).getD j Cost.inf = Cost.inf := by
  rw [List.getD_eq_getElem?_getD, List.getElem?_replicate]
  split <;> rfl

theorem scoapInit_lengths (C : C3) :
    (scoapInit C).cc0.length = numGates C ∧
    (scoapInit C).cc1.length = numGates C ∧
    (scoapInit C).co = List.replicate (numGates C) Cost.inf := by
  simp only [scoapInit]
  refine foldl_pres _
    (fun s : ScoapSt => s.cc0.length = numGates C ∧ s.cc1.length = numGates C ∧
      s.co = List.replicate (numGates C) Cost.inf) ?_ _ _ ⟨by simp, by simp, rfl⟩
  intro a b hab
  dsimp only
  split
  · exact ⟨by simp [List.length_set, hab.1], by simp [List.length_set, hab.2.1],
      hab.2.2⟩
  · exact hab

theorem scoapInit_ge1 (C : C3) :
    ∀ j, Cost.cle (Cost.fin 1) (cc0At (scoapInit C) j) = true ∧
         Cost.cle (Cost.fin 1) (cc1At (scoapInit C) j) = true := by
  simp only [scoapInit]
  refine foldl_pres _
    (fun s => ∀ j, Cost.cle (Cost.fin 1) (cc0At s j) = true ∧
                   Cost.cle (Cost.fin 1) (cc1At s j) = true) ?_ _ _ ?_
  · intro a b hab j
    dsimp only
    split
    · refine ⟨?_, ?_⟩
      all_goals simp only [cc0At, cc1At, getD_set]
      all_goals split
      · decide
      · exact (hab j).1
      · decide
      · exact (hab j).2
    · exact hab j
  · intro j
    constructor
    all_goals simp only [cc0At, cc1At]
    all_goals rw [getD_replicate_inf]
    all_goals exact Cost.cle_inf _

theorem scoapInit_inpt (C : C3) (j : ℕ) (hj : j < numGates C)
    (hty : (gateAt C j).ty = GType.gInpt) :
    cc0At (scoapInit C) j = Cost.fin 1 ∧ cc1At (scoapInit C) j = Cost.fin 1 := by
  have hbody : ∀ (a : ScoapSt) (b : ℕ),
      (a.cc0.length = numGates C ∧ a.cc1.length = numGates C) →
      (cc0At a j = Cost.fin 1 ∧ cc1At a j = Cost.fin 1) →
      (cc0At (if (gateAt C b).ty == GType.gInpt then
          { a with cc0 := a.cc0.set b (Cost.fin 1),
                   cc1 := a.cc1.set b (Cost.fin 1) } else a) j = Cost.fin 1 ∧
       cc1At (if (gateAt C b).ty == GType.gInpt then
          { a with cc0 := a.cc0.set b (Cost.fin 1),
                   cc1 := a.cc1.set b (Cost.fin 1) } else a) j = Cost.fin 1) := by
    intro a b hq hp
    split
    · refine ⟨?_, ?_⟩
      all_goals simp only [cc0At, cc1At, getD_set]
      all_goals split
      · rfl
      · exact hp.1
      · rfl
      · exact hp.2
    · exact hp
  simp only [scoapInit]
  refine foldl_establish _
    (fun s : ScoapSt => s.cc0.length = numGates C ∧ s.cc1.length = numGates C)
    (fun s : ScoapSt => cc0At s j = Cost.fin 1 ∧ cc1At s j = Cost.fin 1) j
    (List.range (numGates C)) ?_ ?_ ?_ (List.mem_range.2 hj) _ ⟨by simp, by simp⟩
  · intro a b _ ha
    dsimp only
    split
    · exact ⟨by simp [List.length_set, ha.1], by simp [List.length_set, ha.2]⟩
    · exact ha
  · intro a ha
    have h2 : ((gateAt C j).ty == GType.gInpt) = true := by simp [hty]
    rw [if_pos h2]
    refine ⟨?_, ?_⟩
    · exact getD_set_self _ _ _ _ (by rw [ha.1]; exact hj)
    · exact getD_set_self _ _ _ _ (by rw [ha.2]; exact hj)
  · intro a b _ ha hp
    exact hbody a b ha hp

/-- C7: after `compute_scoap` completes on a well-formed netlist (inputs
declared before their consumers; declared fan-out field 0 exactly when no
gate consumes the line), every gate satisfies CC0 ≥ 1, CC1 ≥ 1 and
CO ≥ 0, every `inpt` gate satisfies CC0 = CC1 = 1, and every gate that no
other gate consumes satisfies CO = 0. -/
theorem c7_scoap_invariants (C : C3) (hW : SWF C) (i : ℕ) (hi : i < numGates C) :
    (Cost.cle (Cost.fin 1) (cc0At (computeScoap C) i) = true ∧
     Cost.cle (Cost.fin 1) (cc1At (computeScoap C) i) = true ∧
     Cost.cle (Cost.fin 0) (coAt (computeScoap C) i) = true) ∧
    ((gateAt C i).ty = GType.gInpt →
        cc0At (computeScoap C) i = Cost.fin 1 ∧
        cc1At (computeScoap C) i = Cost.fin 1) ∧
    (hasConsumer C i = false → coAt (computeScoap C) i = Cost.fin 0) := by
  obtain ⟨fwd, hfwd⟩ :
      ∃ f, (List.range (numGates C)).foldl (scoapForwardStep C) (scoapInit C) = f :=
    ⟨_, rfl⟩
  have hCS : computeScoap C =
      ((List.range (numGates C)).reverse).foldl (scoapBackStep C) fwd := by
    simp only [computeScoap]
    rw [hfwd]
  have hfwdco : fwd.co = (scoapInit C).co := by
    rw [← hfwd]
    exact foldl_pres _ (fun s : ScoapSt => s.co = (scoapInit C).co)
      (fun a b ha => (forwardStep_co C a b).trans ha) _ _ rfl
  have hfwdge1 : ∀ j, Cost.cle (Cost.fin 1) (cc0At fwd j) = true ∧
      Cost.cle (Cost.fin 1) (cc1At fwd j) = true := by
    rw [← hfwd]
    exact foldl_pres _
      (fun s : ScoapSt => ∀ j, Cost.cle (Cost.fin 1) (cc0At s j) = true ∧
        Cost.cle (Cost.fin 1) (cc1At s j) = true)
      (fun a b ha => forwardStep_ge1 C a b ha) _ _ (scoapInit_ge1 C)
  have hfwdinpt : (gateAt C i).ty = GType.gInpt →
      cc0At fwd i = Cost.fin 1 ∧ cc1At fwd i = Cost.fin 1 := by
    intro hty
    rw [← hfwd]
    refine foldl_pres _
      (fun s : ScoapSt => cc0At s i = Cost.fin 1 ∧ cc1At s i = Cost.fin 1)
      ?_ _ _ (scoapInit_inpt C i hi hty)
    intro a b hab
    by_cases hbi : b = i
    · subst hbi
      rw [forwardStep_inpt C a b hty]
      exact hab
    · obtain ⟨h0, h1⟩ := forwardStep_other C a b i (fun he => hbi he.symm)
      exact ⟨h0.trans hab.1, h1.trans hab.2⟩
  have hback_cc : (computeScoap C).cc0 = fwd.cc0 ∧ (computeScoap C).cc1 = fwd.cc1 := by
    rw [hCS]
    exact foldl_pres _ (fun s : ScoapSt => s.cc0 = fwd.cc0 ∧ s.cc1 = fwd.cc1)
      (fun a b ha => ⟨(backStep_cc C a b).1.trans ha.1,
        (backStep_cc C a b).2.trans ha.2⟩)
      _ _ ⟨rfl, rfl⟩
  have hcc0A : cc0At (computeScoap C) i = cc0At fwd i := by
    simp only [cc0At, hback_cc.1]
  have hcc1A : cc1At (computeScoap C) i = cc1At fwd i := by
    simp only [cc1At, hback_cc.2]
  have hpo : hasConsumer C i = false → coAt (computeScoap C) i = Cost.fin 0 := by
    intro hcons
    have hfo : (gateAt C i).fanoutF = 0 := (hW.fanoutZero i hi).mpr hcons
    have hself : ∀ a : ScoapSt, a.co.length = numGates C →
        coAt (scoapBackStep C a i) i = Cost.fin 0 := by
      intro a ha
      exact backStep_co_self_po C a i hfo (fun _ => hcons)
        (fun p hp => Nat.ne_of_lt (hW.inputsLt i hi p hp))
        (by rw [ha]; exact hi)
    rw [hCS]
    refine foldl_establish (scoapBackStep C)
      (fun s : ScoapSt => s.co.length = numGates C)
      (fun s : ScoapSt => coAt s i = Cost.fin 0) i
      ((List.range (numGates C)).reverse) ?_ ?_ ?_
      (List.mem_reverse.2 (List.mem_range.2 hi)) fwd ?_
    · intro a b _ ha
      rw [backStep_co_length]
      exact ha
    · intro a ha
      exact hself a ha
    · intro a b hb ha hp
      by_cases hbi : b = i
      · subst hbi
        exact hself a ha
      · have hbn : b < numGates C := List.mem_range.1 (List.mem_reverse.1 hb)
        have hnm : i ∉ (gateAt C b).inputs := by
          intro hmem
          have hc := hasConsumer_of_mem C hbn hmem
          rw [hcons] at hc
          exact Bool.false_ne_true hc
        rw [backStep_co_other C a b i (fun he => hbi he.symm) hnm]
        exact hp
    · show fwd.co.length = numGates C
      rw [hfwdco, (scoapInit_lengths C).2.2]
      simp
  refine ⟨⟨?_, ?_, Cost.zero_cle _⟩, ?_, hpo⟩
  · rw [hcc0A]
    exact (hfwdge1 i).1
  · rw [hcc1A]
    exact (hfwdge1 i).2
  · intro hty
    obtain ⟨h0, h1⟩ := hfwdinpt hty
    exact ⟨hcc0A.trans h0, hcc1A.trans h1⟩

/-- Witness for the C7 invariants on the concrete two-input `and` circuit
`exC7`, instantiated at its primary input 0 and primary output 2. -/
theorem c7_witness :
    cc0At (computeScoap exC7) 0 = Cost.fin 1 ∧
    cc1At (computeScoap exC7) 0 = Cost.fin 1 ∧
    coAt (computeScoap exC7) 2 = Cost.fin 0 ∧
    Cost.cle (Cost.fin 1) (cc0At (computeScoap exC7) 2) = true := by
  have h0 := c7_scoap_invariants exC7 ⟨by decide, by decide⟩ 0 (by decide)
  have h2 := c7_scoap_invariants exC7 ⟨by decide, by decide⟩ 2 (by decide)
  exact ⟨(h0.2.1 (by decide)).1, (h0.2.1 (by decide)).2,
    h2.2.2 (by decide), h2.1.1⟩

theorem pairLe_refl (a : ℕ × ℕ) : pairLe a a = true := by
  simp [pairLe]

theorem pairLe_total (a b : ℕ × ℕ) (h : pairLe a b = false) : pairLe b a = true := by
  simp only [pairLe, Bool.or_eq_false_iff, Bool.and_eq_false_iff, Bool.or_eq_true,
    Bool.and_eq_true, decide_eq_true_eq, decide_eq_false_iff_not, beq_iff_eq,
    beq_eq_false_iff_ne] at h ⊢
  omega

theorem pairLe_trans {a b c : ℕ × ℕ} (h1 : pairLe a b = true)
    (h2 : pairLe b c = true) : pairLe a c = true := by
  simp only [pairLe, Bool.or_eq_true, Bool.and_eq_true, decide_eq_true_eq,
    beq_iff_eq] at h1 h2 ⊢
  omega

theorem popMinPair_none {h : List (ℕ × ℕ)} (hp : popMinPair h = none) : h = [] := by
  cases h with
  | nil => rfl
  | cons e rest =>
      cases hr : popMinPair rest with
      | none =>
          have hv : popMinPair (e :: rest) = some (e, rest) := by
            simp [popMinPair, hr]
          rw [hv] at hp
          exact absurd hp (by simp)
      | some pr =>
          obtain ⟨m, rest2⟩ := pr
          by_cases hle : pairLe e m = true
          · have hv : popMinPair (e :: rest) = some (e, rest) := by
              simp [popMinPair, hr, hle]
            rw [hv] at hp
            exact absurd hp (by simp)
          · have hv : popMinPair (e :: rest) = some (m, e :: rest2) := by
              simp [popMinPair, hr, hle]
            rw [hv] at hp
            exact absurd hp (by simp)

theorem popMinPair_spec : ∀ {h : List (ℕ × ℕ)} {m : ℕ × ℕ} {h2 : List (ℕ × ℕ)},
    popMinPair h = some (m, h2) →
    h.Perm (m :: h2) ∧ ∀ x ∈ h, pairLe m x = true := by
  intro h
  induction h with
  | nil => intro m h2 hp; exact absurd hp (by simp [popMinPair])
  | cons e rest ih =>
      intro m h2 hp
      cases hr : popMinPair rest with
      | none =>
          have hrest : rest = [] := popMinPair_none hr
          subst hrest
          have hv : popMinPair [e] = some (e, []) := by simp [popMinPair]
          rw [hv] at hp
          simp only [Option.some.injEq, Prod.mk.injEq] at hp
          obtain ⟨hA, hB⟩ := hp
          rw [← hA, ← hB]
          refine ⟨List.Perm.refl _, ?_⟩
          intro x hx
          have hxe : x = e := by simpa using hx
          rw [hxe]
          exact pairLe_refl e
      | some pr =>
          obtain ⟨m2, rest2⟩ := pr
          obtain ⟨hperm2, hmin2⟩ := ih hr
          by_cases hle : pairLe e m2 = true
          · have hv : popMinPair (e :: rest) = some (e, rest) := by
              simp [popMinPair, hr, hle]
            rw [hv] at hp
            simp only [Option.some.injEq, Prod.mk.injEq] at hp
            obtain ⟨hA, hB⟩ := hp
            rw [← hA, ← hB]
            refine ⟨List.Perm.refl _, ?_⟩
            intro x hx
            rcases List.mem_cons.1 hx with hx | hx
            · rw [hx]; exact pairLe_refl e
            · exact pairLe_trans hle (hmin2 x hx)
          · have hv : popMinPair (e :: rest) = some (m2, e :: rest2) := by
              simp [popMinPair, hr, hle]
            rw [hv] at hp
            simp only [Option.some.injEq, Prod.mk.injEq] at hp
            obtain ⟨hA, hB⟩ := hp
            rw [← hA, ← hB]
            constructor
            · exact (List.Perm.cons e hperm2).trans (List.Perm.swap m2 e rest2)
            · intro x hx
              rcases List.mem_cons.1 hx with hx | hx
              · rw [hx]
                exact pairLe_total _ _ (by simpa using hle)
              · exact hmin2 x hx

theorem scheduleEvent_nil (t : ℕ) (v : SV) : scheduleEvent [] t v = [(t, v)] := rfl

theorem scheduleEvent_singleton (t : ℕ) (w v : SV) :
    scheduleEvent [(t, w)] t v = [(t, v)] := by
  simp [scheduleEvent]

theorem updateOutput_nil (t : ℕ) (o : SV) : updateOutput [] t o = ([], o) := rfl

theorem updateOutput_singleton (t : ℕ) (v o : SV) :
    updateOutput [(t, v)] t o = ([], v) := by
  simp [updateOutput, updateOutputGo, popMinTime]

theorem evalPending_eq_evalZero (t : GType) (l : List SV) (hz : SV.sZ ∉ l) :
    evalPending t l = evalZero t l := by
  cases t
  all_goals cases l with
    | nil => rfl
    | cons v rest =>
        have h1 : SV.sZ ≠ v := fun he => hz (by rw [he]; exact List.mem_cons_self _ _)
        have h2 : v ≠ SV.sZ := fun he => h1 he.symm
        have h3 : SV.sZ ∉ rest := fun he => hz (List.mem_cons.2 (Or.inr he))
        simp [evalPending, evalZero, h1, h2, h3]

theorem evalZero_ne_Z (t : GType) (l : List SV) (hz : SV.sZ ∉ l) :
    evalZero t l ≠ SV.sZ := by
  cases t
  all_goals cases l with
    | nil =>
        simp only [evalZero]
        repeat' split
        all_goals simp_all [List.contains]
    | cons v rest =>
        have h1 : SV.sZ ≠ v := fun he => hz (by rw [he]; exact List.mem_cons_self _ _)
        have h2 : v ≠ SV.sZ := fun he => h1 he.symm
        have h3 : SV.sZ ∉ rest := fun he => hz (List.mem_cons.2 (Or.inr he))
        simp only [evalZero]
        repeat' split
        all_goals simp_all

theorem evalZero_allU (t : GType) (l : List SV) (hne : l ≠ [])
    (hall : ∀ x ∈ l, x = SV.sU) : evalZero t l = SV.sU := by
  cases t
  all_goals cases l with
    | nil => exact absurd rfl hne
    | cons v rest =>
        have hv : v = SV.sU := hall v (List.mem_cons_self _ _)
        have hrest : ∀ x ∈ rest, x = SV.sU := fun x hx =>
          hall x (List.mem_cons.2 (Or.inr hx))
        subst hv
        have h0 : SV.s0 ∉ SV.sU :: rest := by
          intro hmem
          rcases List.mem_cons.1 hmem with h | h
          · exact absurd h (by decide)
          · exact absurd (hrest _ h) (by decide)
        have h1 : SV.s1 ∉ SV.sU :: rest := by
          intro hmem
          rcases List.mem_cons.1 hmem with h | h
          · exact absurd h (by decide)
          · exact absurd (hrest _ h) (by decide)
        have hcl0 : SV.s0 ∉ cleanInputs (SV.sU :: rest) := fun hmem =>
          h0 (List.mem_of_mem_filter hmem)
        have hcl1 : SV.s1 ∉ cleanInputs (SV.sU :: rest) := fun hmem =>
          h1 (List.mem_of_mem_filter hmem)
        simp [evalZero, hcl0, hcl1]

theorem getD_replicate {α : Type} (n j : ℕ) (a : α) :
    (List.replicate n a).getD j a = a := by
  rw [List.getD_eq_getElem?_getD, List.getElem?_replicate]
  split <;> rfl

theorem setPIOutputs_eq (C : C3) (vec : List (ℕ × SV)) (o : List SV) :
    setPIOutputs C vec o = (List.range (numGates C)).foldl (piBody C vec) o := rfl

theorem zeroDelayPassRun_eq (C : C3) (o : List SV) :
    zeroDelayPassRun C o = (List.range (numGates C)).foldl (passBody C) o := rfl

theorem applyStimulus_eq (C : C3) (vec : List (ℕ × SV)) (t : ℕ) (st : EvState) :
    applyStimulus C vec t st = (List.range (numGates C)).foldl (stimBody C vec t) st := rfl

theorem notifyConsumers_eq (C : C3) (t i : ℕ) (st : EvState) :
    notifyConsumers C t i st = (consumersList C i).foldl (notifyBody C t) st := rfl

theorem piBody_length (C : C3) (vec : List (ℕ × SV)) :
    ∀ (L : List ℕ) (o : List SV), (L.foldl (piBody C vec) o).length = o.length := by
  intro L
  induction L with
  | nil => intro o; rfl
  | cons x L ih =>
      intro o
      rw [List.foldl_cons, ih]
      simp only [piBody]
      split <;> simp [List.length_set]

theorem passBody_length (C : C3) :
    ∀ (L : List ℕ) (o : List SV), (L.foldl (passBody C) o).length = o.length := by
  intro L
  induction L with
  | nil => intro o; rfl
  | cons x L ih =>
      intro o
      rw [List.foldl_cons, ih]
      simp only [passBody]
      split <;> simp [List.length_set]

theorem zeroDelaySim_length (C : C3) (vec : List (ℕ × SV)) :
    (zeroDelaySim C vec).length = numGates C := by
  rw [zeroDelaySim, zeroDelayPassRun_eq, setPIOutputs_eq, passBody_length,
    piBody_length]
  simp

theorem pass_stab (C : C3) :
    ∀ (L : List ℕ) (o : List SV) (k : ℕ),
      (∀ i ∈ L, i ≠ k ∨ (gateAt C i).ty = GType.gInpt) →
      svAt (L.foldl (passBody C) o) k = svAt o k := by
  intro L
  induction L with
  | nil => intro o k _; rfl
  | cons x L ih =>
      intro o k hL
      rw [List.foldl_cons, ih _ _ (fun i hi => hL i (List.mem_cons.2 (Or.inr hi)))]
      rcases hL x (List.mem_cons.2 (Or.inl rfl)) with hx | hx
      · simp only [passBody]
        split
        · rfl
        · exact getD_set_ne _ _ _ _ _ hx
      · have hx2 : ((gateAt C x).ty == GType.gInpt) = true := by simp [hx]
        simp only [passBody, hx2, if_true]

theorem pi_stab (C : C3) (vec : List (ℕ × SV)) :
    ∀ (L : List ℕ) (o : List SV) (k : ℕ),
      (∀ i ∈ L, i ≠ k ∨ (gateAt C i).ty ≠ GType.gInpt) →
      svAt (L.foldl (piBody C vec) o) k = svAt o k := by
  intro L
  induction L with
  | nil => intro o k _; rfl
  | cons x L ih =>
      intro o k hL
      rw [List.foldl_cons, ih _ _ (fun i hi => hL i (List.mem_cons.2 (Or.inr hi)))]
      rcases hL x (List.mem_cons.2 (Or.inl rfl)) with hx | hx
      · simp only [piBody]
        split
        · exact getD_set_ne _ _ _ _ _ hx
        · rfl
      · have hx2 : ((gateAt C x).ty == GType.gInpt) = false := by
          simpa using hx
        simp only [piBody, hx2]
        rw [if_neg (by simp)]

theorem piOut_inpt (C : C3) (vec : List (ℕ × SV)) (j : ℕ) (hj : j < numGates C)
    (hty : (gateAt C j).ty = GType.gInpt) :
    svAt (setPIOutputs C vec (List.replicate (numGates C) SV.sU)) j =
      vecVal C vec j := by
  rw [setPIOutputs_eq]
  refine foldl_establish (piBody C vec)
    (fun o : List SV => o.length = numGates C)
    (fun o : List SV => svAt o j = vecVal C vec j) j
    (List.range (numGates C)) ?_ ?_ ?_ (List.mem_range.2 hj) _ (by simp)
  · intro o b _ ho
    simp only [piBody]
    split <;> simp [List.length_set, ho]
  · intro o ho
    have h2 : ((gateAt C j).ty == GType.gInpt) = true := by simp [hty]
    simp only [piBody, h2, if_true, svAt]
    exact getD_set_self _ _ _ _ (by rw [ho]; exact hj)
  · intro o b _ ho hp
    by_cases hbj : b = j
    · subst hbj
      have h2 : ((gateAt C b).ty == GType.gInpt) = true := by simp [hty]
      simp only [piBody, h2, if_true, svAt]
      exact getD_set_self _ _ _ _ (by rw [ho]; exact hj)
    · simp only [piBody]
      split
      · simp only [svAt] at hp ⊢
        rw [getD_set_ne _ _ _ _ _ hbj]
        exact hp
      · exact hp

theorem piOut_nonInpt (C : C3) (vec : List (ℕ × SV)) (j : ℕ)
    (hty : (gateAt C j).ty ≠ GType.gInpt) :
    svAt (setPIOutputs C vec (List.replicate (numGates C) SV.sU)) j = SV.sU := by
  rw [setPIOutputs_eq]
  rw [pi_stab C vec _ _ j ?_]
  · simp only [svAt]
    exact getD_replicate _ _ _
  · intro i _
    by_cases hij : i = j
    · subst hij; exact Or.inr hty
    · exact Or.inl hij

theorem final_inpt (C : C3) (vec : List (ℕ × SV)) (j : ℕ) (hj : j < numGates C)
    (hty : (gateAt C j).ty = GType.gInpt) :
    svAt (zeroDelaySim C vec) j = vecVal C vec j := by
  rw [zeroDelaySim, zeroDelayPassRun_eq]
  rw [pass_stab C _ _ j ?_]
  · exact piOut_inpt C vec j hj hty
  · intro i _
    by_cases hij : i = j
    · subst hij; exact Or.inr hty
    · exact Or.inl hij

theorem final_nonInpt (C : C3) (vec : List (ℕ × SV))
    (hin : ∀ i, i < numGates C → ∀ k ∈ (gateAt C i).inputs, k < i)
    (j : ℕ) (hj : j < numGates C) (hty : (gateAt C j).ty ≠ GType.gInpt) :
    svAt (zeroDelaySim C vec) j =
      evalZero (gateAt C j).ty
        ((gateAt C j).inputs.map (svAt (zeroDelaySim C vec))) := by
  obtain ⟨piO, hpi⟩ :
      ∃ o, setPIOutputs C vec (List.replicate (numGates C) SV.sU) = o := ⟨_, rfl⟩
  have hpiLen : piO.length = numGates C := by
    rw [← hpi, setPIOutputs_eq, piBody_length]
    simp
  have hsim : zeroDelaySim C vec = (List.range (numGates C)).foldl (passBody C) piO := by
    rw [zeroDelaySim, zeroDelayPassRun_eq, hpi]
  have hofoldlen : ∀ (L : List ℕ), (L.foldl (passBody C) piO).length = numGates C :=
    fun L => by rw [passBody_length]; exact hpiLen
  have hstab : ∀ (m k : ℕ), k < m → m ≤ numGates C →
      svAt ((List.range (numGates C)).foldl (passBody C) piO) k =
      svAt ((List.range m).foldl (passBody C) piO) k := by
    intro m k hk hm
    have harith : m + (numGates C - m) = numGates C := by omega
    have hdec : List.range (numGates C) =
        List.range m ++ List.map (fun x => m + x) (List.range (numGates C - m)) := by
      nth_rewrite 1 [← harith]
      exact List.range_add m (numGates C - m)
    rw [hdec, List.foldl_append]
    refine pass_stab C _ _ k ?_
    intro i hi
    simp only [List.mem_map] at hi
    obtain ⟨x, _, hx⟩ := hi
    exact Or.inl (by omega)
  have hjval : svAt ((List.range (j+1)).foldl (passBody C) piO) j =
      evalZero (gateAt C j).ty
        ((gateAt C j).inputs.map (svAt ((List.range j).foldl (passBody C) piO))) := by
    rw [List.range_succ, List.foldl_append]
    simp only [List.foldl_cons, List.foldl_nil]
    have hb : ((gateAt C j).ty == GType.gInpt) = false := by simpa using hty
    simp only [passBody, hb]
    rw [if_neg (by simp)]
    simp only [svAt]
    exact getD_set_self _ _ _ _ (by rw [hofoldlen]; exact hj)
  have hinputs : (gateAt C j).inputs.map (svAt ((List.range j).foldl (passBody C) piO)) =
      (gateAt C j).inputs.map (svAt ((List.range (numGates C)).foldl (passBody C) piO)) := by
    refine List.map_congr_left ?_
    intro k hk
    have hkj : k < j := hin j hj k hk
    rw [hstab j k hkj (le_of_lt hj)]
  rw [hsim, hstab (j+1) j (Nat.lt_succ_self j) hj, hjval, hinputs]

theorem final_ne_Z (C : C3) (vec : List (ℕ × SV))
    (hin : ∀ i, i < numGates C → ∀ k ∈ (gateAt C i).inputs, k < i)
    (hz : ∀ p ∈ vec, p.2 ≠ SV.sZ) :
    ∀ j, svAt (zeroDelaySim C vec) j ≠ SV.sZ := by
  intro j
  induction j using Nat.strong_induction_on with
  | _ j ih =>
      by_cases hj : j < numGates C
      · by_cases hty : (gateAt C j).ty = GType.gInpt
        · rw [final_inpt C vec j hj hty]
          simp only [vecVal]
          cases hf : vec.find? (fun p => p.1 == (gateAt C j).address) with
          | none => simp
          | some p =>
              have hp : p ∈ vec := List.mem_of_find?_eq_some hf
              simpa using hz p hp
        · rw [final_nonInpt C vec hin j hj hty]
          refine evalZero_ne_Z _ _ ?_
          intro hmem
          simp only [List.mem_map] at hmem
          obtain ⟨k, hk, hkz⟩ := hmem
          exact ih k (hin j hj k hk) hkz
      · simp only [svAt]
        rw [List.getD_eq_default]
        · simp
        · rw [zeroDelaySim_length]
          omega

theorem final_fix (C : C3) (vec : List (ℕ × SV))
    (hin : ∀ i, i < numGates C → ∀ k ∈ (gateAt C i).inputs, k < i)
    (hz : ∀ p ∈ vec, p.2 ≠ SV.sZ)
    (j : ℕ) (hj : j < numGates C) (hty : (gateAt C j).ty ≠ GType.gInpt) :
    evalPending (gateAt C j).ty
        ((gateAt C j).inputs.map (svAt (zeroDelaySim C vec))) =
      svAt (zeroDelaySim C vec) j := by
  have hnz : SV.sZ ∉ (gateAt C j).inputs.map (svAt (zeroDelaySim C vec)) := by
    intro hmem
    simp only [List.mem_map] at hmem
    obtain ⟨k, hk, hkz⟩ := hmem
    exact final_ne_Z C vec hin hz k hkz
  rw [evalPending_eq_evalZero _ _ hnz, ← final_nonInpt C vec hin j hj hty]

theorem consumersList_mem (C : C3) (i c : ℕ) :
    c ∈ consumersList C i ↔ c < numGates C ∧ i ∈ (gateAt C c).inputs := by
  simp [consumersList, List.mem_filter]

theorem consumersList_nodup (C : C3) (i : ℕ) : (consumersList C i).Nodup :=
  (List.nodup_range (numGates C)).filter _

theorem consumers_nonInpt (C : C3) (hW : NWF C) (i c : ℕ)
    (hc : c ∈ consumersList C i) : (gateAt C c).ty ≠ GType.gInpt := by
  obtain ⟨hlt, hmem⟩ := (consumersList_mem C i c).1 hc
  intro hty
  rw [hW.inptNoInputs c hlt hty] at hmem
  exact absurd hmem (List.not_mem_nil i)

theorem anc_le (C : C3)
    (hin : ∀ i, i < numGates C → ∀ k ∈ (gateAt C i).inputs, k < i) :
    ∀ {a j}, Anc C a j → j < numGates C → a ≤ j ∧ a < numGates C := by
  intro a j h
  induction h with
  | refl => intro hj; exact ⟨Nat.le_refl _, hj⟩
  | step k j h hk ih =>
      intro hj
      have hkj : k < j := hin j hj k hk
      obtain ⟨h1, h2⟩ := ih (Nat.lt_trans hkj hj)
      exact ⟨Nat.le_of_lt (Nat.lt_of_le_of_lt h1 hkj), h2⟩

theorem anc_decomp (C : C3) : ∀ {a j}, Anc C a j →
    a = j ∨ ∃ c, Anc C c j ∧ a ∈ (gateAt C c).inputs := by
  intro a j h
  induction h with
  | refl => exact Or.inl rfl
  | step k j h hk ih =>
      rcases ih with he | ⟨c, hc, hac⟩
      · exact Or.inr ⟨j, Anc.refl j, he ▸ hk⟩
      · exact Or.inr ⟨c, Anc.step c k j hc hk, hac⟩

theorem notifyBody_eq (C : C3) (t0 : ℕ) (s : EvState) (x : ℕ)
    (hb : ((gateAt C x).ty == GType.gInpt) = false) (hd : (gateAt C x).delay = 0) :
    notifyBody C t0 s x =
      { out := s.out,
        locals := s.locals.set x (scheduleEvent (s.locals.getD x []) t0
          (evalPending (gateAt C x).ty ((gateAt C x).inputs.map (svAt s.out)))),
        heap := s.heap ++ [(t0, x)] } := by
  simp only [notifyBody, gateEvaluate2, hb]
  rw [if_neg (by simp)]
  simp [hd]

set_option maxHeartbeats 1000000 in
theorem notify_fold_chars (C : C3) (t0 : ℕ) : ∀ (L : List ℕ),
    L.Nodup →
    (∀ j ∈ L, j < numGates C ∧ (gateAt C j).ty ≠ GType.gInpt ∧
      (gateAt C j).delay = 0) →
    ∀ st : EvState, st.locals.length = numGates C →
    (∀ j ∈ L, st.locals.getD j [] = [] ∨ ∃ v, st.locals.getD j [] = [(t0, v)]) →
    (L.foldl (notifyBody C t0) st).out = st.out ∧
    (L.foldl (notifyBody C t0) st).heap = st.heap ++ L.map (fun j => (t0, j)) ∧
    (L.foldl (notifyBody C t0) st).locals.length = st.locals.length ∧
    (∀ k, k ∉ L →
      (L.foldl (notifyBody C t0) st).locals.getD k [] = st.locals.getD k []) ∧
    (∀ k ∈ L, (L.foldl (notifyBody C t0) st).locals.getD k [] =
        [(t0, evalPending (gateAt C k).ty
          ((gateAt C k).inputs.map (svAt st.out)))]) := by
  intro L
  induction L with
  | nil =>
      intro _ _ st _ _
      refine ⟨rfl, by simp, rfl, fun k _ => rfl, fun k hk => absurd hk (List.not_mem_nil k)⟩
  | cons x L ih =>
      intro hnd hprops st hlen hsh
      obtain ⟨hxlt, hxni, hxd⟩ := hprops x (List.mem_cons_self x L)
      have hxL : x ∉ L := (List.nodup_cons.1 hnd).1
      have hb : ((gateAt C x).ty == GType.gInpt) = false := by simpa using hxni
      have hsched : scheduleEvent (st.locals.getD x []) t0
          (evalPending (gateAt C x).ty ((gateAt C x).inputs.map (svAt st.out))) =
          [(t0, evalPending (gateAt C x).ty ((gateAt C x).inputs.map (svAt st.out)))] := by
        rcases hsh x (List.mem_cons_self x L) with he | ⟨v, he⟩
        · rw [he]; exact scheduleEvent_nil _ _
        · rw [he]; exact scheduleEvent_singleton _ _ _
      have hstep : (x :: L).foldl (notifyBody C t0) st =
          L.foldl (notifyBody C t0)
            { out := st.out,
              locals := st.locals.set x
                [(t0, evalPending (gateAt C x).ty
                  ((gateAt C x).inputs.map (svAt st.out)))],
              heap := st.heap ++ [(t0, x)] } := by
        rw [List.foldl_cons, notifyBody_eq C t0 st x hb hxd, hsched]
      obtain ⟨ihOut, ihHeap, ihLen, ihUn, ihVal⟩ :=
        ih (List.nodup_cons.1 hnd).2
          (fun j hj => hprops j (List.mem_cons.2 (Or.inr hj)))
          { out := st.out,
            locals := st.locals.set x
              [(t0, evalPending (gateAt C x).ty
                ((gateAt C x).inputs.map (svAt st.out)))],
            heap := st.heap ++ [(t0, x)] }
          (by simpa [List.length_set] using hlen)
          (by
            intro j hj
            have hjx : j ≠ x := fun he => hxL (he ▸ hj)
            simp only
            rw [getD_set_ne _ _ _ _ _ (fun he => hjx he.symm)]
            exact hsh j (List.mem_cons.2 (Or.inr hj)))
      rw [hstep]
      refine ⟨ihOut, ?_, by simpa [List.length_set] using ihLen, ?_, ?_⟩
      · rw [ihHeap]
        simp [List.append_assoc]
      · intro k hk
        have hk1 : k ≠ x := fun he => hk (he ▸ List.mem_cons_self x L)
        have hk2 : k ∉ L := fun he => hk (List.mem_cons.2 (Or.inr he))
        rw [ihUn k hk2]
        simp only
        exact getD_set_ne _ _ _ _ _ (fun he => hk1 he.symm)
      · intro k hk
        rcases List.mem_cons.1 hk with hk | hk
        · subst hk
          rw [ihUn k hxL]
          simp only
          exact getD_set_self _ _ _ _ (by rw [hlen]; exact hxlt)
        · rw [ihVal k hk]

theorem map_svAt_set_ne (out : List SV) (i : ℕ) (v : SV) (L : List ℕ)
    (h : i ∉ L) : L.map (svAt (out.set i v)) = L.map (svAt out) := by
  refine List.map_congr_left ?_
  intro k hk
  simp only [svAt]
  exact getD_set_ne _ _ _ _ _ (fun he => h (he ▸ hk))

theorem notify_chars (C : C3) (hW : NWF C)
    (hdel : ∀ i, i < numGates C → (gateAt C i).delay = 0)
    (t0 i : ℕ) (st : EvState) (hlen : st.locals.length = numGates C)
    (hsh : ∀ j, st.locals.getD j [] = [] ∨ ∃ v, st.locals.getD j [] = [(t0, v)]) :
    (notifyConsumers C t0 i st).out = st.out ∧
    (notifyConsumers C t0 i st).heap =
      st.heap ++ (consumersList C i).map (fun j => (t0, j)) ∧
    (notifyConsumers C t0 i st).locals.length = st.locals.length ∧
    (∀ k, k ∉ consumersList C i →
      (notifyConsumers C t0 i st).locals.getD k [] = st.locals.getD k []) ∧
    (∀ k ∈ consumersList C i, (notifyConsumers C t0 i st).locals.getD k [] =
        [(t0, evalPending (gateAt C k).ty
          ((gateAt C k).inputs.map (svAt st.out)))]) := by
  rw [notifyConsumers_eq]
  refine notify_fold_chars C t0 (consumersList C i) (consumersList_nodup C i)
    ?_ st hlen (fun j _ => hsh j)
  intro j hj
  have hlt := ((consumersList_mem C i j).1 hj).1
  exact ⟨hlt, consumers_nonInpt C hW i j hj, hdel j hlt⟩

theorem stimBody_none (C : C3) (vec : List (ℕ × SV)) (t0 : ℕ) (s : EvState) (i : ℕ)
    (hfind : vec.find? (fun p => p.1 == (gateAt C i).address) = none) :
    stimBody C vec t0 s i = s := by
  have heq : stimBody C vec t0 s i =
      match vec.find? (fun p => p.1 == (gateAt C i).address) with
      | some p =>
          if (gateAt C i).ty == GType.gInpt && svAt s.out i != p.2 then
            notifyConsumers C t0 i { s with out := s.out.set i p.2 }
          else s
      | none => s := rfl
  rw [hfind] at heq
  exact heq

theorem stimBody_some (C : C3) (vec : List (ℕ × SV)) (t0 : ℕ) (s : EvState)
    (i : ℕ) (p : ℕ × SV)
    (hfind : vec.find? (fun q => q.1 == (gateAt C i).address) = some p) :
    stimBody C vec t0 s i =
      if (gateAt C i).ty == GType.gInpt && svAt s.out i != p.2 then
        notifyConsumers C t0 i { s with out := s.out.set i p.2 }
      else s := by
  have heq : stimBody C vec t0 s i =
      match vec.find? (fun q => q.1 == (gateAt C i).address) with
      | some p =>
          if (gateAt C i).ty == GType.gInpt && svAt s.out i != p.2 then
            notifyConsumers C t0 i { s with out := s.out.set i p.2 }
          else s
      | none => s := rfl
  rw [hfind] at heq
  exact heq

theorem vecVal_none (C : C3) (vec : List (ℕ × SV)) (i : ℕ)
    (hfind : vec.find? (fun p => p.1 == (gateAt C i).address) = none) :
    vecVal C vec i = SV.sU := by
  simp [vecVal, hfind]

theorem vecVal_some (C : C3) (vec : List (ℕ × SV)) (i : ℕ) (p : ℕ × SV)
    (hfind : vec.find? (fun q => q.1 == (gateAt C i).address) = some p) :
    vecVal C vec i = p.2 := by
  simp [vecVal, hfind]

set_option maxHeartbeats 1000000 in
theorem stim_step (C : C3) (vec : List (ℕ × SV)) (t0 : ℕ) (hW : NWF C)
    (hdel : ∀ i, i < numGates C → (gateAt C i).delay = 0)
    (m : ℕ) (hm : m < numGates C) (st : EvState)
    (h : StimInv C vec t0 m st) :
    StimInv C vec t0 (m + 1) (stimBody C vec t0 st m) := by
  cases hfind : vec.find? (fun q => q.1 == (gateAt C m).address) with
  | none =>
      rw [stimBody_none C vec t0 st m hfind]
      refine { outLen := h.outLen, locLen := h.locLen, heapT := h.heapT,
               heapLt := h.heapLt, heapNI := h.heapNI, locSh := h.locSh,
               pend := h.pend, heapNE := h.heapNE,
               outInptLt := ?_, outInptGe := ?_, outNon := h.outNon,
               changedPushed := ?_ }
      · intro j hj hty
        by_cases hjm : j = m
        · subst hjm
          rw [h.outInptGe j (Nat.le_refl j) hm hty, vecVal_none C vec j hfind]
        · exact h.outInptLt j (by omega) hty
      · intro j hj1 hj2 hty
        exact h.outInptGe j (by omega) hj2 hty
      · intro i hi hty hvv c hc
        by_cases him : i = m
        · subst him
          exact absurd (vecVal_none C vec i hfind) hvv
        · exact h.changedPushed i (by omega) hty hvv c hc
  | some p =>
      rw [stimBody_some C vec t0 st m p hfind]
      by_cases hcond : ((gateAt C m).ty == GType.gInpt && svAt st.out m != p.2) = true
      case neg =>
        rw [if_neg hcond]
        refine { outLen := h.outLen, locLen := h.locLen, heapT := h.heapT,
                 heapLt := h.heapLt, heapNI := h.heapNI, locSh := h.locSh,
                 pend := h.pend, heapNE := h.heapNE,
                 outInptLt := ?_, outInptGe := ?_, outNon := h.outNon,
                 changedPushed := ?_ }
        · intro j hj hty
          by_cases hjm : j = m
          · subst hjm
            have hb1 : ((gateAt C j).ty == GType.gInpt) = true := by simp [hty]
            have hb2 : (svAt st.out j != p.2) = false := by
              cases hb : svAt st.out j != p.2 with
              | false => rfl
              | true => exact absurd (by rw [hb1, hb]; rfl) hcond
            have heqv : svAt st.out j = p.2 := by simpa using hb2
            rw [heqv, vecVal_some C vec j p hfind]
          · exact h.outInptLt j (by omega) hty
        · intro j hj1 hj2 hty
          exact h.outInptGe j (by omega) hj2 hty
        · intro i hi hty hvv c hc
          by_cases him : i = m
          · subst him
            rw [vecVal_some C vec i p hfind] at hvv
            have hout : svAt st.out i = SV.sU := h.outInptGe i (Nat.le_refl i) hm hty
            have hb1 : ((gateAt C i).ty == GType.gInpt) = true := by simp [hty]
            have hb2 : (svAt st.out i != p.2) = true := by
              rw [hout]
              simpa using fun he => hvv he.symm
            exact absurd (by rw [hb1, hb2]; rfl) hcond
          · exact h.changedPushed i (by omega) hty hvv c hc
      case pos =>
        rw [if_pos hcond]
        have hand := hcond
        rw [Bool.and_eq_true] at hand
        obtain ⟨hty', hne'⟩ := hand
        have hty : (gateAt C m).ty = GType.gInpt := by simpa using hty'
        have hnep : svAt st.out m ≠ p.2 := by simpa using hne'
        obtain ⟨hOut, hHeap, hLen, hUn, hVal⟩ :=
          notify_chars C hW hdel t0 m { st with out := st.out.set m p.2 }
            (by simpa using h.locLen) (fun j => h.locSh j)
        have hHI : heapIdx (notifyConsumers C t0 m { st with out := st.out.set m p.2 }) =
            heapIdx st ++ consumersList C m := by
          simp only [heapIdx, hHeap, List.map_append, List.map_map]
          congr 1
          simp [Function.comp]
        refine { outLen := ?_, locLen := ?_, heapT := ?_, heapLt := ?_,
                 heapNI := ?_, locSh := ?_, pend := ?_, heapNE := ?_,
                 outInptLt := ?_, outInptGe := ?_, outNon := ?_,
                 changedPushed := ?_ }
        · rw [hOut]
          simpa [List.length_set] using h.outLen
        · rw [hLen]
          simpa using h.locLen
        · intro q hq
          rw [hHeap] at hq
          rcases List.mem_append.1 hq with hq | hq
          · exact h.heapT q hq
          · obtain ⟨j, _, hj2⟩ := List.mem_map.1 hq
            rw [← hj2]
        · intro q hq
          rw [hHeap] at hq
          rcases List.mem_append.1 hq with hq | hq
          · exact h.heapLt q hq
          · obtain ⟨j, hj1, hj2⟩ := List.mem_map.1 hq
            rw [← hj2]
            exact ((consumersList_mem C m j).1 hj1).1
        · intro q hq
          rw [hHeap] at hq
          rcases List.mem_append.1 hq with hq | hq
          · exact h.heapNI q hq
          · obtain ⟨j, hj1, hj2⟩ := List.mem_map.1 hq
            rw [← hj2]
            exact consumers_nonInpt C hW m j hj1
        · intro j
          by_cases hjL : j ∈ consumersList C m
          · exact Or.inr ⟨_, hVal j hjL⟩
          · rw [hUn j hjL]
            exact h.locSh j
        · intro j hj v hv
          by_cases hjL : j ∈ consumersList C m
          · rw [hVal j hjL] at hv
            simp only [List.cons.injEq, Prod.mk.injEq, and_true] at hv
            rw [hOut, ← hv.2]
          · rw [hUn j hjL] at hv
            have hpold := h.pend j hj v hv
            have hmnotin : m ∉ (gateAt C j).inputs := fun hmem =>
              hjL ((consumersList_mem C m j).2 ⟨hj, hmem⟩)
            rw [hOut]
            show v = evalPending (gateAt C j).ty
              ((gateAt C j).inputs.map (svAt (st.out.set m p.2)))
            rw [map_svAt_set_ne _ _ _ _ hmnotin]
            exact hpold
        · intro j hj
          rw [hHI] at hj
          by_cases hjL : j ∈ consumersList C m
          · rw [hVal j hjL]
            simp
          · rw [hUn j hjL]
            rcases List.mem_append.1 hj with hj | hj
            · exact h.heapNE j hj
            · exact absurd hj hjL
        · intro j hj hjty
          rw [hOut]
          show svAt (st.out.set m p.2) j = vecVal C vec j
          by_cases hjm : j = m
          · subst hjm
            simp only [svAt]
            rw [getD_set_self _ _ _ _ (by rw [h.outLen]; exact hm)]
            rw [vecVal_some C vec j p hfind]
          · simp only [svAt]
            rw [getD_set_ne _ _ _ _ _ (fun he => hjm he.symm)]
            exact h.outInptLt j (by omega) hjty
        · intro j hj1 hj2 hjty
          rw [hOut]
          show svAt (st.out.set m p.2) j = SV.sU
          have hjm : j ≠ m := by omega
          simp only [svAt]
          rw [getD_set_ne _ _ _ _ _ (fun he => hjm he.symm)]
          exact h.outInptGe j (by omega) hj2 hjty
        · intro j hj hjty
          rw [hOut]
          show svAt (st.out.set m p.2) j = SV.sU
          have hjm : j ≠ m := fun he => hjty (he ▸ hty)
          simp only [svAt]
          rw [getD_set_ne _ _ _ _ _ (fun he => hjm he.symm)]
          exact h.outNon j hj hjty
        · intro i hi hity hivv c hc
          rw [hHI]
          by_cases him : i = m
          · subst him
            exact List.mem_append.2 (Or.inr hc)
          · exact List.mem_append.2
              (Or.inl (h.changedPushed i (by omega) hity hivv c hc))

theorem stimInv_init (C : C3) (vec : List (ℕ × SV)) (t0 : ℕ) :
    StimInv C vec t0 0 (initEvState C) := by
  refine { outLen := by simp [initEvState], locLen := by simp [initEvState],
           heapT := ?_, heapLt := ?_, heapNI := ?_, locSh := ?_, pend := ?_,
           heapNE := ?_, outInptLt := ?_, outInptGe := ?_, outNon := ?_,
           changedPushed := ?_ }
  · intro p hp; exact absurd hp (List.not_mem_nil p)
  · intro p hp; exact absurd hp (List.not_mem_nil p)
  · intro p hp; exact absurd hp (List.not_mem_nil p)
  · intro j
    exact Or.inl (getD_replicate _ _ _)
  · intro j hj v hv
    simp only [initEvState] at hv
    rw [getD_replicate] at hv
    exact absurd hv (by simp)
  · intro j hj
    simp [initEvState, heapIdx] at hj
  · intro j hj
    omega
  · intro j _ hj2 _
    simp only [initEvState, svAt]
    exact getD_replicate _ _ _
  · intro j hj _
    simp only [initEvState, svAt]
    exact getD_replicate _ _ _
  · intro i hi
    omega

theorem stim_fold (C : C3) (vec : List (ℕ × SV)) (t0 : ℕ) (hW : NWF C)
    (hdel : ∀ i, i < numGates C → (gateAt C i).delay = 0) :
    ∀ m, m ≤ numGates C →
      StimInv C vec t0 m ((List.range m).foldl (stimBody C vec t0) (initEvState C)) := by
  intro m
  induction m with
  | zero => intro _; exact stimInv_init C vec t0
  | succ m ih =>
      intro hm1
      have hm : m < numGates C := by omega
      rw [List.range_succ, List.foldl_append]
      simp only [List.foldl_cons, List.foldl_nil]
      exact stim_step C vec t0 hW hdel m hm _ (ih (by omega))

theorem stim_to_evInv (C : C3) (vec : List (ℕ × SV)) (t0 : ℕ) (hW : NWF C)
    (st : EvState) (h : StimInv C vec t0 (numGates C) st) : EvInv C vec t0 st := by
  have hcone : ∀ j, j < numGates C → EvClean C st j →
      (gateAt C j).ty ≠ GType.gInpt → svAt (zeroDelaySim C vec) j = SV.sU := by
    intro j
    induction j using Nat.strong_induction_on with
    | _ j ih =>
        intro hj hcl hty
        rw [final_nonInpt C vec hW.inputsLt j hj hty]
        refine evalZero_allU _ _ ?_ ?_
        · have hne := hW.nonInptInputs j hj hty
          simpa using hne
        · intro x hx
          obtain ⟨k, hk, hkx⟩ := List.mem_map.1 hx
          have hkj : k < j := hW.inputsLt j hj k hk
          have hkn : k < numGates C := by omega
          have hkclean : EvClean C st k := fun a ha =>
            hcl a (Anc.step a k j ha hk)
          by_cases hkty : (gateAt C k).ty = GType.gInpt
          · by_cases hvv : vecVal C vec k = SV.sU
            · rw [← hkx, final_inpt C vec k hkn hkty, hvv]
            · exfalso
              have hjcons : j ∈ consumersList C k :=
                (consumersList_mem C k j).2 ⟨hj, hk⟩
              exact hcl j (Anc.refl j) (h.changedPushed k hkn hkty hvv j hjcons)
          · rw [← hkx]
            exact ih k hkj hkn hkclean hkty
  refine { outLen := h.outLen, locLen := h.locLen, heapT := h.heapT,
           heapLt := h.heapLt, heapNI := h.heapNI, locSh := h.locSh,
           pend := h.pend, pendE := ?_, inptOut := ?_, cleanDone := ?_ }
  · intro j hj hjh hle
    exact absurd hle (h.heapNE j hjh)
  · intro j hj hty
    rw [h.outInptLt j hj hty, final_inpt C vec j hj hty]
  · intro j hj hcl
    by_cases hty : (gateAt C j).ty = GType.gInpt
    · rw [h.outInptLt j hj hty, final_inpt C vec j hj hty]
    · rw [h.outNon j hj hty, hcone j hj hcl hty]

set_option maxHeartbeats 4000000 in
theorem drain_step_inv (C : C3) (vec : List (ℕ × SV)) (t0 : ℕ) (hW : NWF C)
    (hdel : ∀ i, i < numGates C → (gateAt C i).delay = 0)
    (hz : ∀ p ∈ vec, p.2 ≠ SV.sZ)
    (st : EvState) (h : EvInv C vec t0 st) (e : ℕ × ℕ) (h2 : List (ℕ × ℕ))
    (hpop : popMinPair st.heap = some (e, h2)) :
    EvInv C vec t0 (notifyConsumers C t0 e.2
      { out := st.out.set e.2
          (updateOutput (st.locals.getD e.2 []) t0 (svAt st.out e.2)).2,
        locals := st.locals.set e.2
          (updateOutput (st.locals.getD e.2 []) t0 (svAt st.out e.2)).1,
        heap := h2 }) := by
  obtain ⟨hperm, hmin⟩ := popMinPair_spec hpop
  obtain ⟨et, i⟩ := e
  have heMem : (et, i) ∈ st.heap := hperm.mem_iff.2 (List.mem_cons_self _ h2)
  have het : et = t0 := h.heapT (et, i) heMem
  have hiLt : i < numGates C := h.heapLt (et, i) heMem
  have hiNI : (gateAt C i).ty ≠ GType.gInpt := h.heapNI (et, i) heMem
  have hiHeap : i ∈ heapIdx st := List.mem_map.2 ⟨(et, i), heMem, rfl⟩
  have hiNotInput : i ∉ (gateAt C i).inputs := fun hmem =>
    Nat.lt_irrefl i (hW.inputsLt i hiLt i hmem)
  have hrEq : updateOutput (st.locals.getD i []) t0 (svAt st.out i) =
      ([], evalPending (gateAt C i).ty
        ((gateAt C i).inputs.map (svAt st.out))) := by
    rcases h.locSh i with he | ⟨v, he⟩
    · rw [he, updateOutput_nil, h.pendE i hiLt hiHeap he]
    · rw [he, updateOutput_singleton, h.pend i hiLt v he]
  have hInputsDone : ∀ k ∈ (gateAt C i).inputs,
      svAt st.out k = svAt (zeroDelaySim C vec) k := by
    intro k hk
    have hki : k < i := hW.inputsLt i hiLt k hk
    refine h.cleanDone k (by omega) ?_
    intro a ha hamem
    obtain ⟨q, hq1, hq2⟩ := List.mem_map.1 hamem
    have hle := hmin q hq1
    have hqt : q.1 = t0 := h.heapT q hq1
    have hia : i ≤ a := by
      rw [← hq2]
      simp only [pairLe, het, hqt, Bool.or_eq_true, Bool.and_eq_true,
        decide_eq_true_eq, beq_iff_eq] at hle
      rcases hle with hlt | ⟨_, hle2⟩
      · omega
      · exact hle2
    have hak : a ≤ k := (anc_le C hW.inputsLt ha (by omega)).1
    omega
  have hPendFinal : evalPending (gateAt C i).ty
      ((gateAt C i).inputs.map (svAt st.out)) = svAt (zeroDelaySim C vec) i := by
    rw [List.map_congr_left hInputsDone]
    exact final_fix C vec hW.inputsLt hz i hiLt hiNI
  rw [hrEq]
  obtain ⟨pend2, hpend2⟩ :
      ∃ w, evalPending (gateAt C i).ty
        ((gateAt C i).inputs.map (svAt st.out)) = w := ⟨_, rfl⟩
  rw [hpend2] at hPendFinal
  rw [hpend2]
  have hlocSh2 : ∀ j, (st.locals.set i ([] : List (ℕ × SV))).getD j [] = [] ∨
      ∃ v, (st.locals.set i ([] : List (ℕ × SV))).getD j [] = [(t0, v)] := by
    intro j
    rw [getD_set]
    split
    · exact Or.inl rfl
    · exact h.locSh j
  obtain ⟨hOut, hHeap, hLen, hUn, hVal⟩ :=
    notify_chars C hW hdel t0 i
      { out := st.out.set i pend2, locals := st.locals.set i [], heap := h2 }
      (by simpa [List.length_set] using h.locLen) hlocSh2
  have hHI : heapIdx (notifyConsumers C t0 i
      { out := st.out.set i pend2, locals := st.locals.set i [], heap := h2 }) =
      h2.map Prod.snd ++ consumersList C i := by
    simp only [heapIdx, hHeap, List.map_append, List.map_map]
    congr 1
    simp [Function.comp]
  have hpermIdx : (heapIdx st).Perm (i :: h2.map Prod.snd) := by
    simpa [heapIdx] using hperm.map Prod.snd
  have hO2 : (notifyConsumers C t0 i
      { out := st.out.set i pend2, locals := st.locals.set i [], heap := h2 }).out =
      st.out.set i pend2 := hOut
  refine { outLen := ?_, locLen := ?_, heapT := ?_, heapLt := ?_, heapNI := ?_,
           locSh := ?_, pend := ?_, pendE := ?_, inptOut := ?_, cleanDone := ?_ }
  · rw [hO2]
    simpa [List.length_set] using h.outLen
  · rw [hLen]
    simpa [List.length_set] using h.locLen
  · intro q hq
    rw [hHeap] at hq
    rcases List.mem_append.1 hq with hq | hq
    · exact h.heapT q (hperm.mem_iff.2 (List.mem_cons.2 (Or.inr hq)))
    · obtain ⟨j, _, hj2⟩ := List.mem_map.1 hq
      rw [← hj2]
  · intro q hq
    rw [hHeap] at hq
    rcases List.mem_append.1 hq with hq | hq
    · exact h.heapLt q (hperm.mem_iff.2 (List.mem_cons.2 (Or.inr hq)))
    · obtain ⟨j, hj1, hj2⟩ := List.mem_map.1 hq
      rw [← hj2]
      exact ((consumersList_mem C i j).1 hj1).1
  · intro q hq
    rw [hHeap] at hq
    rcases List.mem_append.1 hq with hq | hq
    · exact h.heapNI q (hperm.mem_iff.2 (List.mem_cons.2 (Or.inr hq)))
    · obtain ⟨j, hj1, hj2⟩ := List.mem_map.1 hq
      rw [← hj2]
      exact consumers_nonInpt C hW i j hj1
  · intro j
    by_cases hjL : j ∈ consumersList C i
    · exact Or.inr ⟨_, hVal j hjL⟩
    · rw [hUn j hjL]
      exact hlocSh2 j
  · intro j hj v hv
    by_cases hjL : j ∈ consumersList C i
    · rw [hVal j hjL] at hv
      simp only [List.cons.injEq, Prod.mk.injEq, and_true] at hv
      rw [hO2, ← hv.2]
    · rw [hUn j hjL] at hv
      by_cases hji : j = i
      · subst hji
        rw [getD_set_self _ _ _ _ (by rw [h.locLen]; exact hiLt)] at hv
        exact absurd hv.symm (by simp)
      · rw [getD_set_ne _ _ _ _ _ (fun he => hji he.symm)] at hv
        have hpold := h.pend j hj v hv
        have hmnotin : i ∉ (gateAt C j).inputs := fun hmem =>
          hjL ((consumersList_mem C i j).2 ⟨hj, hmem⟩)
        rw [hO2]
        show v = evalPending (gateAt C j).ty
          ((gateAt C j).inputs.map (svAt (st.out.set i pend2)))
        rw [map_svAt_set_ne _ _ _ _ hmnotin]
        exact hpold
  · intro j hj hjh hje
    by_cases hjL : j ∈ consumersList C i
    · rw [hVal j hjL] at hje
      exact absurd hje (by simp)
    · rw [hUn j hjL] at hje
      rw [hO2]
      by_cases hji : j = i
      · subst hji
        show svAt (st.out.set j pend2) j = evalPending (gateAt C j).ty
          ((gateAt C j).inputs.map (svAt (st.out.set j pend2)))
        rw [map_svAt_set_ne _ _ _ _ hiNotInput]
        simp only [svAt]
        rw [getD_set_self _ _ _ _ (by rw [h.outLen]; exact hiLt)]
        exact hpend2.symm
      · rw [getD_set_ne _ _ _ _ _ (fun he => hji he.symm)] at hje
        have hjheapSt : j ∈ heapIdx st := by
          rw [hHI] at hjh
          rcases List.mem_append.1 hjh with hjh | hjh
          · exact (hpermIdx.mem_iff).2 (List.mem_cons.2 (Or.inr hjh))
          · exact absurd hjh hjL
        have hpE := h.pendE j hj hjheapSt hje
        have hmnotin : i ∉ (gateAt C j).inputs := fun hmem =>
          hjL ((consumersList_mem C i j).2 ⟨hj, hmem⟩)
        show svAt (st.out.set i pend2) j = evalPending (gateAt C j).ty
          ((gateAt C j).inputs.map (svAt (st.out.set i pend2)))
        rw [map_svAt_set_ne _ _ _ _ hmnotin]
        simp only [svAt]
        rw [getD_set_ne _ _ _ _ _ (fun he => hji he.symm)]
        exact hpE
  · intro j hj hty
    have hji : j ≠ i := fun he => hiNI (he ▸ hty)
    rw [hO2]
    show svAt (st.out.set i pend2) j = svAt (zeroDelaySim C vec) j
    simp only [svAt]
    rw [getD_set_ne _ _ _ _ _ (fun he => hji he.symm)]
    exact h.inptOut j hj hty
  · intro j hj hcl
    by_cases hanc : Anc C i j
    · rcases anc_decomp C hanc with hij | ⟨c, hc, hic⟩
      · subst hij
        rw [hO2]
        show svAt (st.out.set i pend2) i = svAt (zeroDelaySim C vec) i
        simp only [svAt]
        rw [getD_set_self _ _ _ _ (by rw [h.outLen]; exact hiLt)]
        exact hPendFinal
      · exfalso
        have hcn : c < numGates C := (anc_le C hW.inputsLt hc hj).2
        have hcL : c ∈ consumersList C i := (consumersList_mem C i c).2 ⟨hcn, hic⟩
        refine hcl c hc ?_
        rw [hHI]
        exact List.mem_append.2 (Or.inr hcL)
    · have hji : j ≠ i := fun he => hanc (he ▸ Anc.refl j)
      have hcleanSt : EvClean C st j := by
        intro a ha hamem
        rcases List.mem_cons.1 ((hpermIdx.mem_iff).1 hamem) with hai | hah2
        · exact hanc (hai ▸ ha)
        · refine hcl a ha ?_
          rw [hHI]
          exact List.mem_append.2 (Or.inl hah2)
      have hdone := h.cleanDone j hj hcleanSt
      rw [hO2]
      show svAt (st.out.set i pend2) j = svAt (zeroDelaySim C vec) j
      simp only [svAt]
      rw [getD_set_ne _ _ _ _ _ (fun he => hji he.symm)]
      exact hdone

theorem drain_inv (C : C3) (vec : List (ℕ × SV)) (t0 : ℕ) (hW : NWF C)
    (hdel : ∀ i, i < numGates C → (gateAt C i).delay = 0)
    (hz : ∀ p ∈ vec, p.2 ≠ SV.sZ) :
    ∀ (fuel : ℕ) (st : EvState), EvInv C vec t0 st →
      EvInv C vec t0 (drain C t0 fuel st) := by
  intro fuel
  induction fuel with
  | zero => intro st h; exact h
  | succ fuel ih =>
      intro st h
      cases hpop : popMinPair st.heap with
      | none =>
          have hstep : drain C t0 (fuel + 1) st = st := by
            simp only [drain]
            rw [hpop]
          rw [hstep]
          exact h
      | some pr =>
          obtain ⟨e, h2⟩ := pr
          have he1 : e.1 = t0 :=
            h.heapT e ((popMinPair_spec hpop).1.mem_iff.2 (List.mem_cons_self e h2))
          have hbeq : (e.1 == t0) = true := by simp [he1]
          have hstep : drain C t0 (fuel + 1) st =
              drain C t0 fuel (notifyConsumers C t0 e.2
                { out := st.out.set e.2
                    (updateOutput (st.locals.getD e.2 []) t0 (svAt st.out e.2)).2,
                  locals := st.locals.set e.2
                    (updateOutput (st.locals.getD e.2 []) t0 (svAt st.out e.2)).1,
                  heap := h2 }) := by
            simp only [drain]
            rw [hpop]
            simp only [hbeq, if_true]
          rw [hstep]
          exact ih _ (drain_step_inv C vec t0 hW hdel hz st h e h2 hpop)

theorem evinv_done (C : C3) (vec : List (ℕ × SV)) (t0 : ℕ) (st : EvState)
    (h : EvInv C vec t0 st) (he : st.heap = []) :
    ∀ j, j < numGates C → svAt st.out j = svAt (zeroDelaySim C vec) j := by
  intro j hj
  refine h.cleanDone j hj ?_
  intro a _ hamem
  simp only [heapIdx, he] at hamem
  exact absurd hamem (List.not_mem_nil a)

/-- C9 counterexample: on the one-`and` netlist `exC9` with the stimulus
assigning `Z` to the primary input, the event-driven simulator's drained
steady state shows `Z` on the output gate while the zero-delay evaluator's
single pass shows `U` — step2's `and` evaluator propagates `Z` where
step1's collapses it to `U`, so the claimed equivalence fails for this
primary-input vector. -/
theorem c9_counterexample :
    (eventSimOne exC9 exC9VecZ 0 4).heap = [] ∧
    svAt (eventSimOne exC9 exC9VecZ 0 4).out 1 = SV.sZ ∧
    svAt (zeroDelaySim exC9 exC9VecZ) 1 = SV.sU := by decide

/-- C9 (amended): on a well-formed netlist with every delay zero, for
every `Z`-free primary-input vector, once the event-driven simulator's
global queue has emptied its gate outputs equal the zero-delay
evaluator's single topological-order pass on the same vector. -/
theorem c9_amended (C : C3) (hW : NWF C)
    (hdel : ∀ i, i < numGates C → (gateAt C i).delay = 0)
    (vec : List (ℕ × SV)) (hz : ∀ p ∈ vec, p.2 ≠ SV.sZ) (t0 fuel : ℕ)
    (hempty : (eventSimOne C vec t0 fuel).heap = []) :
    (eventSimOne C vec t0 fuel).out = zeroDelaySim C vec := by
  have hstim : StimInv C vec t0 (numGates C)
      (applyStimulus C vec t0 (initEvState C)) := by
    rw [applyStimulus_eq]
    exact stim_fold C vec t0 hW hdel (numGates C) (Nat.le_refl _)
  have hinv0 : EvInv C vec t0 (applyStimulus C vec t0 (initEvState C)) :=
    stim_to_evInv C vec t0 hW _ hstim
  have hinv : EvInv C vec t0 (eventSimOne C vec t0 fuel) := by
    rw [eventSimOne]
    exact drain_inv C vec t0 hW hdel hz fuel _ hinv0
  have hlen1 : (eventSimOne C vec t0 fuel).out.length = numGates C := hinv.outLen
  have hlen2 : (zeroDelaySim C vec).length = numGates C := zeroDelaySim_length C vec
  have hpt := evinv_done C vec t0 _ hinv hempty
  apply List.ext_getElem (by rw [hlen1, hlen2])
  intro j hj1 hj2
  have hj : j < numGates C := by rw [← hlen1]; exact hj1
  have hsv := hpt j hj
  simp only [svAt] at hsv
  rw [List.getD_eq_getElem _ _ hj1, List.getD_eq_getElem _ _ hj2] at hsv
  exact hsv

/-- Witness for the amended C9 equivalence: the concrete netlist `exC9`
with the `Z`-free stimulus `exC9Vec1`, where the drained event simulation
and the zero-delay pass both yield outputs `[1, 1]`. -/
theorem c9_witness :
    (eventSimOne exC9 exC9Vec1 0 4).out = zeroDelaySim exC9 exC9Vec1 :=
  c9_amended exC9
    ⟨by decide, by decide, by decide, by
      intro i j hij hj
      have hb : ∀ j, j < numGates exC9 → ∀ i, i < j →
          (gateAt exC9 i).address < (gateAt exC9 j).address := by decide
      exact hb j hj i hij⟩
    (by decide) exC9Vec1 (by decide) 0 4 (by decide)

